import Mathlib

/-!
Shallow embedding of the chess engine in `src/main.cpp`.

Conventions of the translation:
* `Piece.info` is the byte of the C++ `Piece` struct (team bit ||| piece-type bit).
* The board is a `List Piece` of length 64, indexed as in the C++ code
  (`piece_at(col,row) = board[row*8+col]`, `col = i % 8`, `row = i / 8`).
* The move history array-with-cursor is modelled as a `List Move` whose head is
  the most recently pushed move (`add` = cons, `pop` = uncons, `peek` = head).
* C++ `int` arithmetic on coordinates is modelled with `Int`; board indices that
  the C++ code computes with possibly-signed intermediate values are produced
  with `Int.toNat` after the code's own bounds guards.
* The four castling-rights bits live in `ChessGame.flags` (a value < 16 in every
  reachable state), so the C++ `flags & ~BIT` is modelled by masking within the
  low four bits.
-/

namespace Chess

/-- Piece-type constants from the C++ `PieceType` enum. -/
def KING : Nat := 2
def QUEEN : Nat := 4
def ROOK : Nat := 8
def BISHOP : Nat := 16
def KNIGHT : Nat := 32
def PAWN : Nat := 64
def NONE : Nat := 128

/-- `Type_Mask = KING | QUEEN | ROOK | BISHOP | KNIGHT | PAWN`. -/
def Type_Mask : Nat := 126

/-- Move-flag constants from the C++ `MoveFlags` enum. -/
def ATTACK : Nat := 1
def FIRST_MOVE : Nat := 128
def CASTLE_LEFT_BEFORE_MOVE : Nat := 256
def CASTLE_RIGHT_BEFORE_MOVE : Nat := 512
def PROMOTION : Nat := 1024
def DOUBLE_MOVE : Nat := 2048
def EN_PASSANT : Nat := 4096

/-- Game-flag constants from the C++ `GameFlags` enum. -/
def CAN_WHITE_CASTLE_RIGHT : Nat := 1
def CAN_WHITE_CASTLE_LEFT : Nat := 2
def CAN_BLACK_CASTLE_RIGHT : Nat := 4
def CAN_BLACK_CASTLE_LEFT : Nat := 8

/-- The C++ `Piece` struct: one info byte. -/
structure Piece where
  info : Nat
deriving DecidableEq, Repr

/-- `Piece::team()`: the low bit of the info byte (0 = WHITE, 1 = BLACK). -/
def Piece.team (p : Piece) : Nat := p.info &&& 1

/-- `Piece::other_team()`. -/
def Piece.other_team (p : Piece) : Nat := if p.team = 0 then 1 else 0

/-- `Piece::type()`: `info & ~Team::BLACK` on a byte. -/
def Piece.type (p : Piece) : Nat := p.info &&& 254

/-- The empty-square piece value `Piece(PieceType::NONE)`. -/
def pieceNone : Piece := ⟨NONE⟩

/-- The C++ `Move` struct. -/
structure Move where
  source : Nat
  destination : Nat
  flags : Nat
deriving DecidableEq, Repr

/-- `Move::get_attacked_piece_type()`: `flags & Type_Mask`. -/
def Move.get_attacked_piece_type (m : Move) : Nat := m.flags &&& Type_Mask

/-- The core state of the C++ `ChessGame` struct (the out-of-scope
`is_against_ai` UI field is omitted).  History is a stack, head = newest. -/
structure ChessGame where
  flags : Nat
  current_turn : Nat
  board : List Piece
  history : List Move
deriving DecidableEq, Repr

/-- Board read `board[i]` (out-of-range reads, which are UB in C++, yield an
empty square; they never occur on the paths the theorems traverse). -/
def bget (b : List Piece) (i : Nat) : Piece := b.getD i pieceNone

/-- Board write `board[i] = p`. -/
def bset (b : List Piece) (i : Nat) (p : Piece) : List Piece := b.set i p

/-- Board read at a signed index (the C++ code computes some indices with int
arithmetic); out-of-range yields an empty square. -/
def bgetI (b : List Piece) (i : Int) : Piece :=
  if 0 ≤ i ∧ i < 64 then bget b i.toNat else pieceNone

/-- `ChessGame::piece_at(col,row) = board[row*8+col]`, with int coordinates. -/
def pieceAt (g : ChessGame) (c r : Int) : Piece := bgetI g.board (r * 8 + c)

/-- The `Is_Occupied(col,row)` macro. -/
def Is_Occupied (g : ChessGame) (c r : Int) : Bool := (pieceAt g c r).type ≠ NONE

/-- `ChessGame::can_castle_right`. -/
def can_castle_right (g : ChessGame) (is_white : Bool) : Bool :=
  if is_white then g.flags &&& CAN_WHITE_CASTLE_RIGHT ≠ 0
  else g.flags &&& CAN_BLACK_CASTLE_RIGHT ≠ 0

/-- `ChessGame::can_castle_left`. -/
def can_castle_left (g : ChessGame) (is_white : Bool) : Bool :=
  if is_white then g.flags &&& CAN_WHITE_CASTLE_LEFT ≠ 0
  else g.flags &&& CAN_BLACK_CASTLE_LEFT ≠ 0

/-- `ChessGame::set_castle_right` (clearing masks within the 4 rights bits;
`flags < 16` in every reachable state). -/
def set_castle_right (value : Bool) (is_white : Bool) (flags : Nat) : Nat :=
  if is_white then (if value then flags ||| 1 else flags &&& 14)
  else (if value then flags ||| 4 else flags &&& 11)

/-- `ChessGame::set_castle_left`. -/
def set_castle_left (value : Bool) (is_white : Bool) (flags : Nat) : Nat :=
  if is_white then (if value then flags ||| 2 else flags &&& 13)
  else (if value then flags ||| 8 else flags &&& 7)

/-- The en-passant offset computed by both `performe_move` and
`undo_last_move`:
`offset = |source - destination| == 9 ? 1 : -1; if (is_white) offset = -offset`. -/
def epOffset (is_white : Bool) (m : Move) : Int :=
  let o : Int := if ((m.source : Int) - (m.destination : Int)).natAbs = 9 then 1 else -1
  if is_white then -o else o

/-- `performe_move` from `src/main.cpp`. -/
def performe_move (g : ChessGame) (m : Move) : ChessGame :=
  let turn' := g.current_turn ^^^ 1
  let hist' := m :: g.history
  let piece := bget g.board m.source
  let is_white := piece.team = 0
  let b1 := bset (bset g.board m.destination piece) m.source pieceNone
  let b2 :=
    if piece.type = PAWN then
      if m.flags &&& EN_PASSANT ≠ 0 then
        bset b1 ((m.source : Int) + epOffset is_white m).toNat pieceNone
      else if m.flags &&& PROMOTION ≠ 0 then
        bset b1 m.destination ⟨QUEEN ||| piece.team⟩
      else b1
    else if piece.type = KING then
      let source_col := m.source % 8
      let dest_col := m.destination % 8
      if ((source_col : Int) - (dest_col : Int)).natAbs > 1 then
        let row := m.destination / 8
        if dest_col = 6 then
          bset (bset b1 (row * 8 + 5) (bget b1 (row * 8 + 7))) (row * 8 + 7) pieceNone
        else
          bset (bset b1 (row * 8 + dest_col + 1) (bget b1 (row * 8))) (row * 8) pieceNone
      else b1
    else b1
  let flags' :=
    if m.flags &&& FIRST_MOVE ≠ 0 then
      if piece.type = KING then
        set_castle_left false is_white (set_castle_right false is_white g.flags)
      else if piece.type = ROOK then
        if m.source % 8 = 7 then set_castle_right false is_white g.flags
        else set_castle_left false is_white g.flags
      else g.flags
    else g.flags
  ⟨flags', turn', b2, hist'⟩

/-- `undo_last_move` from `src/main.cpp`.  Popping an empty history is UB in
the C++ code; here it only flips the side to move. -/
def undo_last_move (g : ChessGame) : ChessGame :=
  let turn' := g.current_turn ^^^ 1
  match g.history with
  | [] => { g with current_turn := turn' }
  | m :: rest =>
    let piece := bget g.board m.destination
    let is_white := piece.team = 0
    let b1 := bset (bset g.board m.source piece) m.destination pieceNone
    let b2 :=
      if m.flags &&& ATTACK ≠ 0 then
        bset b1 m.destination ⟨m.get_attacked_piece_type ||| piece.other_team⟩
      else b1
    let b3 :=
      if m.flags &&& PROMOTION ≠ 0 then
        bset b2 m.source ⟨PAWN ||| piece.team⟩
      else b2
    let b4 :=
      if piece.type = PAWN then
        if m.flags &&& EN_PASSANT ≠ 0 then
          bset b3 ((m.source : Int) + epOffset is_white m).toNat ⟨PAWN ||| piece.other_team⟩
        else b3
      else if piece.type = KING then
        let source_col := m.source % 8
        let dest_col := m.destination % 8
        if ((source_col : Int) - (dest_col : Int)).natAbs > 1 then
          let row := m.source / 8
          if dest_col = 6 then
            bset (bset b3 (row * 8 + 7) ⟨ROOK ||| piece.team⟩) (row * 8 + 5) pieceNone
          else
            bset (bset b3 (row * 8) (bget b3 (row * 8 + dest_col + 1))) (row * 8 + dest_col + 1) pieceNone
        else b3
      else b3
    let flags' :=
      if (piece.type = KING ∨ piece.type = ROOK) ∧ m.flags &&& FIRST_MOVE ≠ 0 then
        let f1 := if m.flags &&& CASTLE_RIGHT_BEFORE_MOVE ≠ 0 then
            set_castle_right true is_white g.flags else g.flags
        if m.flags &&& CASTLE_LEFT_BEFORE_MOVE ≠ 0 then
          set_castle_left true is_white f1 else f1
      else g.flags
    ⟨flags', turn', b4, rest⟩

/-- Build the move that the `Call_On(dest_col, dest_row, flags)` macro builds. -/
def mkMove (pos : Nat) (c r : Int) (f : Nat) : Move := ⟨pos, (r * 8 + c).toNat, f⟩

/-- One square of the `Call_On_And_Maybe_Attack` macro / of the king's 3×3
scan: empty square yields a quiet move, enemy piece yields a capture. -/
def stepCand (g : ChessGame) (pos : Nat) (p : Piece) (c r : Int) (f : Nat) : List Move :=
  if c ≥ 0 ∧ c < 8 ∧ r ≥ 0 ∧ r < 8 then
    let other := pieceAt g c r
    if other.type = NONE then [mkMove pos c r f]
    else if other.team ≠ p.team then [mkMove pos c r (f ||| ATTACK ||| other.type)]
    else []
  else []

/-- The `Iterate_Col_And_Row(col_dir,row_dir,flags)` macro: walk from the
square after `(c,r)` in direction `(dc,dr)` until the edge, an own piece
(stop), or an enemy piece (capture, stop).  `fuel = 8` always suffices on an
8×8 board. -/
def slide (g : ChessGame) (pos : Nat) (p : Piece) (c r dc dr : Int) (f : Nat) :
    Nat → List Move
  | 0 => []
  | fuel + 1 =>
    let c' := c + dc
    let r' := r + dr
    if c' < 8 ∧ r' < 8 ∧ c' > -1 ∧ r' > -1 then
      let other := pieceAt g c' r'
      if other.type = NONE then
        mkMove pos c' r' f :: slide g pos p c' r' dc dr f fuel
      else if other.team ≠ p.team then [mkMove pos c' r' (f ||| ATTACK ||| other.type)]
      else []
    else []

/-- The pawn branch of `foreach_piece_legal_move` (candidate moves, before the
full-legality filter). -/
def pawnCands (g : ChessGame) (pos : Nat) : List Move :=
  let p := bget g.board pos
  let is_white := p.team = 0
  let col : Int := pos % 8
  let row : Int := pos / 8
  let direction : Int := if is_white then -1 else 1
  let double_move_row : Int := if is_white then 6 else 1
  let promotion_flag : Nat := if row + direction = 0 ∨ row + direction = 7 then PROMOTION else 0
  let fwd :=
    if ¬ Is_Occupied g col (row + direction) then
      mkMove pos col (row + direction) promotion_flag ::
        (if row = double_move_row ∧ ¬ Is_Occupied g col (row + direction * 2) then
          [mkMove pos col (row + direction * 2) DOUBLE_MOVE]
        else [])
    else []
  let capL :=
    if col - 1 ≥ 0 then
      let lft := pieceAt g (col - 1) (row + direction)
      if lft.type ≠ NONE ∧ lft.team ≠ p.team then
        [mkMove pos (col - 1) (row + direction) (promotion_flag ||| ATTACK ||| lft.type)]
      else []
    else []
  let capR :=
    if col + 1 ≤ 7 then
      let rgt := pieceAt g (col + 1) (row + direction)
      if rgt.type ≠ NONE ∧ rgt.team ≠ p.team then
        [mkMove pos (col + 1) (row + direction) (promotion_flag ||| ATTACK ||| rgt.type)]
      else []
    else []
  let ep :=
    match g.history with
    | [] => []
    | last :: _ =>
      let fifth_rank : Int := if is_white then 3 else 4
      let last_move_row : Int := last.destination / 8
      let last_move_col : Int := last.destination % 8
      if last.flags &&& DOUBLE_MOVE ≠ 0 ∧ row = fifth_rank ∧ row = last_move_row ∧
          (col - last_move_col).natAbs = 1 then
        [mkMove pos (col + ((last.destination : Int) - (pos : Int))) (row + direction) EN_PASSANT]
      else []
  fwd ++ capL ++ capR ++ ep

/-- The king's `first_move_flags` computation. -/
def kingFirstMoveFlags (g : ChessGame) (is_white : Bool) : Nat :=
  let f1 := if can_castle_right g is_white then FIRST_MOVE ||| CASTLE_RIGHT_BEFORE_MOVE else 0
  if can_castle_left g is_white then f1 ||| FIRST_MOVE ||| CASTLE_LEFT_BEFORE_MOVE else f1

/-- The king's 3×3 scan (the loops before the castling block), in loop order. -/
def kingNormalCands (g : ChessGame) (pos : Nat) : List Move :=
  let p := bget g.board pos
  let is_white := p.team = 0
  let col : Int := pos % 8
  let row : Int := pos / 8
  let fmf := kingFirstMoveFlags g is_white
  ([(row - 1, col - 1), (row - 1, col), (row - 1, col + 1),
    (row, col - 1), (row, col), (row, col + 1),
    (row + 1, col - 1), (row + 1, col), (row + 1, col + 1)] : List (Int × Int)).flatMap
    (fun ir => stepCand g pos p ir.2 ir.1 fmf)

/-- The knight branch (eight `Call_On_And_Maybe_Attack` squares, in order). -/
def knightCands (g : ChessGame) (pos : Nat) : List Move :=
  let p := bget g.board pos
  let col : Int := pos % 8
  let row : Int := pos / 8
  stepCand g pos p (col + 1) (row + 2) 0 ++ stepCand g pos p (col + 1) (row - 2) 0 ++
  stepCand g pos p (col - 1) (row + 2) 0 ++ stepCand g pos p (col - 1) (row - 2) 0 ++
  stepCand g pos p (col + 2) (row + 1) 0 ++ stepCand g pos p (col + 2) (row - 1) 0 ++
  stepCand g pos p (col - 2) (row + 1) 0 ++ stepCand g pos p (col - 2) (row - 1) 0

/-- The rook's `first_move_flag` computation. -/
def rookFirstMoveFlag (g : ChessGame) (is_white : Bool) (col : Int) : Nat :=
  let f0 : Nat :=
    if (can_castle_right g is_white ∧ col = 7) ∨ (can_castle_left g is_white ∧ col = 0) then
      FIRST_MOVE
    else 0
  if f0 &&& FIRST_MOVE ≠ 0 then
    let f1 := if can_castle_right g is_white then f0 ||| CASTLE_RIGHT_BEFORE_MOVE else f0
    if can_castle_left g is_white then f1 ||| CASTLE_LEFT_BEFORE_MOVE else f1
  else f0

/-- All candidate moves of the piece on square `pos` except the castling block
(the `full_check = false` enumeration of `foreach_piece_legal_move`). -/
def pieceCandsNC (g : ChessGame) (pos : Nat) : List Move :=
  let p := bget g.board pos
  let is_white := p.team = 0
  let col : Int := pos % 8
  let row : Int := pos / 8
  if p.type = PAWN then pawnCands g pos
  else if p.type = KING then kingNormalCands g pos
  else if p.type = QUEEN then
    slide g pos p col row (-1) (-1) 0 8 ++ slide g pos p col row 1 1 0 8 ++
    slide g pos p col row 1 (-1) 0 8 ++ slide g pos p col row (-1) 1 0 8 ++
    slide g pos p col row 0 (-1) 0 8 ++ slide g pos p col row 0 1 0 8 ++
    slide g pos p col row 1 0 0 8 ++ slide g pos p col row (-1) 0 0 8
  else if p.type = BISHOP then
    slide g pos p col row (-1) (-1) 0 8 ++ slide g pos p col row 1 1 0 8 ++
    slide g pos p col row 1 (-1) 0 8 ++ slide g pos p col row (-1) 1 0 8
  else if p.type = KNIGHT then knightCands g pos
  else if p.type = ROOK then
    let fmf := rookFirstMoveFlag g is_white col
    slide g pos p col row 0 (-1) fmf 8 ++ slide g pos p col row 0 1 fmf 8 ++
    slide g pos p col row 1 0 fmf 8 ++ slide g pos p col row (-1) 0 fmf 8
  else []

/-- `foreach_team_legal_move` with `full_check = false`: scan the 64 squares in
order and enumerate each piece of `team`. -/
def teamCandsNC (g : ChessGame) (team : Nat) : List Move :=
  (List.range 64).flatMap fun i =>
    let p := bget g.board i
    if p.type ≠ NONE ∧ p.team = team then pieceCandsNC g i else []

/-- `any_legal_destinations_for_team`: does some pseudo-legal move of `team`
land on one of the given squares? -/
def any_legal_destinations_for_team (g : ChessGame) (team : Nat)
    (dests : List Nat) : Bool :=
  (teamCandsNC g team).any fun m => dests.contains m.destination

/-- `check_move_full_legality` together with the state it leaves behind: the
C++ function applies the move, scans the opponent's pseudo-legal moves for a
king capture, and undoes the move.  The first component is the returned
boolean, the second the game state after the undo. -/
def check_move_full_legality_run (g : ChessGame) (m : Move) : Bool × ChessGame :=
  let other_team := (bget g.board m.source).other_team
  let g' := performe_move g m
  let result := ¬ (teamCandsNC g' other_team).any fun mv =>
    mv.flags &&& ATTACK ≠ 0 ∧ mv.get_attacked_piece_type = KING
  (result, undo_last_move g')

/-- The boolean returned by `check_move_full_legality`. -/
def check_move_full_legality (g : ChessGame) (m : Move) : Bool :=
  (check_move_full_legality_run g m).1

/-- The castling block of the king branch (only run in full-check mode),
in code order: right side first, then the two left-side destinations. -/
def castleCands (g : ChessGame) (pos : Nat) : List Move :=
  let p := bget g.board pos
  let is_white := p.team = 0
  let row : Int := pos / 8
  let fmf := kingFirstMoveFlags g is_white
  let rightC :=
    if can_castle_right g is_white then
      let maybe_right_rook := pieceAt g 7 row
      if maybe_right_rook.type = ROOK ∧ maybe_right_rook.team = p.team ∧
          ¬ Is_Occupied g 5 row ∧ ¬ Is_Occupied g 6 row then
        if ¬ any_legal_destinations_for_team g p.other_team
            [(row * 8 + 4).toNat, (row * 8 + 5).toNat, (row * 8 + 6).toNat] then
          [mkMove pos 6 row fmf]
        else []
      else []
    else []
  let leftC :=
    if can_castle_left g is_white then
      let maybe_left_rook := pieceAt g 0 row
      if maybe_left_rook.type = ROOK ∧ maybe_left_rook.team = p.team ∧
          ¬ Is_Occupied g 3 row ∧ ¬ Is_Occupied g 2 row ∧ ¬ Is_Occupied g 1 row then
        if ¬ any_legal_destinations_for_team g p.other_team
            [(row * 8 + 1).toNat, (row * 8 + 2).toNat, (row * 8 + 3).toNat,
             (row * 8 + 4).toNat] then
          [mkMove pos 2 row fmf, mkMove pos 1 row fmf]
        else []
      else []
    else []
  rightC ++ leftC

/-- All candidate moves of the piece on `pos`: the castling block is only
reached when `full_check` is requested. -/
def pieceCands (g : ChessGame) (pos : Nat) (full_check : Bool) : List Move :=
  pieceCandsNC g pos ++
    if full_check ∧ (bget g.board pos).type = KING then castleCands g pos else []

/-- `foreach_piece_legal_move`: in full-check mode every candidate move is
additionally filtered through `check_move_full_legality` before being yielded. -/
def foreach_piece_legal_move (g : ChessGame) (pos : Nat) (full_check : Bool) : List Move :=
  if full_check then (pieceCands g pos true).filter (check_move_full_legality g)
  else pieceCands g pos false

/-- `foreach_team_legal_move`. -/
def team_moves (g : ChessGame) (team : Nat) (full_check : Bool) : List Move :=
  (List.range 64).flatMap fun i =>
    let p := bget g.board i
    if p.type ≠ NONE ∧ p.team = team then foreach_piece_legal_move g i full_check else []

/-- The `GameStatus` enum. -/
inductive GameStatus where
  | WIN
  | DRAW
  | CONTINUE
deriving DecidableEq, Repr

/-- The check scan inside `get_game_status`: does some pseudo-legal move of
the opponent of the side to move capture a king? -/
def side_to_move_in_check (g : ChessGame) : Bool :=
  let other_team := if g.current_turn = 0 then 1 else 0
  (teamCandsNC g other_team).any fun mv =>
    mv.flags &&& ATTACK ≠ 0 ∧ mv.get_attacked_piece_type = KING

/-- `get_game_status`. -/
def get_game_status (g : ChessGame) : GameStatus :=
  if team_moves g g.current_turn true ≠ [] then GameStatus.CONTINUE
  else if side_to_move_in_check g then GameStatus.WIN
  else GameStatus.DRAW

/-- `pieces_on_board_count`. -/
def pieces_on_board_count (g : ChessGame) : Nat :=
  ((List.range 64).filter fun i => (bget g.board i).type ≠ NONE).length

/-- The per-square value summed by `evaluate_board` (signed: black negative). -/
def square_value (g : ChessGame) (is_early_stage : Bool) (i : Nat) : Int :=
  let piece := bget g.board i
  if piece.type = NONE then 0
  else
    let base : Int :=
      if piece.type = PAWN then 1
      else if piece.type = BISHOP then 3
      else if piece.type = KNIGHT then 3
      else if piece.type = ROOK then 5
      else if piece.type = QUEEN then 9
      else if piece.type = KING then
        let col : Int := i % 8
        let row : Int := i / 8
        let dist : Int := (((col - 3).natAbs + (row - 3).natAbs) / 2 : Nat)
        if is_early_stage then 100 + dist else 100 - dist
      else 0
    if piece.team = 1 then -base else base

/-- `evaluate_board` (without the diagnostic global counter). -/
def evaluate_board (g : ChessGame) : Int :=
  let is_early_stage := pieces_on_board_count g > 24
  ((List.range 64).map (square_value g is_early_stage)).sum

/-- `std::numeric_limits<int>::min()`. -/
def intMin : Int := -(2 ^ 31)

/-- `std::numeric_limits<int>::max()`. -/
def intMax : Int := 2 ^ 31 - 1

/-- The depth adjustment at the top of `minimax` when `depth > 0`.  The C++
code is `if (!move.flags & MoveFlags::ATTACK) depth -= 1;` in which `!` binds
before `&`, so the test is `(move.flags == 0 ? 1 : 0) & 1`. -/
def minimax_depth_adjust (flags : Nat) (depth : Int) : Int :=
  if ((if flags = 0 then 1 else 0) : Nat) &&& ATTACK ≠ 0 then depth - 1 else depth

mutual

/-- `minimax` with alpha-beta pruning.  `fuel` is only a structural-recursion
bound: every recursive call shrinks `depth` by at least one, so the wrapper's
`depth.toNat + 1` budget is never exhausted before the `depth ≤ 0` base case. -/
def minimaxAux (fuel : Nat) (g : ChessGame) (move : Move) (is_max_player : Bool)
    (depth : Int) (alpha beta : Int) : Int :=
  match fuel with
  | 0 => evaluate_board (performe_move g move)
  | fuel + 1 =>
    let g' := performe_move g move
    if depth ≤ 0 then evaluate_board g'
    else
      let depth := minimax_depth_adjust move.flags depth
      if is_max_player then
        minimaxFoldMax fuel g' (team_moves g' g'.current_turn true) depth alpha beta intMin
      else
        minimaxFoldMin fuel g' (team_moves g' g'.current_turn true) depth alpha beta intMax
termination_by (fuel, 0)

/-- The maximizing `foreach_team_legal_move` loop of `minimax`, with the
alpha-beta early exit. -/
def minimaxFoldMax (fuel : Nat) (g : ChessGame) (ms : List Move)
    (depth : Int) (alpha beta result : Int) : Int :=
  match ms with
  | [] => result
  | m :: rest =>
    let result := max result (minimaxAux fuel g m false (depth - 1) alpha beta)
    let alpha := max result alpha
    if alpha ≥ beta then result
    else minimaxFoldMax fuel g rest depth alpha beta result
termination_by (fuel, ms.length + 1)

/-- The minimizing loop of `minimax`. -/
def minimaxFoldMin (fuel : Nat) (g : ChessGame) (ms : List Move)
    (depth : Int) (alpha beta result : Int) : Int :=
  match ms with
  | [] => result
  | m :: rest =>
    let result := min result (minimaxAux fuel g m true (depth - 1) alpha beta)
    let beta := min result beta
    if alpha ≥ beta then result
    else minimaxFoldMin fuel g rest depth alpha beta result
termination_by (fuel, ms.length + 1)

end

/-- `minimax`. -/
def minimax (g : ChessGame) (move : Move) (is_max_player : Bool) (depth : Int)
    (alpha beta : Int) : Int :=
  minimaxAux (depth.toNat + 1) g move is_max_player depth alpha beta

/-- `greater_than`. -/
def greater_than (a b : Int) : Bool := a > b

/-- `less_than`. -/
def less_than (a b : Int) : Bool := a < b

/-- The mutable locals of the `get_best_next_move` loop, plus the stream of
`rand()` values (the embedded random source). -/
structure BestState where
  best_move : Move
  best_move_score : Int
  equal_moves_considerd : Nat
  rng : List Nat
deriving DecidableEq, Repr

/-- One iteration of the `get_best_next_move` loop body, given the score the
move received from `minimax`.  On a strictly better score the move is taken
and the tie counter reset; on a tied score `rand()` is consumed, the counter
pre-incremented, and the move replaces the incumbent iff
`rand() % counter == 0`. -/
def bestStep (is_better_predicate : Int → Int → Bool) (st : BestState)
    (move : Move) (move_score : Int) : BestState :=
  if is_better_predicate move_score st.best_move_score then
    { st with best_move := move, best_move_score := move_score, equal_moves_considerd := 0 }
  else if move_score = st.best_move_score then
    let cnt := st.equal_moves_considerd + 1
    let r := st.rng.headD 0
    if r % cnt = 0 then
      { best_move := move, best_move_score := move_score,
        equal_moves_considerd := cnt, rng := st.rng.tail }
    else { st with equal_moves_considerd := cnt, rng := st.rng.tail }
  else st

/-- `get_best_next_move`, with the `rand()` stream passed explicitly; returns
the final loop state (whose `best_move`/`best_move_score` the C++ function
reports and returns). -/
def get_best_next_move (g : ChessGame) (depth : Int) (rng : List Nat) : BestState :=
  let is_better_predicate := if g.current_turn = 0 then greater_than else less_than
  let init_score := if g.current_turn = 0 then intMin else intMax
  (team_moves g g.current_turn true).foldl
    (fun st move =>
      bestStep is_better_predicate st move
        (minimax g move (g.current_turn ≠ 0) depth intMin intMax))
    ⟨⟨0, 0, 0⟩, init_score, 0, rng⟩

/-- The board layout and game flags set up by `init_game` (the interactive
against-AI prompt is out of scope). -/
def init_game : ChessGame :=
  let empty : List Piece := List.replicate 64 pieceNone
  let blackBack : List Piece :=
    [⟨ROOK ||| 1⟩, ⟨KNIGHT ||| 1⟩, ⟨BISHOP ||| 1⟩, ⟨QUEEN ||| 1⟩,
     ⟨KING ||| 1⟩, ⟨BISHOP ||| 1⟩, ⟨KNIGHT ||| 1⟩, ⟨ROOK ||| 1⟩]
  let whiteBack : List Piece :=
    [⟨ROOK ||| 0⟩, ⟨KNIGHT ||| 0⟩, ⟨BISHOP ||| 0⟩, ⟨QUEEN ||| 0⟩,
     ⟨KING ||| 0⟩, ⟨BISHOP ||| 0⟩, ⟨KNIGHT ||| 0⟩, ⟨ROOK ||| 0⟩]
  let board :=
    blackBack ++ List.replicate 8 ⟨PAWN ||| 1⟩ ++
      (empty.drop 16).take 32 ++
      List.replicate 8 ⟨PAWN ||| 0⟩ ++ whiteBack
  { flags := CAN_WHITE_CASTLE_RIGHT ||| CAN_WHITE_CASTLE_LEFT |||
      CAN_BLACK_CASTLE_RIGHT ||| CAN_BLACK_CASTLE_LEFT,
    current_turn := 0,
    board := board,
    history := [] }

/-! ### Basic board lemmas -/

theorem bset_length (b : List Piece) (i : Nat) (p : Piece) :
    (bset b i p).length = b.length := by
  simp [bset]

theorem bget_bset (b : List Piece) (i j : Nat) (p : Piece) :
    bget (bset b i p) j = if i = j ∧ i < b.length then p else bget b j := by
  simp only [bget, bset, List.getD_eq_getElem?_getD, List.getElem?_set]
  by_cases h : i = j
  · subst h
    by_cases h2 : i < b.length
    · simp [h2]
    · simp [h2, List.getElem?_eq_none (show b.length ≤ i by omega)]
  · simp [h]

theorem board_ext {b b' : List Piece} (hlen : b.length = b'.length)
    (h : ∀ j, bget b j = bget b' j) : b = b' := by
  apply List.ext_getElem?
  intro i
  by_cases hi : i < b.length
  · have h1 : b[i]? = some (bget b i) := by
      simp [bget, List.getD_eq_getElem?_getD, List.getElem?_eq_getElem hi]
    have hi' : i < b'.length := hlen ▸ hi
    have h2 : b'[i]? = some (bget b' i) := by
      simp [bget, List.getD_eq_getElem?_getD, List.getElem?_eq_getElem hi']
    rw [h1, h2, h i]
  · rw [List.getElem?_eq_none (by omega), List.getElem?_eq_none (by omega)]

theorem bget_default (b : List Piece) (i : Nat) (h : b.length ≤ i) :
    bget b i = pieceNone := by
  simp [bget, List.getD_eq_getElem?_getD, List.getElem?_eq_none h]

/-! ### Well-formedness invariant of reachable game states -/

/-- A well-formed board cell: an empty square, or a team bit together with
exactly one piece-type bit. -/
def WFcell (p : Piece) : Prop :=
  p.info ∈ [128, 2, 3, 4, 5, 8, 9, 16, 17, 32, 33, 64, 65]

instance (p : Piece) : Decidable (WFcell p) := by
  unfold WFcell
  exact inferInstance

/-- The en-passant part of the state invariant: whenever the newest history
entry is a double pawn step, the double-stepping pawn (of the side that just
moved) still sits on its landing square and the square it skipped is empty. -/
def epInv (g : ChessGame) : Prop :=
  ∀ last ∈ g.history.take 1, last.flags &&& DOUBLE_MOVE ≠ 0 →
    last.destination < 64 ∧
    last.destination / 8 = (if g.current_turn ^^^ 1 = 0 then 4 else 3) ∧
    bget g.board last.destination = ⟨PAWN ||| (g.current_turn ^^^ 1)⟩ ∧
    bget g.board (if g.current_turn ^^^ 1 = 0 then last.destination + 8
      else last.destination - 8) = pieceNone

/-- The castling part of the state invariant: while a side still holds a
castling right, its king (if on the board at all) has never moved, hence it
still sits on its initial square. -/
def kingHomeInv (g : ChessGame) : Prop :=
  ∀ i < 64, ∀ t ≤ 1, (bget g.board i).info = KING ||| t →
    (can_castle_right g (t = 0) = true ∨ can_castle_left g (t = 0) = true) →
    i = (if t = 0 then 60 else 4)

/-- The state invariant maintained by play from the initial position: a
64-cell board of well-formed cells, pawns never on the back ranks, the four
castling-rights bits, a binary side to move, and the en-passant and
castling conditions. -/
def Inv (g : ChessGame) : Prop :=
  g.board.length = 64 ∧
  g.flags < 16 ∧
  g.current_turn ≤ 1 ∧
  (∀ i < 64, WFcell (bget g.board i)) ∧
  (∀ i < 64, (bget g.board i).type = PAWN → 1 ≤ i / 8 ∧ i / 8 ≤ 6) ∧
  epInv g ∧
  kingHomeInv g

instance (g : ChessGame) : Decidable (epInv g) := by
  unfold epInv
  exact inferInstance

instance (g : ChessGame) : Decidable (kingHomeInv g) := by
  unfold kingHomeInv
  exact inferInstance

instance (g : ChessGame) : Decidable (Inv g) := by
  unfold Inv
  exact inferInstance

theorem WF_team {p : Piece} (h : WFcell p) : p.team = 0 ∨ p.team = 1 := by
  obtain ⟨info⟩ := p
  simp only [WFcell, List.mem_cons, List.not_mem_nil, or_false] at h
  rcases h with h|h|h|h|h|h|h|h|h|h|h|h|h <;> subst h <;> decide

theorem WF_info_eq {p : Piece} (h : WFcell p) (hne : p.type ≠ NONE) :
    p.info = p.type ||| p.team ∧ p.type ∈ [2, 4, 8, 16, 32, 64] := by
  obtain ⟨info⟩ := p
  simp only [WFcell, List.mem_cons, List.not_mem_nil, or_false] at h
  rcases h with h|h|h|h|h|h|h|h|h|h|h|h|h <;> subst h <;> revert hne <;> decide

theorem WF_none {p : Piece} (h : WFcell p) (hne : p.type = NONE) : p = pieceNone := by
  obtain ⟨info⟩ := p
  simp only [WFcell, List.mem_cons, List.not_mem_nil, or_false] at h
  rcases h with h|h|h|h|h|h|h|h|h|h|h|h|h <;> subst h <;> revert hne <;> decide

/-! ### Facts satisfied by every generated candidate move

`MoveFacts g m` collects, for a move `m` produced by `foreach_piece_legal_move`
on the position `g`, exactly the properties of the move and of the board that
the reversibility and castling-rights theorems rely on.  The member lemmas
below derive `MoveFacts` from membership in the generator's output. -/

/-- Facts about a generated en-passant capture (`last` is the newest history
entry that enabled it). -/
structure EPFacts (g : ChessGame) (p : Piece) (m : Move) (last : Move) : Prop where
  src_pawn : p.type = PAWN
  flags_eq : m.flags = EN_PASSANT
  dbl : last.flags &&& DOUBLE_MOVE ≠ 0
  row_eq : m.source / 8 = last.destination / 8
  row_fifth : m.source / 8 = if p.team = 0 then 3 else 4
  col_adj : ((m.source % 8 : Int) - (last.destination % 8 : Int)).natAbs = 1
  dst_eq : (m.destination : Int) = (last.destination : Int) + (if p.team = 0 then -8 else 8)
  cap_eq : ((m.source : Int) + epOffset (p.team = 0) m).toNat = last.destination

/-- Facts about a generated double pawn step. -/
structure DblFacts (g : ChessGame) (p : Piece) (m : Move) : Prop where
  src_pawn : p.type = PAWN
  flags_eq : m.flags = DOUBLE_MOVE
  src_row : m.source / 8 = if p.team = 0 then 6 else 1
  dst_eq : (m.destination : Int) = (m.source : Int) + (if p.team = 0 then -16 else 16)
  mid_empty : bget g.board (if p.team = 0 then m.source - 8 else m.source + 8) = pieceNone

/-- Facts about a generated move carrying the `FIRST_MOVE` flag: only kings
and corner rooks with the matching right produce it, and the two
`CASTLE_*_BEFORE_MOVE` bits snapshot the mover's current castling rights. -/
structure FirstFacts (g : ChessGame) (p : Piece) (m : Move) : Prop where
  kind : p.type = KING ∨ (p.type = ROOK ∧
    ((m.source % 8 = 7 ∧ can_castle_right g (p.team = 0) = true) ∨
     (m.source % 8 = 0 ∧ can_castle_left g (p.team = 0) = true)))
  snap_right : (m.flags &&& CASTLE_RIGHT_BEFORE_MOVE ≠ 0) ↔ can_castle_right g (p.team = 0) = true
  snap_left : (m.flags &&& CASTLE_LEFT_BEFORE_MOVE ≠ 0) ↔ can_castle_left g (p.team = 0) = true

/-- Facts about a generated castle move (a king move across more than one
file). -/
structure CastleFacts (g : ChessGame) (p : Piece) (m : Move) : Prop where
  row_eq : m.destination / 8 = m.source / 8
  src_col : m.source % 8 = 4
  no_attack : m.flags &&& ATTACK = 0
  no_promo : m.flags &&& PROMOTION = 0
  no_ep : m.flags &&& EN_PASSANT = 0
  first : m.flags &&& FIRST_MOVE ≠ 0
  sides : (m.destination % 8 = 6 ∧
      bget g.board (m.source / 8 * 8 + 7) = ⟨ROOK ||| p.team⟩ ∧
      bget g.board (m.source / 8 * 8 + 5) = pieceNone) ∨
    ((m.destination % 8 = 2 ∨ m.destination % 8 = 1) ∧
      bget g.board (m.source / 8 * 8) = ⟨ROOK ||| p.team⟩ ∧
      bget g.board (m.source / 8 * 8 + m.destination % 8 + 1) = pieceNone)

/-- The facts shared by every candidate move the generator can produce. -/
structure MoveFacts (g : ChessGame) (m : Move) : Prop where
  src_lt : m.source < 64
  dst_lt : m.destination < 64
  src_occ : (bget g.board m.source).type ≠ NONE
  attack_dst : m.flags &&& ATTACK ≠ 0 →
    (bget g.board m.destination).info =
      (m.flags &&& Type_Mask) ||| (bget g.board m.source).other_team
  attack_team : m.flags &&& ATTACK ≠ 0 →
    (bget g.board m.destination).team ≠ (bget g.board m.source).team ∧
    (bget g.board m.destination).type ≠ NONE
  quiet_dst : m.flags &&& ATTACK = 0 → m.flags &&& EN_PASSANT = 0 →
    bget g.board m.destination = pieceNone
  promo : m.flags &&& PROMOTION ≠ 0 → (bget g.board m.source).type = PAWN
  pawn_dst_row : (bget g.board m.source).type = PAWN → m.flags &&& PROMOTION = 0 →
    1 ≤ m.destination / 8 ∧ m.destination / 8 ≤ 6
  ep_facts : m.flags &&& EN_PASSANT ≠ 0 →
    ∃ last rest, g.history = last :: rest ∧ EPFacts g (bget g.board m.source) m last
  dbl_facts : m.flags &&& DOUBLE_MOVE ≠ 0 → DblFacts g (bget g.board m.source) m
  first_facts : m.flags &&& FIRST_MOVE ≠ 0 → FirstFacts g (bget g.board m.source) m
  king_shape : (bget g.board m.source).type = KING →
    ((m.source % 8 : Int) - (m.destination % 8 : Int)).natAbs ≤ 1 ∨
      CastleFacts g (bget g.board m.source) m
  king_first : (bget g.board m.source).type = KING →
    (can_castle_right g ((bget g.board m.source).team = 0) = true ∨
     can_castle_left g ((bget g.board m.source).team = 0) = true) →
    m.flags &&& FIRST_MOVE ≠ 0

/-- The four possible values of the king's `first_move_flags`, together with
the castling rights they encode. -/
theorem kfm_spec (g : ChessGame) (w : Bool) :
    (kingFirstMoveFlags g w = 0 ∧ can_castle_right g w = false ∧ can_castle_left g w = false) ∨
    (kingFirstMoveFlags g w = 640 ∧ can_castle_right g w = true ∧ can_castle_left g w = false) ∨
    (kingFirstMoveFlags g w = 384 ∧ can_castle_right g w = false ∧ can_castle_left g w = true) ∨
    (kingFirstMoveFlags g w = 896 ∧ can_castle_right g w = true ∧ can_castle_left g w = true) := by
  unfold kingFirstMoveFlags
  rcases hR : can_castle_right g w <;> rcases hL : can_castle_left g w <;> simp [hR, hL] <;> decide

/-- The rook's `first_move_flag` equals the king's `first_move_flags` when the
rook sits on a castling corner with the matching right, and `0` otherwise. -/
theorem rfm_eq (g : ChessGame) (w : Bool) (col : Int) :
    rookFirstMoveFlag g w col =
      if (can_castle_right g w = true ∧ col = 7) ∨ (can_castle_left g w = true ∧ col = 0) then
        kingFirstMoveFlags g w
      else 0 := by
  unfold rookFirstMoveFlag kingFirstMoveFlags
  rcases hR : can_castle_right g w <;> rcases hL : can_castle_left g w <;>
    by_cases h7 : col = 7 <;> by_cases h0 : col = 0 <;> simp [hR, hL, h7, h0] <;> decide

/-! ### Unfolding lemmas for apply/undo -/

theorem bget_bset_ne (b : List Piece) (i j : Nat) (p : Piece) (h : i ≠ j) :
    bget (bset b i p) j = bget b j := by
  rw [bget_bset]
  simp [h]

theorem bget_bset_eq (b : List Piece) (i : Nat) (p : Piece) (h : i < b.length) :
    bget (bset b i p) i = p := by
  rw [bget_bset]
  simp [h]

theorem performe_history (g : ChessGame) (m : Move) :
    (performe_move g m).history = m :: g.history := rfl

theorem performe_turn (g : ChessGame) (m : Move) :
    (performe_move g m).current_turn = g.current_turn ^^^ 1 := rfl

theorem performe_board (g : ChessGame) (m : Move) :
    (performe_move g m).board =
      (if (bget g.board m.source).type = PAWN then
        if m.flags &&& EN_PASSANT ≠ 0 then
          bset (bset (bset g.board m.destination (bget g.board m.source)) m.source pieceNone)
            ((m.source : Int) + epOffset ((bget g.board m.source).team = 0) m).toNat pieceNone
        else if m.flags &&& PROMOTION ≠ 0 then
          bset (bset (bset g.board m.destination (bget g.board m.source)) m.source pieceNone)
            m.destination ⟨QUEEN ||| (bget g.board m.source).team⟩
        else bset (bset g.board m.destination (bget g.board m.source)) m.source pieceNone
      else if (bget g.board m.source).type = KING then
        if ((m.source % 8 : Int) - (m.destination % 8 : Int)).natAbs > 1 then
          if m.destination % 8 = 6 then
            bset (bset
              (bset (bset g.board m.destination (bget g.board m.source)) m.source pieceNone)
              (m.destination / 8 * 8 + 5)
              (bget (bset (bset g.board m.destination (bget g.board m.source)) m.source pieceNone)
                (m.destination / 8 * 8 + 7)))
              (m.destination / 8 * 8 + 7) pieceNone
          else
            bset (bset
              (bset (bset g.board m.destination (bget g.board m.source)) m.source pieceNone)
              (m.destination / 8 * 8 + m.destination % 8 + 1)
              (bget (bset (bset g.board m.destination (bget g.board m.source)) m.source pieceNone)
                (m.destination / 8 * 8)))
              (m.destination / 8 * 8) pieceNone
        else bset (bset g.board m.destination (bget g.board m.source)) m.source pieceNone
      else bset (bset g.board m.destination (bget g.board m.source)) m.source pieceNone) := rfl

theorem performe_flags (g : ChessGame) (m : Move) :
    (performe_move g m).flags =
      (if m.flags &&& FIRST_MOVE ≠ 0 then
        if (bget g.board m.source).type = KING then
          set_castle_left false ((bget g.board m.source).team = 0)
            (set_castle_right false ((bget g.board m.source).team = 0) g.flags)
        else if (bget g.board m.source).type = ROOK then
          if m.source % 8 = 7 then
            set_castle_right false ((bget g.board m.source).team = 0) g.flags
          else set_castle_left false ((bget g.board m.source).team = 0) g.flags
        else g.flags
      else g.flags) := rfl

/-- The board produced by `undo_last_move` (with a non-empty history whose
newest entry is `m`), as a function of the pre-undo board `b`. -/
def undoBoard (b : List Piece) (m : Move) : List Piece :=
  let piece := bget b m.destination
  let b2 :=
    if m.flags &&& ATTACK ≠ 0 then
      bset (bset (bset b m.source piece) m.destination pieceNone)
        m.destination ⟨m.get_attacked_piece_type ||| piece.other_team⟩
    else bset (bset b m.source piece) m.destination pieceNone
  let b3 :=
    if m.flags &&& PROMOTION ≠ 0 then bset b2 m.source ⟨PAWN ||| piece.team⟩ else b2
  if piece.type = PAWN then
    if m.flags &&& EN_PASSANT ≠ 0 then
      bset b3 ((m.source : Int) + epOffset (piece.team = 0) m).toNat
        ⟨PAWN ||| piece.other_team⟩
    else b3
  else if piece.type = KING then
    if ((m.source % 8 : Int) - (m.destination % 8 : Int)).natAbs > 1 then
      if m.destination % 8 = 6 then
        bset (bset b3 (m.source / 8 * 8 + 7) ⟨ROOK ||| piece.team⟩)
          (m.source / 8 * 8 + 5) pieceNone
      else
        bset (bset b3 (m.source / 8 * 8) (bget b3 (m.source / 8 * 8 + m.destination % 8 + 1)))
          (m.source / 8 * 8 + m.destination % 8 + 1) pieceNone
    else b3
  else b3

theorem undo_eq (g' : ChessGame) (m : Move) (rest : List Move)
    (hh : g'.history = m :: rest) :
    undo_last_move g' =
      ⟨(if ((bget g'.board m.destination).type = KING ∨
            (bget g'.board m.destination).type = ROOK) ∧ m.flags &&& FIRST_MOVE ≠ 0 then
          (if m.flags &&& CASTLE_LEFT_BEFORE_MOVE ≠ 0 then
            set_castle_left true ((bget g'.board m.destination).team = 0)
              (if m.flags &&& CASTLE_RIGHT_BEFORE_MOVE ≠ 0 then
                set_castle_right true ((bget g'.board m.destination).team = 0) g'.flags
              else g'.flags)
          else
            (if m.flags &&& CASTLE_RIGHT_BEFORE_MOVE ≠ 0 then
              set_castle_right true ((bget g'.board m.destination).team = 0) g'.flags
            else g'.flags))
        else g'.flags),
       g'.current_turn ^^^ 1,
       undoBoard g'.board m,
       rest⟩ := by
  unfold undo_last_move
  rw [hh]
  rfl

/-! ### Board round-trip lemmas -/

theorem bset_bset (b : List Piece) (i : Nat) (p q : Piece) :
    bset (bset b i p) i q = bset b i q := List.set_set p q b i

theorem bset_self (b : List Piece) (i : Nat) : bset b i (bget b i) = b := by
  apply board_ext (by simp [bset_length])
  intro j
  rw [bget_bset]
  split_ifs with h
  · rw [h.1]
  · rfl

/-- Round trip of a plain relocation: move `p` from `s` to `d`, then move it
back and restore the original content `q` of `d`. -/
theorem board_relocate_rt (b : List Piece) (s d : Nat) (p q : Piece)
    (hs : s < b.length) (hd : d < b.length)
    (hsd : s ≠ d) (hsp : bget b s = p) (hdq : bget b d = q) :
    bset (bset (bset (bset b d p) s pieceNone) s p) d q = b := by
  apply board_ext (by simp [bset_length])
  intro j
  simp only [bget_bset, bset_length, hs, hd, and_true]
  by_cases hjd : d = j
  · rw [if_pos hjd, ← hjd, hdq]
  · rw [if_neg hjd]
    by_cases hjs : s = j
    · rw [if_pos hjs, ← hjs, hsp]
    · rw [if_neg hjs, if_neg hjs, if_neg hjd]

/-- Round trip of an en-passant capture: the capturing pawn `p` relocates from
`s` to the empty square `d` and the captured pawn `cp` on `cap` is removed,
then everything is put back. -/
theorem board_ep_rt (b : List Piece) (s d cap : Nat) (p cp : Piece)
    (hs : s < b.length) (hd : d < b.length) (hc : cap < b.length)
    (hsd : s ≠ d) (hscap : s ≠ cap) (hdcap : d ≠ cap)
    (hsp : bget b s = p) (hdn : bget b d = pieceNone) (hcap : bget b cap = cp) :
    bset (bset (bset (bset (bset (bset b d p) s pieceNone) cap pieceNone) s p)
      d pieceNone) cap cp = b := by
  apply board_ext (by simp [bset_length])
  intro j
  simp only [bget_bset, bset_length, hs, hd, hc, and_true]
  by_cases hjc : cap = j
  · rw [if_pos hjc, ← hjc, hcap]
  · rw [if_neg hjc]
    by_cases hjd : d = j
    · rw [if_pos hjd, ← hjd, hdn]
    · rw [if_neg hjd]
      by_cases hjs : s = j
      · rw [if_pos hjs, ← hjs, hsp]
      · rw [if_neg hjs, if_neg hjc, if_neg hjs, if_neg hjd]

/-- Round trip of a promotion: the pawn `p` leaves `s`, a queen `qn` appears
on `d`, and undo restores `q` on `d` and the pawn on `s`. -/
theorem board_promo_rt (b : List Piece) (s d : Nat) (p qn q : Piece)
    (hs : s < b.length) (hd : d < b.length)
    (hsd : s ≠ d) (hsp : bget b s = p) (hdq : bget b d = q) :
    bset (bset (bset (bset (bset (bset b d p) s pieceNone) d qn) s qn) d q) s p = b := by
  apply board_ext (by simp [bset_length])
  intro j
  simp only [bget_bset, bset_length, hs, hd, and_true]
  by_cases hjs : s = j
  · rw [if_pos hjs, ← hjs, hsp]
  · rw [if_neg hjs]
    by_cases hjd : d = j
    · rw [if_pos hjd, ← hjd, hdq]
    · rw [if_neg hjd, if_neg hjs, if_neg hjd, if_neg hjs, if_neg hjd]

/-- Round trip of a right-side castle. -/
theorem board_castle_right_rt (b : List Piece) (s d r5 r7 : Nat) (p rook : Piece)
    (hs : s < b.length) (hd : d < b.length) (h5b : r5 < b.length) (h7b : r7 < b.length)
    (hsd : s ≠ d) (hs5 : s ≠ r5) (hs7 : s ≠ r7) (hd5 : d ≠ r5) (hd7 : d ≠ r7)
    (h57 : r5 ≠ r7)
    (hsp : bget b s = p) (hdn : bget b d = pieceNone)
    (h5 : bget b r5 = pieceNone) (h7 : bget b r7 = rook) :
    bset (bset (bset (bset (bset (bset (bset (bset b d p) s pieceNone) r5 rook)
      r7 pieceNone) s p) d pieceNone) r7 rook) r5 pieceNone = b := by
  apply board_ext (by simp [bset_length])
  intro j
  simp only [bget_bset, bset_length, hs, hd, h5b, h7b, and_true]
  by_cases hj5 : r5 = j
  · rw [if_pos hj5, ← hj5, h5]
  · rw [if_neg hj5]
    by_cases hj7 : r7 = j
    · rw [if_pos hj7, ← hj7, h7]
    · rw [if_neg hj7]
      by_cases hjd : d = j
      · rw [if_pos hjd, ← hjd, hdn]
      · rw [if_neg hjd]
        by_cases hjs : s = j
        · rw [if_pos hjs, ← hjs, hsp]
        · rw [if_neg hjs, if_neg hj7, if_neg hj5, if_neg hjs, if_neg hjd]

/-- Round trip of a left-side castle (`rc` is the rook's landing square,
`r0` the corner it came from, `x` the corner's original occupant). -/
theorem board_castle_left_rt (b : List Piece) (s d rc r0 : Nat) (p x : Piece)
    (hs : s < b.length) (hd : d < b.length) (hcb : rc < b.length) (h0b : r0 < b.length)
    (hsd : s ≠ d) (hsc : s ≠ rc) (hs0 : s ≠ r0) (hdc : d ≠ rc) (hd0 : d ≠ r0)
    (hc0 : rc ≠ r0)
    (hsp : bget b s = p) (hdn : bget b d = pieceNone)
    (hrc : bget b rc = pieceNone) (hx : bget b r0 = x) :
    bset (bset (bset (bset (bset (bset (bset (bset b d p) s pieceNone) rc x)
      r0 pieceNone) s p) d pieceNone) r0 x) rc pieceNone = b := by
  apply board_ext (by simp [bset_length])
  intro j
  simp only [bget_bset, bset_length, hs, hd, hcb, h0b, and_true]
  by_cases hjc : rc = j
  · rw [if_pos hjc, ← hjc, hrc]
  · rw [if_neg hjc]
    by_cases hj0 : r0 = j
    · rw [if_pos hj0, ← hj0, hx]
    · rw [if_neg hj0]
      by_cases hjd : d = j
      · rw [if_pos hjd, ← hjd, hdn]
      · rw [if_neg hjd]
        by_cases hjs : s = j
        · rw [if_pos hjs, ← hjs, hsp]
        · rw [if_neg hjs, if_neg hj0, if_neg hjc, if_neg hjs, if_neg hjd]

/-! ### Castling-rights round-trip lemmas (by bounded case analysis) -/

theorem king_flags_rt : ∀ f < 16, ∀ w cR cL : Bool,
    (cR = true ↔ (if w = true then f &&& 1 ≠ 0 else f &&& 4 ≠ 0)) →
    (cL = true ↔ (if w = true then f &&& 2 ≠ 0 else f &&& 8 ≠ 0)) →
    (if cL = true then
      set_castle_left true w
        (if cR = true then
          set_castle_right true w (set_castle_left false w (set_castle_right false w f))
        else set_castle_left false w (set_castle_right false w f))
    else
      (if cR = true then
        set_castle_right true w (set_castle_left false w (set_castle_right false w f))
      else set_castle_left false w (set_castle_right false w f))) = f := by
  intro f hf w cR cL
  rcases w <;> rcases cR <;> rcases cL <;> revert hf <;> revert f <;> decide

theorem rook7_flags_rt : ∀ f < 16, ∀ w cR cL : Bool,
    (cR = true ↔ (if w = true then f &&& 1 ≠ 0 else f &&& 4 ≠ 0)) →
    (cL = true ↔ (if w = true then f &&& 2 ≠ 0 else f &&& 8 ≠ 0)) →
    cR = true →
    (if cL = true then
      set_castle_left true w
        (if cR = true then set_castle_right true w (set_castle_right false w f)
        else set_castle_right false w f)
    else
      (if cR = true then set_castle_right true w (set_castle_right false w f)
      else set_castle_right false w f)) = f := by
  intro f hf w cR cL
  rcases w <;> rcases cR <;> rcases cL <;> revert hf <;> revert f <;> decide

theorem rook0_flags_rt : ∀ f < 16, ∀ w cR cL : Bool,
    (cR = true ↔ (if w = true then f &&& 1 ≠ 0 else f &&& 4 ≠ 0)) →
    (cL = true ↔ (if w = true then f &&& 2 ≠ 0 else f &&& 8 ≠ 0)) →
    cL = true →
    (if cL = true then
      set_castle_left true w
        (if cR = true then set_castle_right true w (set_castle_left false w f)
        else set_castle_left false w f)
    else
      (if cR = true then set_castle_right true w (set_castle_left false w f)
      else set_castle_left false w f)) = f := by
  intro f hf w cR cL
  rcases w <;> rcases cR <;> rcases cL <;> revert hf <;> revert f <;> decide

theorem piece_eq_of_info {p : Piece} {n : Nat} (h : p.info = n) : p = ⟨n⟩ := by
  cases p
  simpa using h

theorem xor_one_one (t : Nat) : t ^^^ 1 ^^^ 1 = t := by
  rw [Nat.xor_assoc]
  simp

/-- The undo board computation for a move of a piece that is neither a pawn
nor a king (plain relocation, possibly with a capture). -/
theorem undoBoard_generic (g : ChessGame) (m : Move) (len64 : g.board.length = 64)
    (src_lt : m.source < 64) (dst_lt : m.destination < 64) (hsd : m.source ≠ m.destination)
    (htyp : (bget g.board m.source).type ≠ PAWN)
    (htyk : (bget g.board m.source).type ≠ KING)
    (hattack : m.flags &&& ATTACK ≠ 0 →
      bget g.board m.destination =
        ⟨(m.flags &&& Type_Mask) ||| (bget g.board m.source).other_team⟩)
    (hquiet : m.flags &&& ATTACK = 0 → bget g.board m.destination = pieceNone)
    (hpromo0 : m.flags &&& PROMOTION = 0) :
    undoBoard (performe_move g m).board m = g.board := by
  have hB : (performe_move g m).board =
      bset (bset g.board m.destination (bget g.board m.source)) m.source pieceNone := by
    rw [performe_board, if_neg htyp, if_neg htyk]
  have hpdE : bget (bset (bset g.board m.destination (bget g.board m.source))
      m.source pieceNone) m.destination = bget g.board m.source := by
    rw [bget_bset_ne _ _ _ _ hsd,
      bget_bset_eq _ _ _ (by rw [len64]; exact dst_lt)]
  simp only [undoBoard, hB, hpdE]
  rw [if_neg htyp, if_neg htyk, if_neg (fun h => h hpromo0)]
  by_cases ha : m.flags &&& ATTACK ≠ 0
  · rw [if_pos ha, bset_bset]
    exact board_relocate_rt g.board m.source m.destination _ _
      (by omega) (by omega) hsd rfl (hattack ha)
  · push_neg at ha
    rw [if_neg (by simp [ha])]
    exact board_relocate_rt g.board m.source m.destination _ _
      (by omega) (by omega) hsd rfl (hquiet ha)

theorem other_team_eq {p : Piece} (h : p.team = 0 ∨ p.team = 1) :
    p.other_team = 1 - p.team := by
  rcases h with h | h <;> simp [Piece.other_team, h]

theorem promoted_queen_type {t : Nat} (h : t = 0 ∨ t = 1) :
    (⟨QUEEN ||| t⟩ : Piece).type = QUEEN := by
  rcases h with h | h <;> subst h <;> decide

theorem promoted_queen_team {t : Nat} (h : t = 0 ∨ t = 1) :
    (⟨QUEEN ||| t⟩ : Piece).team = t := by
  rcases h with h | h <;> subst h <;> decide

/-- The undo board computation for a plain pawn move (single step, double
step, or ordinary capture; no promotion, no en-passant). -/
theorem undoBoard_pawn_plain (g : ChessGame) (m : Move) (len64 : g.board.length = 64)
    (src_lt : m.source < 64) (dst_lt : m.destination < 64) (hsd : m.source ≠ m.destination)
    (hty : (bget g.board m.source).type = PAWN)
    (hep0 : m.flags &&& EN_PASSANT = 0) (hpromo0 : m.flags &&& PROMOTION = 0)
    (hattack : m.flags &&& ATTACK ≠ 0 →
      bget g.board m.destination =
        ⟨(m.flags &&& Type_Mask) ||| (bget g.board m.source).other_team⟩)
    (hquiet : m.flags &&& ATTACK = 0 → bget g.board m.destination = pieceNone) :
    undoBoard (performe_move g m).board m = g.board := by
  have hB : (performe_move g m).board =
      bset (bset g.board m.destination (bget g.board m.source)) m.source pieceNone := by
    rw [performe_board, if_pos hty, if_neg (fun h => h hep0), if_neg (fun h => h hpromo0)]
  have hpdE : bget (bset (bset g.board m.destination (bget g.board m.source))
      m.source pieceNone) m.destination = bget g.board m.source := by
    rw [bget_bset_ne _ _ _ _ hsd,
      bget_bset_eq _ _ _ (by rw [len64]; exact dst_lt)]
  simp only [undoBoard, hB, hpdE]
  rw [if_pos hty, if_neg (fun h => h hep0), if_neg (fun h => h hpromo0)]
  by_cases ha : m.flags &&& ATTACK ≠ 0
  · rw [if_pos ha, bset_bset]
    exact board_relocate_rt g.board m.source m.destination _ _
      (by omega) (by omega) hsd rfl (hattack ha)
  · push_neg at ha
    rw [if_neg (by simp [ha])]
    exact board_relocate_rt g.board m.source m.destination _ _
      (by omega) (by omega) hsd rfl (hquiet ha)

/-- The undo board computation for a promotion (pawn reaches the last rank,
possibly capturing). -/
theorem undoBoard_promo (g : ChessGame) (m : Move) (len64 : g.board.length = 64)
    (src_lt : m.source < 64) (dst_lt : m.destination < 64) (hsd : m.source ≠ m.destination)
    (hty : (bget g.board m.source).type = PAWN)
    (hteam : (bget g.board m.source).team = 0 ∨ (bget g.board m.source).team = 1)
    (hpinfo : (bget g.board m.source).info = PAWN ||| (bget g.board m.source).team)
    (hep0 : m.flags &&& EN_PASSANT = 0) (hpromo : m.flags &&& PROMOTION ≠ 0)
    (hattack : m.flags &&& ATTACK ≠ 0 →
      bget g.board m.destination =
        ⟨(m.flags &&& Type_Mask) ||| (bget g.board m.source).other_team⟩)
    (hquiet : m.flags &&& ATTACK = 0 → bget g.board m.destination = pieceNone) :
    undoBoard (performe_move g m).board m = g.board := by
  have hB : (performe_move g m).board =
      bset (bset (bset g.board m.destination (bget g.board m.source)) m.source pieceNone)
        m.destination ⟨QUEEN ||| (bget g.board m.source).team⟩ := by
    rw [performe_board, if_pos hty, if_neg (fun h => h hep0), if_pos hpromo]
  have hpdE : bget (bset (bset (bset g.board m.destination (bget g.board m.source))
      m.source pieceNone) m.destination ⟨QUEEN ||| (bget g.board m.source).team⟩)
      m.destination = ⟨QUEEN ||| (bget g.board m.source).team⟩ := by
    rw [bget_bset_eq _ _ _ (by simp [bset_length, len64]; exact dst_lt)]
  have hqtype : (⟨QUEEN ||| (bget g.board m.source).team⟩ : Piece).type = QUEEN :=
    promoted_queen_type hteam
  have hqteam : (⟨QUEEN ||| (bget g.board m.source).team⟩ : Piece).team =
      (bget g.board m.source).team := promoted_queen_team hteam
  have hqother : (⟨QUEEN ||| (bget g.board m.source).team⟩ : Piece).other_team =
      (bget g.board m.source).other_team := by
    unfold Piece.other_team
    rw [hqteam]
  have hpeq : (⟨PAWN ||| (bget g.board m.source).team⟩ : Piece) = bget g.board m.source :=
    (piece_eq_of_info hpinfo).symm
  simp only [undoBoard, hB, hpdE, hqtype, hqteam, hqother, hpeq]
  rw [if_neg (by decide), if_neg (by decide), if_pos hpromo]
  by_cases ha : m.flags &&& ATTACK ≠ 0
  · rw [if_pos ha, bset_bset]
    exact board_promo_rt g.board m.source m.destination _ _ _
      (by omega) (by omega) hsd rfl (hattack ha)
  · push_neg at ha
    rw [if_neg (by simp [ha])]
    exact board_promo_rt g.board m.source m.destination _ _ _
      (by omega) (by omega) hsd rfl (hquiet ha)

/-- The undo board computation for an en-passant capture. -/
theorem undoBoard_ep (g : ChessGame) (m : Move) (len64 : g.board.length = 64)
    (src_lt : m.source < 64) (dst_lt : m.destination < 64) (hsd : m.source ≠ m.destination)
    (hty : (bget g.board m.source).type = PAWN)
    (hflags : m.flags = EN_PASSANT)
    (hcap_lt : ((m.source : Int) + epOffset ((bget g.board m.source).team = 0) m).toNat < 64)
    (hcap_ne_s : ((m.source : Int) + epOffset ((bget g.board m.source).team = 0) m).toNat ≠ m.source)
    (hcap_ne_d : ((m.source : Int) + epOffset ((bget g.board m.source).team = 0) m).toNat ≠ m.destination)
    (hcap_val : bget g.board ((m.source : Int) + epOffset ((bget g.board m.source).team = 0) m).toNat =
      ⟨PAWN ||| (bget g.board m.source).other_team⟩)
    (hdn : bget g.board m.destination = pieceNone) :
    undoBoard (performe_move g m).board m = g.board := by
  have hep : m.flags &&& EN_PASSANT ≠ 0 := by rw [hflags]; decide
  have hB : (performe_move g m).board =
      bset (bset (bset g.board m.destination (bget g.board m.source)) m.source pieceNone)
        ((m.source : Int) + epOffset ((bget g.board m.source).team = 0) m).toNat pieceNone := by
    rw [performe_board, if_pos hty, if_pos hep]
  have hpdE : bget (bset (bset (bset g.board m.destination (bget g.board m.source))
      m.source pieceNone)
      ((m.source : Int) + epOffset ((bget g.board m.source).team = 0) m).toNat pieceNone)
      m.destination = bget g.board m.source := by
    rw [bget_bset_ne _ _ _ _ hcap_ne_d, bget_bset_ne _ _ _ _ hsd,
      bget_bset_eq _ _ _ (by rw [len64]; exact dst_lt)]
  simp only [undoBoard, hB, hpdE]
  rw [if_pos hty, if_pos hep,
    if_neg (show ¬ m.flags &&& ATTACK ≠ 0 by rw [hflags]; decide),
    if_neg (show ¬ m.flags &&& PROMOTION ≠ 0 by rw [hflags]; decide)]
  exact board_ep_rt g.board m.source m.destination _ _ _
    (by omega) (by omega) (by omega) hsd (Ne.symm hcap_ne_s) (Ne.symm hcap_ne_d)
    rfl hdn hcap_val

/-- The undo board computation for an ordinary (non-castling) king move. -/
theorem undoBoard_king_normal (g : ChessGame) (m : Move) (len64 : g.board.length = 64)
    (src_lt : m.source < 64) (dst_lt : m.destination < 64) (hsd : m.source ≠ m.destination)
    (hty : (bget g.board m.source).type = KING)
    (hnd : ¬ ((m.source % 8 : Int) - (m.destination % 8 : Int)).natAbs > 1)
    (hpromo0 : m.flags &&& PROMOTION = 0)
    (hattack : m.flags &&& ATTACK ≠ 0 →
      bget g.board m.destination =
        ⟨(m.flags &&& Type_Mask) ||| (bget g.board m.source).other_team⟩)
    (hquiet : m.flags &&& ATTACK = 0 → bget g.board m.destination = pieceNone) :
    undoBoard (performe_move g m).board m = g.board := by
  have htyp : (bget g.board m.source).type ≠ PAWN := by rw [hty]; decide
  have hB : (performe_move g m).board =
      bset (bset g.board m.destination (bget g.board m.source)) m.source pieceNone := by
    rw [performe_board, if_neg htyp, if_pos hty, if_neg hnd]
  have hpdE : bget (bset (bset g.board m.destination (bget g.board m.source))
      m.source pieceNone) m.destination = bget g.board m.source := by
    rw [bget_bset_ne _ _ _ _ hsd,
      bget_bset_eq _ _ _ (by rw [len64]; exact dst_lt)]
  simp only [undoBoard, hB, hpdE]
  rw [if_neg htyp, if_pos hty, if_neg hnd, if_neg (fun h => h hpromo0)]
  by_cases ha : m.flags &&& ATTACK ≠ 0
  · rw [if_pos ha, bset_bset]
    exact board_relocate_rt g.board m.source m.destination _ _
      (by omega) (by omega) hsd rfl (hattack ha)
  · push_neg at ha
    rw [if_neg (by simp [ha])]
    exact board_relocate_rt g.board m.source m.destination _ _
      (by omega) (by omega) hsd rfl (hquiet ha)

/-- The undo board computation for a right-side castle. -/
theorem undoBoard_castle_right (g : ChessGame) (m : Move) (len64 : g.board.length = 64)
    (src_lt : m.source < 64) (dst_lt : m.destination < 64)
    (hty : (bget g.board m.source).type = KING)
    (hscol : m.source % 8 = 4) (hd6 : m.destination % 8 = 6)
    (hrow : m.destination / 8 = m.source / 8)
    (hattack0 : m.flags &&& ATTACK = 0) (hpromo0 : m.flags &&& PROMOTION = 0)
    (hrook : bget g.board (m.source / 8 * 8 + 7) =
      ⟨ROOK ||| (bget g.board m.source).team⟩)
    (h5 : bget g.board (m.source / 8 * 8 + 5) = pieceNone)
    (hdn : bget g.board m.destination = pieceNone) :
    undoBoard (performe_move g m).board m = g.board := by
  have htyp : (bget g.board m.source).type ≠ PAWN := by rw [hty]; decide
  have hsd : m.source ≠ m.destination := by omega
  have hgt : ((m.source % 8 : Int) - (m.destination % 8 : Int)).natAbs > 1 := by
    omega
  have hEr7 : bget (bset (bset g.board m.destination (bget g.board m.source))
      m.source pieceNone) (m.source / 8 * 8 + 7) =
      ⟨ROOK ||| (bget g.board m.source).team⟩ := by
    rw [bget_bset_ne _ _ _ _ (by omega), bget_bset_ne _ _ _ _ (by omega), hrook]
  have hB : (performe_move g m).board =
      bset (bset (bset (bset g.board m.destination (bget g.board m.source))
          m.source pieceNone)
        (m.source / 8 * 8 + 5) ⟨ROOK ||| (bget g.board m.source).team⟩)
        (m.source / 8 * 8 + 7) pieceNone := by
    rw [performe_board, if_neg htyp, if_pos hty, if_pos hgt, if_pos hd6, hrow, hEr7]
  have hpdE : bget (bset (bset (bset (bset g.board m.destination (bget g.board m.source))
      m.source pieceNone)
      (m.source / 8 * 8 + 5) ⟨ROOK ||| (bget g.board m.source).team⟩)
      (m.source / 8 * 8 + 7) pieceNone) m.destination = bget g.board m.source := by
    rw [bget_bset_ne _ _ _ _ (by omega), bget_bset_ne _ _ _ _ (by omega),
      bget_bset_ne _ _ _ _ hsd, bget_bset_eq _ _ _ (by rw [len64]; exact dst_lt)]
  simp only [undoBoard, hB, hpdE]
  rw [if_neg htyp, if_pos hty, if_pos hgt, if_pos hd6,
    if_neg (fun h => h hpromo0), if_neg (fun h => h hattack0)]
  exact board_castle_right_rt g.board m.source m.destination
    (m.source / 8 * 8 + 5) (m.source / 8 * 8 + 7) _ _
    (by omega) (by omega) (by omega) (by omega)
    hsd (by omega) (by omega) (by omega) (by omega) (by omega)
    rfl hdn h5 hrook

/-- The undo board computation for a left-side castle (king destination on
file 2 or file 1). -/
theorem undoBoard_castle_left (g : ChessGame) (m : Move) (len64 : g.board.length = 64)
    (src_lt : m.source < 64) (dst_lt : m.destination < 64)
    (hty : (bget g.board m.source).type = KING)
    (hscol : m.source % 8 = 4) (hd21 : m.destination % 8 = 2 ∨ m.destination % 8 = 1)
    (hrow : m.destination / 8 = m.source / 8)
    (hattack0 : m.flags &&& ATTACK = 0) (hpromo0 : m.flags &&& PROMOTION = 0)
    (hrcn : bget g.board (m.source / 8 * 8 + m.destination % 8 + 1) = pieceNone)
    (hdn : bget g.board m.destination = pieceNone) :
    undoBoard (performe_move g m).board m = g.board := by
  have htyp : (bget g.board m.source).type ≠ PAWN := by rw [hty]; decide
  have hsd : m.source ≠ m.destination := by omega
  have hgt : ((m.source % 8 : Int) - (m.destination % 8 : Int)).natAbs > 1 := by
    omega
  have hn6 : ¬ m.destination % 8 = 6 := by omega
  have hEr0 : bget (bset (bset g.board m.destination (bget g.board m.source))
      m.source pieceNone) (m.source / 8 * 8) = bget g.board (m.source / 8 * 8) := by
    rw [bget_bset_ne _ _ _ _ (by omega), bget_bset_ne _ _ _ _ (by omega)]
  have hB : (performe_move g m).board =
      bset (bset (bset (bset g.board m.destination (bget g.board m.source))
          m.source pieceNone)
        (m.source / 8 * 8 + m.destination % 8 + 1) (bget g.board (m.source / 8 * 8)))
        (m.source / 8 * 8) pieceNone := by
    rw [performe_board, if_neg htyp, if_pos hty, if_pos hgt, if_neg hn6, hrow, hEr0]
  have hpdE : bget (bset (bset (bset (bset g.board m.destination (bget g.board m.source))
      m.source pieceNone)
      (m.source / 8 * 8 + m.destination % 8 + 1) (bget g.board (m.source / 8 * 8)))
      (m.source / 8 * 8) pieceNone) m.destination = bget g.board m.source := by
    rw [bget_bset_ne _ _ _ _ (by omega), bget_bset_ne _ _ _ _ (by omega),
      bget_bset_ne _ _ _ _ hsd, bget_bset_eq _ _ _ (by rw [len64]; exact dst_lt)]
  have hb3rc : bget (bset (bset (bset (bset (bset (bset g.board m.destination
      (bget g.board m.source)) m.source pieceNone)
      (m.source / 8 * 8 + m.destination % 8 + 1) (bget g.board (m.source / 8 * 8)))
      (m.source / 8 * 8) pieceNone) m.source (bget g.board m.source))
      m.destination pieceNone) (m.source / 8 * 8 + m.destination % 8 + 1) =
      bget g.board (m.source / 8 * 8) := by
    rw [bget_bset_ne _ _ _ _ (by omega), bget_bset_ne _ _ _ _ (by omega),
      bget_bset_ne _ _ _ _ (by omega),
      bget_bset_eq _ _ _ (by simp only [bset_length, bset_length]; rw [len64]; omega)]
  simp only [undoBoard, hB, hpdE]
  rw [if_neg htyp, if_pos hty, if_pos hgt, if_neg hn6,
    if_neg (fun h => h hpromo0), if_neg (fun h => h hattack0), hb3rc]
  exact board_castle_left_rt g.board m.source m.destination
    (m.source / 8 * 8 + m.destination % 8 + 1) (m.source / 8 * 8) _ _
    (by omega) (by omega) (by omega) (by omega)
    hsd (by omega) (by omega) (by omega) (by omega) (by omega)
    rfl hdn hrcn rfl

theorem canR_iff (g : ChessGame) (w : Bool) :
    (can_castle_right g w = true) ↔
      (if w = true then g.flags &&& 1 ≠ 0 else g.flags &&& 4 ≠ 0) := by
  unfold can_castle_right CAN_WHITE_CASTLE_RIGHT CAN_BLACK_CASTLE_RIGHT
  rcases w <;> simp

theorem canL_iff (g : ChessGame) (w : Bool) :
    (can_castle_left g w = true) ↔
      (if w = true then g.flags &&& 2 ≠ 0 else g.flags &&& 8 ≠ 0) := by
  unfold can_castle_left CAN_WHITE_CASTLE_LEFT CAN_BLACK_CASTLE_LEFT
  rcases w <;> simp

/-- The central reversibility lemma: for any position satisfying the state
invariant and any move of the side to move satisfying the generated-move
facts, `undo_last_move` exactly inverts `performe_move`. -/
theorem apply_undo {g : ChessGame} {m : Move} (hInv : Inv g) (hmf : MoveFacts g m)
    (ht : (bget g.board m.source).team = g.current_turn) :
    undo_last_move (performe_move g m) = g := by
  obtain ⟨len64, hflt, htle, hcells, hprowI, hepI, hkingI⟩ := hInv
  have src_lt := hmf.src_lt
  have dst_lt := hmf.dst_lt
  have src_occ := hmf.src_occ
  have hpWF : WFcell (bget g.board m.source) := hcells _ src_lt
  obtain ⟨hpinfo, hptypes⟩ := WF_info_eq hpWF src_occ
  have hteam01 := WF_team hpWF
  have hsd : m.source ≠ m.destination := by
    by_cases ha : m.flags &&& ATTACK ≠ 0
    · intro he
      have h2 := (hmf.attack_team ha).1
      rw [he] at h2
      exact h2 rfl
    · push_neg at ha
      by_cases hepz : m.flags &&& EN_PASSANT = 0
      · intro he
        have hq := hmf.quiet_dst ha hepz
        rw [← he] at hq
        rw [hq] at src_occ
        exact src_occ rfl
      · obtain ⟨last, rest, hh, epf⟩ := hmf.ep_facts hepz
        have h1 := epf.row_eq
        have h2 := epf.row_fifth
        have h3 := epf.dst_eq
        rcases hteam01 with h4 | h4 <;> rw [h4] at h2 h3 <;> simp at h2 h3 <;> omega
  have hattackP : m.flags &&& ATTACK ≠ 0 →
      bget g.board m.destination =
        ⟨(m.flags &&& Type_Mask) ||| (bget g.board m.source).other_team⟩ :=
    fun ha => piece_eq_of_info (hmf.attack_dst ha)
  rw [undo_eq (performe_move g m) m g.history (performe_history g m)]
  simp only [List.mem_cons, List.not_mem_nil, or_false] at hptypes
  have generic_case : (bget g.board m.source).type ≠ PAWN →
      (bget g.board m.source).type ≠ KING →
      m.flags &&& FIRST_MOVE = 0 →
      (⟨(if ((bget (performe_move g m).board m.destination).type = KING ∨
            (bget (performe_move g m).board m.destination).type = ROOK) ∧
            m.flags &&& FIRST_MOVE ≠ 0 then
          (if m.flags &&& CASTLE_LEFT_BEFORE_MOVE ≠ 0 then
            set_castle_left true ((bget (performe_move g m).board m.destination).team = 0)
              (if m.flags &&& CASTLE_RIGHT_BEFORE_MOVE ≠ 0 then
                set_castle_right true
                  ((bget (performe_move g m).board m.destination).team = 0)
                  (performe_move g m).flags
              else (performe_move g m).flags)
          else
            (if m.flags &&& CASTLE_RIGHT_BEFORE_MOVE ≠ 0 then
              set_castle_right true ((bget (performe_move g m).board m.destination).team = 0)
                (performe_move g m).flags
            else (performe_move g m).flags))
        else (performe_move g m).flags),
        (performe_move g m).current_turn ^^^ 1,
        undoBoard (performe_move g m).board m,
        g.history⟩ : ChessGame) = g := by
    intro htyp htyk hfm0
    have hep0 : m.flags &&& EN_PASSANT = 0 := by
      by_contra hep
      obtain ⟨last, rest, hh, epf⟩ := hmf.ep_facts hep
      exact htyp epf.src_pawn
    have hpromo0 : m.flags &&& PROMOTION = 0 := by
      by_contra hp
      exact htyp (hmf.promo hp)
    have hUB := undoBoard_generic g m len64 src_lt dst_lt hsd htyp htyk hattackP
      (fun ha => hmf.quiet_dst ha hep0) hpromo0
    rw [performe_turn, xor_one_one, hUB,
      if_neg (fun hc => hc.2 hfm0), performe_flags, if_neg (fun h => h hfm0)]
  rcases hptypes with hty | hty | hty | hty | hty | hty
  · -- KING
    replace hty : (bget g.board m.source).type = KING := hty
    have htyp : (bget g.board m.source).type ≠ PAWN := by rw [hty]; decide
    have hep0 : m.flags &&& EN_PASSANT = 0 := by
      by_contra hep
      obtain ⟨last, rest, hh, epf⟩ := hmf.ep_facts hep
      have h := epf.src_pawn
      rw [hty] at h
      exact absurd h (by decide)
    have hpromo0 : m.flags &&& PROMOTION = 0 := by
      by_contra hp
      have h := hmf.promo hp
      rw [hty] at h
      exact absurd h (by decide)
    rcases hmf.king_shape hty with hnormal | hcastle
    · -- ordinary king move
      have hnd : ¬ ((m.source % 8 : Int) - (m.destination % 8 : Int)).natAbs > 1 := by
        omega
      have hUB := undoBoard_king_normal g m len64 src_lt dst_lt hsd hty hnd hpromo0
        hattackP (fun ha => hmf.quiet_dst ha hep0)
      have hpd : bget (performe_move g m).board m.destination = bget g.board m.source := by
        rw [performe_board, if_neg htyp, if_pos hty, if_neg hnd,
          bget_bset_ne _ _ _ _ hsd, bget_bset_eq _ _ _ (by rw [len64]; exact dst_lt)]
      by_cases hfm : m.flags &&& FIRST_MOVE = 0
      · rw [performe_turn, xor_one_one, hUB,
          if_neg (fun hc => hc.2 hfm), performe_flags, if_neg (fun h => h hfm)]
      · have ff := hmf.first_facts hfm
        rw [performe_turn, xor_one_one, hUB, hpd, if_pos ⟨Or.inl hty, hfm⟩,
          performe_flags, if_pos hfm, if_pos hty]
        simp only [ff.snap_left, ff.snap_right]
        rw [king_flags_rt g.flags hflt _ _ _ (canR_iff g _) (canL_iff g _)]
    · -- castle move
      have hfm := hcastle.first
      have ff := hmf.first_facts hfm
      have hscol := hcastle.src_col
      have hrow := hcastle.row_eq
      have hattack0 := hcastle.no_attack
      have hdn : bget g.board m.destination = pieceNone :=
        hmf.quiet_dst hattack0 hcastle.no_ep
      rcases hcastle.sides with ⟨hd6, hrook, h5⟩ | ⟨hd21, hlrook, hrcn⟩
      · -- right-side castle
        have hgt : ((m.source % 8 : Int) - (m.destination % 8 : Int)).natAbs > 1 := by
          omega
        have hUB := undoBoard_castle_right g m len64 src_lt dst_lt hty hscol hd6 hrow
          hattack0 hcastle.no_promo hrook h5 hdn
        have hpd : bget (performe_move g m).board m.destination =
            bget g.board m.source := by
          rw [performe_board, if_neg htyp, if_pos hty, if_pos hgt, if_pos hd6, hrow]
          rw [bget_bset_ne _ _ _ _ (by omega), bget_bset_ne _ _ _ _ (by omega),
            bget_bset_ne _ _ _ _ hsd, bget_bset_eq _ _ _ (by rw [len64]; exact dst_lt)]
        rw [performe_turn, xor_one_one, hUB, hpd, if_pos ⟨Or.inl hty, hfm⟩,
          performe_flags, if_pos hfm, if_pos hty]
        simp only [ff.snap_left, ff.snap_right]
        rw [king_flags_rt g.flags hflt _ _ _ (canR_iff g _) (canL_iff g _)]
      · -- left-side castle
        have hgt : ((m.source % 8 : Int) - (m.destination % 8 : Int)).natAbs > 1 := by
          omega
        have hn6 : ¬ m.destination % 8 = 6 := by omega
        have hUB := undoBoard_castle_left g m len64 src_lt dst_lt hty hscol hd21 hrow
          hattack0 hcastle.no_promo hrcn hdn
        have hpd : bget (performe_move g m).board m.destination =
            bget g.board m.source := by
          rw [performe_board, if_neg htyp, if_pos hty, if_pos hgt, if_neg hn6, hrow]
          rw [bget_bset_ne _ _ _ _ (by omega), bget_bset_ne _ _ _ _ (by omega),
            bget_bset_ne _ _ _ _ hsd, bget_bset_eq _ _ _ (by rw [len64]; exact dst_lt)]
        rw [performe_turn, xor_one_one, hUB, hpd, if_pos ⟨Or.inl hty, hfm⟩,
          performe_flags, if_pos hfm, if_pos hty]
        simp only [ff.snap_left, ff.snap_right]
        rw [king_flags_rt g.flags hflt _ _ _ (canR_iff g _) (canL_iff g _)]
  · -- QUEEN
    refine generic_case (by rw [hty]; decide) (by rw [hty]; decide) ?_
    by_contra hfm
    rcases (hmf.first_facts hfm).kind with hk | ⟨hk, _⟩ <;> rw [hty] at hk <;>
      exact absurd hk (by decide)
  · -- ROOK
    by_cases hfm : m.flags &&& FIRST_MOVE = 0
    · exact generic_case (by rw [hty]; decide) (by rw [hty]; decide) hfm
    · replace hty : (bget g.board m.source).type = ROOK := hty
      have htyp : (bget g.board m.source).type ≠ PAWN := by rw [hty]; decide
      have htyk : (bget g.board m.source).type ≠ KING := by rw [hty]; decide
      have hep0 : m.flags &&& EN_PASSANT = 0 := by
        by_contra hep
        obtain ⟨last, rest, hh, epf⟩ := hmf.ep_facts hep
        exact htyp epf.src_pawn
      have hpromo0 : m.flags &&& PROMOTION = 0 := by
        by_contra hp
        exact htyp (hmf.promo hp)
      have hUB := undoBoard_generic g m len64 src_lt dst_lt hsd htyp htyk hattackP
        (fun ha => hmf.quiet_dst ha hep0) hpromo0
      have hpd : bget (performe_move g m).board m.destination =
          bget g.board m.source := by
        rw [performe_board, if_neg htyp, if_neg htyk,
          bget_bset_ne _ _ _ _ hsd, bget_bset_eq _ _ _ (by rw [len64]; exact dst_lt)]
      have ff := hmf.first_facts hfm
      rw [performe_turn, xor_one_one, hUB, hpd, if_pos ⟨Or.inr hty, hfm⟩,
        performe_flags, if_pos hfm,
        if_neg (show ¬ (bget g.board m.source).type = KING by rw [hty]; decide),
        if_pos hty]
      simp only [ff.snap_left, ff.snap_right]
      rcases ff.kind with hk | ⟨_, hcol⟩
      · rw [hty] at hk
        exact absurd hk (by decide)
      · rcases hcol with ⟨h7, hcanR⟩ | ⟨h0, hcanL⟩
        · rw [if_pos h7,
            rook7_flags_rt g.flags hflt _ _ _ (canR_iff g _) (canL_iff g _) hcanR]
        · rw [if_neg (show ¬ m.source % 8 = 7 by omega),
            rook0_flags_rt g.flags hflt _ _ _ (canR_iff g _) (canL_iff g _) hcanL]
  · -- BISHOP
    refine generic_case (by rw [hty]; decide) (by rw [hty]; decide) ?_
    by_contra hfm
    rcases (hmf.first_facts hfm).kind with hk | ⟨hk, _⟩ <;> rw [hty] at hk <;>
      exact absurd hk (by decide)
  · -- KNIGHT
    refine generic_case (by rw [hty]; decide) (by rw [hty]; decide) ?_
    by_contra hfm
    rcases (hmf.first_facts hfm).kind with hk | ⟨hk, _⟩ <;> rw [hty] at hk <;>
      exact absurd hk (by decide)
  · -- PAWN
    replace hty : (bget g.board m.source).type = PAWN := hty
    have hfm0 : m.flags &&& FIRST_MOVE = 0 := by
      by_contra hfm
      rcases (hmf.first_facts hfm).kind with hk | ⟨hk, _⟩ <;> rw [hty] at hk <;>
        exact absurd hk (by decide)
    by_cases hep : m.flags &&& EN_PASSANT ≠ 0
    · -- en passant
      obtain ⟨last, rest, hh, epf⟩ := hmf.ep_facts hep
      obtain ⟨hld_lt, hld_row, hld_pawn, hld_skip⟩ :=
        hepI last (by rw [hh]; simp) epf.dbl
      have hrow_eq := epf.row_eq
      have hrow5 := epf.row_fifth
      have hdst := epf.dst_eq
      have hcap := epf.cap_eq
      have hcol := epf.col_adj
      have hot := other_team_eq hteam01
      rcases hteam01 with hw | hw
      · -- white capturer
        rw [hw] at hrow5 hdst
        simp at hrow5 hdst
        have htt : g.current_turn ^^^ 1 = 1 := by
          rw [← ht, hw]
          decide
        rw [htt] at hld_row hld_pawn hld_skip
        simp at hld_row hld_skip
        have hot1 : (bget g.board m.source).other_team = 1 := by omega
        have hcap_lt : ((m.source : Int) +
            epOffset ((bget g.board m.source).team = 0) m).toNat < 64 := by
          rw [hcap]
          exact hld_lt
        have hcap_ne_s : ((m.source : Int) +
            epOffset ((bget g.board m.source).team = 0) m).toNat ≠ m.source := by
          rw [hcap]
          omega
        have hcap_ne_d : ((m.source : Int) +
            epOffset ((bget g.board m.source).team = 0) m).toNat ≠ m.destination := by
          rw [hcap]
          omega
        have hcap_val : bget g.board ((m.source : Int) +
            epOffset ((bget g.board m.source).team = 0) m).toNat =
            ⟨PAWN ||| (bget g.board m.source).other_team⟩ := by
          rw [hcap, hot1]
          exact hld_pawn
        have hdn : bget g.board m.destination = pieceNone := by
          rw [show m.destination = last.destination - 8 by omega]
          exact hld_skip
        have hUB := undoBoard_ep g m len64 src_lt dst_lt hsd hty epf.flags_eq
          hcap_lt hcap_ne_s hcap_ne_d hcap_val hdn
        rw [performe_turn, xor_one_one, hUB,
          if_neg (fun hc => hc.2 hfm0), performe_flags, if_neg (fun h => h hfm0)]
      · -- black capturer
        rw [hw] at hrow5 hdst
        simp at hrow5 hdst
        have htt : g.current_turn ^^^ 1 = 0 := by
          rw [← ht, hw]
          decide
        rw [htt] at hld_row hld_pawn hld_skip
        simp at hld_row hld_skip
        have hot0 : (bget g.board m.source).other_team = 0 := by omega
        have hcap_lt : ((m.source : Int) +
            epOffset ((bget g.board m.source).team = 0) m).toNat < 64 := by
          rw [hcap]
          exact hld_lt
        have hcap_ne_s : ((m.source : Int) +
            epOffset ((bget g.board m.source).team = 0) m).toNat ≠ m.source := by
          rw [hcap]
          omega
        have hcap_ne_d : ((m.source : Int) +
            epOffset ((bget g.board m.source).team = 0) m).toNat ≠ m.destination := by
          rw [hcap]
          omega
        have hcap_val : bget g.board ((m.source : Int) +
            epOffset ((bget g.board m.source).team = 0) m).toNat =
            ⟨PAWN ||| (bget g.board m.source).other_team⟩ := by
          rw [hcap, hot0]
          exact hld_pawn
        have hdn : bget g.board m.destination = pieceNone := by
          rw [show m.destination = last.destination + 8 by omega]
          exact hld_skip
        have hUB := undoBoard_ep g m len64 src_lt dst_lt hsd hty epf.flags_eq
          hcap_lt hcap_ne_s hcap_ne_d hcap_val hdn
        rw [performe_turn, xor_one_one, hUB,
          if_neg (fun hc => hc.2 hfm0), performe_flags, if_neg (fun h => h hfm0)]
    · push_neg at hep
      by_cases hpr : m.flags &&& PROMOTION ≠ 0
      · -- promotion
        have hpinfo' : (bget g.board m.source).info =
            PAWN ||| (bget g.board m.source).team := by
          rw [hpinfo, hty]
        have hUB := undoBoard_promo g m len64 src_lt dst_lt hsd hty hteam01 hpinfo'
          hep hpr hattackP (fun ha => hmf.quiet_dst ha hep)
        rw [performe_turn, xor_one_one, hUB,
          if_neg (fun hc => hc.2 hfm0), performe_flags, if_neg (fun h => h hfm0)]
      · -- plain pawn move
        push_neg at hpr
        have hUB := undoBoard_pawn_plain g m len64 src_lt dst_lt hsd hty hep hpr
          hattackP (fun ha => hmf.quiet_dst ha hep)
        rw [performe_turn, xor_one_one, hUB,
          if_neg (fun hc => hc.2 hfm0), performe_flags, if_neg (fun h => h hfm0)]

/-! ### From generator membership to `MoveFacts` -/

/-- The base flag words the generator can attach to a quiet move: `NO_ACTION`,
the three non-zero `first_move_flags` words, and `PROMOTION`. -/
def baseFlagSet : List Nat := [0, 384, 640, 896, 1024]

theorem base_flag_bits : ∀ b ∈ baseFlagSet,
    b &&& ATTACK = 0 ∧ b &&& DOUBLE_MOVE = 0 ∧ b &&& EN_PASSANT = 0 ∧
    (b &&& PROMOTION ≠ 0 ↔ b = 1024) ∧ (b &&& FIRST_MOVE ≠ 0 ↔ b ≠ 0 ∧ b ≠ 1024) := by
  decide

theorem attack_flag_bits : ∀ b ∈ baseFlagSet, ∀ t ∈ [2, 4, 8, 16, 32, 64],
    (b ||| ATTACK ||| t) &&& ATTACK ≠ 0 ∧
    (b ||| ATTACK ||| t) &&& Type_Mask = t ∧
    ((b ||| ATTACK ||| t) &&& PROMOTION ≠ 0 ↔ b &&& PROMOTION ≠ 0) ∧
    ((b ||| ATTACK ||| t) &&& FIRST_MOVE ≠ 0 ↔ b &&& FIRST_MOVE ≠ 0) ∧
    ((b ||| ATTACK ||| t) &&& CASTLE_RIGHT_BEFORE_MOVE ≠ 0 ↔
      b &&& CASTLE_RIGHT_BEFORE_MOVE ≠ 0) ∧
    ((b ||| ATTACK ||| t) &&& CASTLE_LEFT_BEFORE_MOVE ≠ 0 ↔
      b &&& CASTLE_LEFT_BEFORE_MOVE ≠ 0) ∧
    (b ||| ATTACK ||| t) &&& DOUBLE_MOVE = 0 ∧
    (b ||| ATTACK ||| t) &&& EN_PASSANT = 0 := by
  decide

/-- The king's `first_move_flags` is always one of the five base words. -/
theorem kfm_mem (g : ChessGame) (w : Bool) : kingFirstMoveFlags g w ∈ baseFlagSet := by
  rcases kfm_spec g w with ⟨h, _, _⟩ | ⟨h, _, _⟩ | ⟨h, _, _⟩ | ⟨h, _, _⟩ <;> rw [h] <;> decide

theorem kfm_ne_promo (g : ChessGame) (w : Bool) : kingFirstMoveFlags g w ≠ 1024 := by
  rcases kfm_spec g w with ⟨h, _, _⟩ | ⟨h, _, _⟩ | ⟨h, _, _⟩ | ⟨h, _, _⟩ <;> rw [h] <;> decide

/-- Characterisation of the bits of the king's `first_move_flags`. -/
theorem kfm_bits (g : ChessGame) (w : Bool) :
    (kingFirstMoveFlags g w &&& FIRST_MOVE ≠ 0 ↔
      (can_castle_right g w = true ∨ can_castle_left g w = true)) ∧
    (kingFirstMoveFlags g w &&& CASTLE_RIGHT_BEFORE_MOVE ≠ 0 ↔
      can_castle_right g w = true) ∧
    (kingFirstMoveFlags g w &&& CASTLE_LEFT_BEFORE_MOVE ≠ 0 ↔
      can_castle_left g w = true) := by
  rcases kfm_spec g w with ⟨h, hR, hL⟩ | ⟨h, hR, hL⟩ | ⟨h, hR, hL⟩ | ⟨h, hR, hL⟩ <;>
    rw [h, hR, hL] <;> refine ⟨?_, ?_, ?_⟩ <;> simp <;> decide

/-- Facts about one square probed by `stepCand`. -/
theorem stepCand_facts {g : ChessGame} {pos : Nat} {p : Piece} {c r : Int} {f : Nat}
    {m : Move} (hm : m ∈ stepCand g pos p c r f) :
    0 ≤ c ∧ c < 8 ∧ 0 ≤ r ∧ r < 8 ∧ m.source = pos ∧ (m.destination : Int) = r * 8 + c ∧
    (((pieceAt g c r).type = NONE ∧ m.flags = f) ∨
     ((pieceAt g c r).type ≠ NONE ∧ (pieceAt g c r).team ≠ p.team ∧
       m.flags = f ||| ATTACK ||| (pieceAt g c r).type)) := by
  simp only [stepCand] at hm
  by_cases h1 : c ≥ 0 ∧ c < 8 ∧ r ≥ 0 ∧ r < 8
  · rw [if_pos h1] at hm
    by_cases h2 : (pieceAt g c r).type = NONE
    · rw [if_pos h2] at hm
      simp only [mkMove, List.mem_singleton] at hm
      subst hm
      refine ⟨h1.1, h1.2.1, h1.2.2.1, h1.2.2.2, rfl, ?_, Or.inl ⟨h2, rfl⟩⟩
      show ((((r * 8 + c).toNat : Nat) : Int)) = r * 8 + c
      rw [Int.toNat_of_nonneg (by omega)]
    · rw [if_neg h2] at hm
      by_cases h3 : (pieceAt g c r).team ≠ p.team
      · rw [if_pos h3] at hm
        simp only [mkMove, List.mem_singleton] at hm
        subst hm
        refine ⟨h1.1, h1.2.1, h1.2.2.1, h1.2.2.2, rfl, ?_, Or.inr ⟨h2, h3, rfl⟩⟩
        show ((((r * 8 + c).toNat : Nat) : Int)) = r * 8 + c
        rw [Int.toNat_of_nonneg (by omega)]
      · rw [if_neg h3] at hm
        simp at hm
  · rw [if_neg h1] at hm
    simp at hm

/-- Facts about a move emitted by the sliding walk. -/
theorem slide_facts {g : ChessGame} {pos : Nat} {p : Piece} {dc dr : Int} {f : Nat} :
    ∀ {fuel : Nat} {c r : Int} {m : Move}, m ∈ slide g pos p c r dc dr f fuel →
    ∃ c' r' : Int, 0 ≤ c' ∧ c' < 8 ∧ 0 ≤ r' ∧ r' < 8 ∧
      m.source = pos ∧ (m.destination : Int) = r' * 8 + c' ∧
      (((pieceAt g c' r').type = NONE ∧ m.flags = f) ∨
       ((pieceAt g c' r').type ≠ NONE ∧ (pieceAt g c' r').team ≠ p.team ∧
         m.flags = f ||| ATTACK ||| (pieceAt g c' r').type)) := by
  intro fuel
  induction fuel with
  | zero =>
    intro c r m hm
    simp [slide] at hm
  | succ n ih =>
    intro c r m hm
    simp only [slide] at hm
    by_cases h1 : c + dc < 8 ∧ r + dr < 8 ∧ c + dc > -1 ∧ r + dr > -1
    · rw [if_pos h1] at hm
      by_cases h2 : (pieceAt g (c + dc) (r + dr)).type = NONE
      · rw [if_pos h2] at hm
        rcases List.mem_cons.mp hm with hm | hm
        · subst hm
          refine ⟨c + dc, r + dr, by omega, by omega, by omega, by omega, rfl, ?_,
            Or.inl ⟨h2, rfl⟩⟩
          show ((((r + dr) * 8 + (c + dc)).toNat : Nat) : Int) = (r + dr) * 8 + (c + dc)
          rw [Int.toNat_of_nonneg (by omega)]
        · exact ih hm
      · rw [if_neg h2] at hm
        by_cases h3 : (pieceAt g (c + dc) (r + dr)).team ≠ p.team
        · rw [if_pos h3] at hm
          simp only [mkMove, List.mem_singleton] at hm
          subst hm
          refine ⟨c + dc, r + dr, by omega, by omega, by omega, by omega, rfl, ?_,
            Or.inr ⟨h2, h3, rfl⟩⟩
          show ((((r + dr) * 8 + (c + dc)).toNat : Nat) : Int) = (r + dr) * 8 + (c + dc)
          rw [Int.toNat_of_nonneg (by omega)]
        · rw [if_neg h3] at hm
          simp at hm
    · rw [if_neg h1] at hm
      simp at hm

theorem pieceAt_eq_bget {g : ChessGame} {c r : Int} (hc : 0 ≤ c) (hc8 : c < 8)
    (hr : 0 ≤ r) (hr8 : r < 8) :
    pieceAt g c r = bget g.board (r * 8 + c).toNat := by
  unfold pieceAt bgetI
  rw [if_pos ⟨by omega, by omega⟩]

theorem team_ne_eq_other {p q : Piece} (hp : p.team = 0 ∨ p.team = 1)
    (hq : q.team = 0 ∨ q.team = 1) (hne : q.team ≠ p.team) :
    q.team = p.other_team := by
  unfold Piece.other_team
  rcases hp with h | h <;> rcases hq with h2 | h2 <;> rw [h, h2] <;> simp_all

/-- Assemble `MoveFacts` for a move emitted at one probed square by a
non-pawn piece (kings' normal scan, knights, and all sliding pieces). -/
theorem facts_of_square {g : ChessGame} {m : Move} {pos : Nat} {f : Nat} {c r : Int}
    (hInv : Inv g) (hpos : pos < 64)
    (hocc : (bget g.board pos).type ≠ NONE)
    (hnp : (bget g.board pos).type ≠ PAWN)
    (hsrc : m.source = pos)
    (hc : 0 ≤ c) (hc8 : c < 8) (hr : 0 ≤ r) (hr8 : r < 8)
    (hdst : (m.destination : Int) = r * 8 + c)
    (hsq : ((pieceAt g c r).type = NONE ∧ m.flags = f) ∨
      ((pieceAt g c r).type ≠ NONE ∧ (pieceAt g c r).team ≠ (bget g.board pos).team ∧
        m.flags = f ||| ATTACK ||| (pieceAt g c r).type))
    (hbase : f ∈ baseFlagSet) (hf1024 : f ≠ 1024)
    (hsnap : f &&& FIRST_MOVE ≠ 0 →
      ((bget g.board pos).type = KING ∨ ((bget g.board pos).type = ROOK ∧
        ((m.source % 8 = 7 ∧ can_castle_right g ((bget g.board pos).team = 0) = true) ∨
         (m.source % 8 = 0 ∧ can_castle_left g ((bget g.board pos).team = 0) = true)))) ∧
      ((f &&& CASTLE_RIGHT_BEFORE_MOVE ≠ 0) ↔
        can_castle_right g ((bget g.board pos).team = 0) = true) ∧
      ((f &&& CASTLE_LEFT_BEFORE_MOVE ≠ 0) ↔
        can_castle_left g ((bget g.board pos).team = 0) = true))
    (hkshape : (bget g.board pos).type = KING →
      ((m.source % 8 : Int) - (m.destination % 8 : Int)).natAbs ≤ 1)
    (hkfirst : (bget g.board pos).type = KING →
      (can_castle_right g ((bget g.board pos).team = 0) = true ∨
       can_castle_left g ((bget g.board pos).team = 0) = true) →
      f &&& FIRST_MOVE ≠ 0) :
    MoveFacts g m := by
  subst hsrc
  obtain ⟨len64, hflt, htle, hcells, hprow, hepI, hkingI⟩ := hInv
  obtain ⟨hb1, hbD, hbE, hbP, hbF⟩ := base_flag_bits f hbase
  have hdstN : m.destination = (r * 8 + c).toNat := by omega
  have hdlt : m.destination < 64 := by omega
  have hPA : pieceAt g c r = bget g.board m.destination := by
    rw [pieceAt_eq_bget hc hc8 hr hr8, ← hdstN]
  rw [hPA] at hsq
  have hpWF := hcells m.source hpos
  have hdWF := hcells _ hdlt
  rcases hsq with ⟨hqn, hfl⟩ | ⟨hqocc, hqteam, hfl⟩
  · -- quiet move
    refine ⟨hpos, hdlt, hocc, ?_, ?_, ?_, ?_, ?_, ?_, ?_, ?_, ?_, ?_⟩
    · intro ha
      rw [hfl] at ha
      exact absurd hb1 ha
    · intro ha
      rw [hfl] at ha
      exact absurd hb1 ha
    · intro _ _
      exact WF_none hdWF hqn
    · intro hp
      rw [hfl] at hp
      exact absurd (hbP.mp hp) hf1024
    · intro hp
      exact absurd hp hnp
    · intro h
      rw [hfl] at h
      exact absurd hbE (fun h0 => h h0)
    · intro h
      rw [hfl] at h
      exact absurd hbD (fun h0 => h h0)
    · intro h
      rw [hfl] at h
      obtain ⟨hkind, hsr, hsl⟩ := hsnap h
      exact ⟨hkind, by rw [hfl]; exact hsr, by rw [hfl]; exact hsl⟩
    · intro hk
      exact Or.inl (hkshape hk)
    · intro hk hcan
      rw [hfl]
      exact hkfirst hk hcan
  · -- capture
    obtain ⟨hdinfo, hdtypes⟩ := WF_info_eq hdWF hqocc
    obtain ⟨ha1, ha126, haP, haF, haCR, haCL, haD, haE⟩ :=
      attack_flag_bits f hbase _ hdtypes
    refine ⟨hpos, hdlt, hocc, ?_, ?_, ?_, ?_, ?_, ?_, ?_, ?_, ?_, ?_⟩
    · intro _
      rw [hfl]
      show (bget g.board m.destination).info =
        (f ||| ATTACK ||| (bget g.board m.destination).type) &&& Type_Mask |||
          (bget g.board m.source).other_team
      rw [ha126, hdinfo, team_ne_eq_other (WF_team hpWF) (WF_team hdWF) hqteam]
    · intro _
      exact ⟨hqteam, hqocc⟩
    · intro h0 _
      rw [hfl] at h0
      exact absurd h0 ha1
    · intro hp
      rw [hfl] at hp
      exact absurd (hbP.mp (haP.mp hp)) hf1024
    · intro hp
      exact absurd hp hnp
    · intro h
      rw [hfl] at h
      exact absurd haE (fun h0 => h h0)
    · intro h
      rw [hfl] at h
      exact absurd haD (fun h0 => h h0)
    · intro h
      rw [hfl] at h
      obtain ⟨hkind, hsr, hsl⟩ := hsnap (haF.mp h)
      exact ⟨hkind, by rw [hfl]; exact haCR.trans hsr, by rw [hfl]; exact haCL.trans hsl⟩
    · intro hk
      exact Or.inl (hkshape hk)
    · intro hk hcan
      rw [hfl]
      exact haF.mpr (hkfirst hk hcan)

theorem knight_facts {g : ChessGame} {m : Move} {pos : Nat}
    (hInv : Inv g) (hpos : pos < 64)
    (hty : (bget g.board pos).type = KNIGHT)
    (hm : m ∈ knightCands g pos) : MoveFacts g m := by
  have hocc : (bget g.board pos).type ≠ NONE := by rw [hty]; decide
  have hnp : (bget g.board pos).type ≠ PAWN := by rw [hty]; decide
  simp only [knightCands, List.mem_append, or_assoc] at hm
  rcases hm with hm | hm | hm | hm | hm | hm | hm | hm <;>
  · obtain ⟨hc, hc8, hr, hr8, hsrc, hdst, hsq⟩ := stepCand_facts hm
    exact facts_of_square hInv hpos hocc hnp hsrc hc hc8 hr hr8 hdst hsq
      (by decide) (by decide)
      (fun h => absurd (by decide : (0 : Nat) &&& FIRST_MOVE = 0) h)
      (fun hk => absurd (hty.symm.trans hk) (by decide))
      (fun hk _ => absurd (hty.symm.trans hk) (by decide))

/-- Facts for a move of a sliding piece that carries base flags `f` with the
`FIRST_MOVE`-related data supplied by the caller. -/
theorem slide_piece_facts {g : ChessGame} {m : Move} {pos : Nat} {p : Piece}
    {c r dc dr : Int} {f : Nat} {fuel : Nat}
    (hInv : Inv g) (hpos : pos < 64)
    (hp : p = bget g.board pos)
    (hocc : (bget g.board pos).type ≠ NONE)
    (hnp : (bget g.board pos).type ≠ PAWN)
    (hnk : (bget g.board pos).type ≠ KING)
    (hbase : f ∈ baseFlagSet) (hf1024 : f ≠ 1024)
    (hsnap : f &&& FIRST_MOVE ≠ 0 →
      ((bget g.board pos).type = KING ∨ ((bget g.board pos).type = ROOK ∧
        ((pos % 8 = 7 ∧ can_castle_right g ((bget g.board pos).team = 0) = true) ∨
         (pos % 8 = 0 ∧ can_castle_left g ((bget g.board pos).team = 0) = true)))) ∧
      ((f &&& CASTLE_RIGHT_BEFORE_MOVE ≠ 0) ↔
        can_castle_right g ((bget g.board pos).team = 0) = true) ∧
      ((f &&& CASTLE_LEFT_BEFORE_MOVE ≠ 0) ↔
        can_castle_left g ((bget g.board pos).team = 0) = true))
    (hm : m ∈ slide g pos p c r dc dr f fuel) : MoveFacts g m := by
  subst hp
  obtain ⟨c', r', hc, hc8, hr, hr8, hsrc, hdst, hsq⟩ := slide_facts hm
  exact facts_of_square hInv hpos hocc hnp hsrc hc hc8 hr hr8 hdst hsq
    hbase hf1024 (by rw [hsrc]; exact hsnap)
    (fun hk => absurd hk hnk)
    (fun hk _ => absurd hk hnk)

theorem kingNormal_facts {g : ChessGame} {m : Move} {pos : Nat}
    (hInv : Inv g) (hpos : pos < 64)
    (hty : (bget g.board pos).type = KING)
    (hm : m ∈ kingNormalCands g pos) : MoveFacts g m := by
  have hocc : (bget g.board pos).type ≠ NONE := by rw [hty]; decide
  have hnp : (bget g.board pos).type ≠ PAWN := by rw [hty]; decide
  simp only [kingNormalCands, List.mem_flatMap] at hm
  obtain ⟨ir, hir, hmem⟩ := hm
  have hbound : (ir.2 - (pos % 8 : Int)).natAbs ≤ 1 ∧
      (ir.1 - (pos / 8 : Int)).natAbs ≤ 1 := by
    simp only [List.mem_cons, List.not_mem_nil, or_false] at hir
    rcases hir with h|h|h|h|h|h|h|h|h <;> subst h <;> constructor <;> omega
  obtain ⟨hc, hc8, hr, hr8, hsrc, hdst, hsq⟩ := stepCand_facts hmem
  refine facts_of_square hInv hpos hocc hnp hsrc hc hc8 hr hr8 hdst hsq
    (kfm_mem g _) (kfm_ne_promo g _) ?_ ?_ ?_
  · intro h
    obtain ⟨hF, hR, hL⟩ := kfm_bits g ((bget g.board pos).team = 0)
    exact ⟨Or.inl hty, hR, hL⟩
  · intro _
    have h1 : (m.destination % 8 : Int) = ir.2 := by omega
    have h2 : ((m.source % 8 : Nat) : Int) = (pos % 8 : Int) := by
      omega
    omega
  · intro _ hcan
    exact (kfm_bits g _).1.mpr hcan

/-- Assemble `MoveFacts` for a pawn push or diagonal capture emitted with base
flag `f` (either `0` or `PROMOTION`). -/
theorem pawn_move_facts {g : ChessGame} {m : Move} {pos : Nat} {f : Nat} {c r : Int}
    (hInv : Inv g) (hpos : pos < 64)
    (hty : (bget g.board pos).type = PAWN)
    (hsrc : m.source = pos)
    (hc : 0 ≤ c) (hc8 : c < 8) (hr : 0 ≤ r) (hr8 : r < 8)
    (hdst : (m.destination : Int) = r * 8 + c)
    (hsq : ((pieceAt g c r).type = NONE ∧ m.flags = f) ∨
      ((pieceAt g c r).type ≠ NONE ∧ (pieceAt g c r).team ≠ (bget g.board pos).team ∧
        m.flags = f ||| ATTACK ||| (pieceAt g c r).type))
    (hf01 : f = 0 ∨ f = PROMOTION)
    (hrowp : f = 0 → 1 ≤ r ∧ r ≤ 6) :
    MoveFacts g m := by
  have hbase : f ∈ baseFlagSet := by rcases hf01 with h | h <;> rw [h] <;> decide
  have hocc : (bget g.board pos).type ≠ NONE := by rw [hty]; decide
  have hnk : (bget g.board pos).type ≠ KING := by rw [hty]; decide
  subst hsrc
  obtain ⟨len64, hflt, htle, hcells, hprow, hepI, hkingI⟩ := hInv
  obtain ⟨hb1, hbD, hbE, hbP, hbF⟩ := base_flag_bits f hbase
  have hfF : f &&& FIRST_MOVE = 0 := by rcases hf01 with h | h <;> rw [h] <;> decide
  have hdstN : m.destination = (r * 8 + c).toNat := by omega
  have hdlt : m.destination < 64 := by omega
  have hPA : pieceAt g c r = bget g.board m.destination := by
    rw [pieceAt_eq_bget hc hc8 hr hr8, ← hdstN]
  rw [hPA] at hsq
  have hpWF := hcells m.source hpos
  have hdWF := hcells _ hdlt
  rcases hsq with ⟨hqn, hfl⟩ | ⟨hqocc, hqteam, hfl⟩
  · refine ⟨hpos, hdlt, hocc, ?_, ?_, ?_, ?_, ?_, ?_, ?_, ?_, ?_, ?_⟩
    · intro ha
      rw [hfl] at ha
      exact absurd hb1 ha
    · intro ha
      rw [hfl] at ha
      exact absurd hb1 ha
    · intro _ _
      exact WF_none hdWF hqn
    · intro _
      exact hty
    · intro _ hp
      rw [hfl] at hp
      have hf0 : f = 0 := by
        rcases hf01 with h | h
        · exact h
        · exact absurd hp (hbP.mpr h)
      have h16 := hrowp hf0
      omega
    · intro h
      rw [hfl] at h
      exact absurd hbE (fun h0 => h h0)
    · intro h
      rw [hfl] at h
      exact absurd hbD (fun h0 => h h0)
    · intro h
      rw [hfl] at h
      exact absurd hfF h
    · intro hk
      exact absurd hk hnk
    · intro hk _
      exact absurd hk hnk
  · obtain ⟨hdinfo, hdtypes⟩ := WF_info_eq hdWF hqocc
    obtain ⟨ha1, ha126, haP, haF, haCR, haCL, haD, haE⟩ :=
      attack_flag_bits f hbase _ hdtypes
    refine ⟨hpos, hdlt, hocc, ?_, ?_, ?_, ?_, ?_, ?_, ?_, ?_, ?_, ?_⟩
    · intro _
      rw [hfl]
      show (bget g.board m.destination).info =
        (f ||| ATTACK ||| (bget g.board m.destination).type) &&& Type_Mask |||
          (bget g.board m.source).other_team
      rw [ha126, hdinfo, team_ne_eq_other (WF_team hpWF) (WF_team hdWF) hqteam]
    · intro _
      exact ⟨hqteam, hqocc⟩
    · intro h0 _
      rw [hfl] at h0
      exact absurd h0 ha1
    · intro _
      exact hty
    · intro _ hp
      rw [hfl] at hp
      have hf0 : f = 0 := by
        rcases hf01 with h | h
        · exact h
        · exact absurd hp (haP.mpr (hbP.mpr h))
      have h16 := hrowp hf0
      omega
    · intro h
      rw [hfl] at h
      exact absurd haE (fun h0 => h h0)
    · intro h
      rw [hfl] at h
      exact absurd haD (fun h0 => h h0)
    · intro h
      rw [hfl] at h
      exact absurd hfF (haF.mp h)
    · intro hk
      exact absurd hk hnk
    · intro hk _
      exact absurd hk hnk

/-- `en_passant_captured_piece_offset` for white. -/
theorem epOffset_white (m : Move) : epOffset true m =
    (if ((m.source : Int) - (m.destination : Int)).natAbs = 9 then -1 else 1) := by
  unfold epOffset
  by_cases h : ((m.source : Int) - (m.destination : Int)).natAbs = 9 <;> simp [h]

/-- `en_passant_captured_piece_offset` for black. -/
theorem epOffset_black (m : Move) : epOffset false m =
    (if ((m.source : Int) - (m.destination : Int)).natAbs = 9 then 1 else -1) := by
  unfold epOffset
  by_cases h : ((m.source : Int) - (m.destination : Int)).natAbs = 9 <;> simp [h]

theorem pawn_facts {g : ChessGame} {m : Move} {pos : Nat}
    (hInv : Inv g) (hpos : pos < 64)
    (hty : (bget g.board pos).type = PAWN)
    (hm : m ∈ pawnCands g pos) : MoveFacts g m := by
  have hInv' := hInv
  obtain ⟨len64, hflt, htle, hcells, hprow, hepI, hkingI⟩ := hInv'
  have hpWF := hcells pos hpos
  have hocc : (bget g.board pos).type ≠ NONE := by rw [hty]; decide
  have hrow16 := hprow pos hpos hty
  rcases WF_team hpWF with hw | hw
  · -- white pawn: direction -1
    simp only [pawnCands, hw, reduceIte, List.mem_append, List.not_mem_nil, or_false] at hm
    rcases hm with ((hm | hm) | hm) | hm
    · -- forward pushes
      split at hm
      · rename_i hO1
        have hN1 : (pieceAt g ((pos : Int) % 8) ((pos : Int) / 8 + -1)).type = NONE := by
          simpa [Is_Occupied] using hO1
        rcases List.mem_cons.mp hm with he | hm
        · have hms : m.source = pos := by rw [he]; rfl
          have hfl : m.flags =
              (if (pos : Int) / 8 + -1 = 0 ∨ (pos : Int) / 8 + -1 = 7
                then PROMOTION else 0) := by
            rw [he]; rfl
          have hd : (m.destination : Int) =
              ((pos : Int) / 8 + -1) * 8 + (pos : Int) % 8 := by
            rw [he]
            simp only [mkMove]
            omega
          refine pawn_move_facts hInv hpos hty hms (by omega) (by omega) (by omega)
            (by omega) hd (Or.inl ⟨hN1, hfl⟩) ?_ ?_
          · by_cases hpr : ((pos : Int) / 8 + -1 = 0 ∨ (pos : Int) / 8 + -1 = 7)
            · rw [if_pos hpr]
              right
              rfl
            · rw [if_neg hpr]
              left
              rfl
          · intro h0
            by_cases hpr : ((pos : Int) / 8 + -1 = 0 ∨ (pos : Int) / 8 + -1 = 7)
            · rw [if_pos hpr] at h0
              exact absurd h0 (by decide)
            · omega
        · -- double step
          split at hm
          · rename_i hC2
            obtain ⟨hrow6, hO2⟩ := hC2
            have hN2 : (pieceAt g ((pos : Int) % 8) ((pos : Int) / 8 + -1 * 2)).type =
                NONE := by
              simpa [Is_Occupied] using hO2
            have he := List.mem_singleton.mp hm
            have hms : m.source = pos := by rw [he]; rfl
            have hmf : m.flags = DOUBLE_MOVE := by rw [he]; rfl
            have hmd : m.destination = pos - 16 := by
              rw [he]
              simp only [mkMove]
              omega
            have hp48 : 48 ≤ pos ∧ pos ≤ 55 := by omega
            have hmid : bget g.board (pos - 8) = pieceNone := by
              have h1 : pieceAt g ((pos : Int) % 8) ((pos : Int) / 8 + -1) =
                  bget g.board (pos - 8) := by
                rw [pieceAt_eq_bget (by omega) (by omega) (by omega) (by omega)]
                congr 1
                omega
              have h2 : (bget g.board (pos - 8)).type = NONE := by
                rw [← h1]
                exact hN1
              exact WF_none (hcells _ (by omega)) h2
            have hdempty : bget g.board (pos - 16) = pieceNone := by
              have h1 : pieceAt g ((pos : Int) % 8) ((pos : Int) / 8 + -1 * 2) =
                  bget g.board (pos - 16) := by
                rw [pieceAt_eq_bget (by omega) (by omega) (by omega) (by omega)]
                congr 1
                omega
              have h2 : (bget g.board (pos - 16)).type = NONE := by
                rw [← h1]
                exact hN2
              exact WF_none (hcells _ (by omega)) h2
            refine ⟨by omega, by omega, by rw [hms]; exact hocc,
              ?_, ?_, ?_, ?_, ?_, ?_, ?_, ?_, ?_, ?_⟩
            · intro ha
              rw [hmf] at ha
              exact absurd (by decide) ha
            · intro ha
              rw [hmf] at ha
              exact absurd (by decide) ha
            · intro _ _
              rw [hmd]
              exact hdempty
            · intro hp
              rw [hmf] at hp
              exact absurd (by decide) hp
            · intro _ _
              omega
            · intro h
              rw [hmf] at h
              exact absurd (by decide) h
            · intro _
              refine ⟨by rw [hms]; exact hty, hmf, ?_, ?_, ?_⟩
              · rw [hms, hw]
                simp only [reduceIte]
                omega
              · rw [hms, hw]
                simp only [reduceIte]
                omega
              · rw [hms, hw]
                simp only [reduceIte]
                rw [show pos - 8 = pos - 8 from rfl]
                exact hmid
            · intro h
              rw [hmf] at h
              exact absurd (by decide) h
            · intro hk
              rw [hms] at hk
              exact absurd (hty.symm.trans hk) (by decide)
            · intro hk _
              rw [hms] at hk
              exact absurd (hty.symm.trans hk) (by decide)
          · exact absurd hm (List.not_mem_nil m)
      · exact absurd hm (List.not_mem_nil m)
    · -- capture towards column - 1
      split at hm
      · rename_i hcl
        split at hm
        · rename_i hcap
          obtain ⟨hlocc, hlteam⟩ := hcap
          have he := List.mem_singleton.mp hm
          have hms : m.source = pos := by rw [he]; rfl
          have hfl : m.flags =
              (if (pos : Int) / 8 + -1 = 0 ∨ (pos : Int) / 8 + -1 = 7
                then PROMOTION else 0) ||| ATTACK |||
              (pieceAt g ((pos : Int) % 8 - 1) ((pos : Int) / 8 + -1)).type := by
            rw [he]; rfl
          have hd : (m.destination : Int) =
              ((pos : Int) / 8 + -1) * 8 + ((pos : Int) % 8 - 1) := by
            rw [he]
            simp only [mkMove]
            omega
          have hteam' : (pieceAt g ((pos : Int) % 8 - 1) ((pos : Int) / 8 + -1)).team ≠
              (bget g.board pos).team := by
            rw [hw]
            exact hlteam
          refine pawn_move_facts hInv hpos hty hms (by omega) (by omega) (by omega)
            (by omega) hd (Or.inr ⟨hlocc, hteam', hfl⟩) ?_ ?_
          · by_cases hpr : ((pos : Int) / 8 + -1 = 0 ∨ (pos : Int) / 8 + -1 = 7)
            · rw [if_pos hpr]
              right
              rfl
            · rw [if_neg hpr]
              left
              rfl
          · intro h0
            by_cases hpr : ((pos : Int) / 8 + -1 = 0 ∨ (pos : Int) / 8 + -1 = 7)
            · rw [if_pos hpr] at h0
              exact absurd h0 (by decide)
            · omega
        · exact absurd hm (List.not_mem_nil m)
      · exact absurd hm (List.not_mem_nil m)
    · -- capture towards column + 1
      split at hm
      · rename_i hcr
        split at hm
        · rename_i hcap
          obtain ⟨hlocc, hlteam⟩ := hcap
          have he := List.mem_singleton.mp hm
          have hms : m.source = pos := by rw [he]; rfl
          have hfl : m.flags =
              (if (pos : Int) / 8 + -1 = 0 ∨ (pos : Int) / 8 + -1 = 7
                then PROMOTION else 0) ||| ATTACK |||
              (pieceAt g ((pos : Int) % 8 + 1) ((pos : Int) / 8 + -1)).type := by
            rw [he]; rfl
          have hd : (m.destination : Int) =
              ((pos : Int) / 8 + -1) * 8 + ((pos : Int) % 8 + 1) := by
            rw [he]
            simp only [mkMove]
            omega
          have hteam' : (pieceAt g ((pos : Int) % 8 + 1) ((pos : Int) / 8 + -1)).team ≠
              (bget g.board pos).team := by
            rw [hw]
            exact hlteam
          refine pawn_move_facts hInv hpos hty hms (by omega) (by omega) (by omega)
            (by omega) hd (Or.inr ⟨hlocc, hteam', hfl⟩) ?_ ?_
          · by_cases hpr : ((pos : Int) / 8 + -1 = 0 ∨ (pos : Int) / 8 + -1 = 7)
            · rw [if_pos hpr]
              right
              rfl
            · rw [if_neg hpr]
              left
              rfl
          · intro h0
            by_cases hpr : ((pos : Int) / 8 + -1 = 0 ∨ (pos : Int) / 8 + -1 = 7)
            · rw [if_pos hpr] at h0
              exact absurd h0 (by decide)
            · omega
        · exact absurd hm (List.not_mem_nil m)
      · exact absurd hm (List.not_mem_nil m)
    · -- en passant
      split at hm
      · exact absurd hm (List.not_mem_nil m)
      · rename_i last tail hhist
        split at hm
        · rename_i hcond
          obtain ⟨hdbl, hrow3, hrowl, hcoladj⟩ := hcond
          have he := List.mem_singleton.mp hm
          have hms : m.source = pos := by rw [he]; rfl
          have hmf : m.flags = EN_PASSANT := by rw [he]; rfl
          have hD : 24 ≤ last.destination ∧ last.destination ≤ 31 := by omega
          have hmd : m.destination = last.destination - 8 := by
            rw [he]
            simp only [mkMove]
            omega
          refine ⟨by omega, by omega, by rw [hms]; exact hocc,
            ?_, ?_, ?_, ?_, ?_, ?_, ?_, ?_, ?_, ?_⟩
          · intro ha
            rw [hmf] at ha
            exact absurd (by decide) ha
          · intro ha
            rw [hmf] at ha
            exact absurd (by decide) ha
          · intro _ h2
            rw [hmf] at h2
            exact absurd h2 (by decide)
          · intro hp
            rw [hmf] at hp
            exact absurd (by decide) hp
          · intro _ _
            omega
          · intro _
            refine ⟨last, tail, hhist, by rw [hms]; exact hty, hmf, hdbl,
              by omega, ?_, by omega, ?_, ?_⟩
            · rw [hms, hw]
              simp only [reduceIte]
              omega
            · rw [hms, hw]
              simp only [reduceIte]
              omega
            · rw [hms, hw]
              rw [show decide ((0 : Nat) = 0) = true from rfl, epOffset_white]
              by_cases h9 : ((m.source : Int) - (m.destination : Int)).natAbs = 9
              · rw [if_pos h9]
                omega
              · rw [if_neg h9]
                omega
          · intro h
            rw [hmf] at h
            exact absurd (by decide) h
          · intro h
            rw [hmf] at h
            exact absurd (by decide) h
          · intro hk
            rw [hms] at hk
            exact absurd (hty.symm.trans hk) (by decide)
          · intro hk _
            rw [hms] at hk
            exact absurd (hty.symm.trans hk) (by decide)
        · exact absurd hm (List.not_mem_nil m)
  · -- black pawn: direction 1
    have h10 : (((1 : Nat) = 0)) = False := by simp
    simp only [pawnCands, hw, h10, reduceIte, if_false, List.mem_append, List.not_mem_nil,
      or_false] at hm
    rcases hm with ((hm | hm) | hm) | hm
    · -- forward pushes
      split at hm
      · rename_i hO1
        have hN1 : (pieceAt g ((pos : Int) % 8) ((pos : Int) / 8 + 1)).type = NONE := by
          simpa [Is_Occupied] using hO1
        rcases List.mem_cons.mp hm with he | hm
        · have hms : m.source = pos := by rw [he]; rfl
          have hfl : m.flags =
              (if (pos : Int) / 8 + 1 = 0 ∨ (pos : Int) / 8 + 1 = 7
                then PROMOTION else 0) := by
            rw [he]; rfl
          have hd : (m.destination : Int) =
              ((pos : Int) / 8 + 1) * 8 + (pos : Int) % 8 := by
            rw [he]
            simp only [mkMove]
            omega
          refine pawn_move_facts hInv hpos hty hms (by omega) (by omega) (by omega)
            (by omega) hd (Or.inl ⟨hN1, hfl⟩) ?_ ?_
          · by_cases hpr : ((pos : Int) / 8 + 1 = 0 ∨ (pos : Int) / 8 + 1 = 7)
            · rw [if_pos hpr]
              right
              rfl
            · rw [if_neg hpr]
              left
              rfl
          · intro h0
            by_cases hpr : ((pos : Int) / 8 + 1 = 0 ∨ (pos : Int) / 8 + 1 = 7)
            · rw [if_pos hpr] at h0
              exact absurd h0 (by decide)
            · omega
        · -- double step
          split at hm
          · rename_i hC2
            obtain ⟨hrow1, hO2⟩ := hC2
            have hN2 : (pieceAt g ((pos : Int) % 8) ((pos : Int) / 8 + 1 * 2)).type =
                NONE := by
              simpa [Is_Occupied] using hO2
            have he := List.mem_singleton.mp hm
            have hms : m.source = pos := by rw [he]; rfl
            have hmf : m.flags = DOUBLE_MOVE := by rw [he]; rfl
            have hmd : m.destination = pos + 16 := by
              rw [he]
              simp only [mkMove]
              omega
            have hp8 : 8 ≤ pos ∧ pos ≤ 15 := by omega
            have hmid : bget g.board (pos + 8) = pieceNone := by
              have h1 : pieceAt g ((pos : Int) % 8) ((pos : Int) / 8 + 1) =
                  bget g.board (pos + 8) := by
                rw [pieceAt_eq_bget (by omega) (by omega) (by omega) (by omega)]
                congr 1
                omega
              have h2 : (bget g.board (pos + 8)).type = NONE := by
                rw [← h1]
                exact hN1
              exact WF_none (hcells _ (by omega)) h2
            have hdempty : bget g.board (pos + 16) = pieceNone := by
              have h1 : pieceAt g ((pos : Int) % 8) ((pos : Int) / 8 + 1 * 2) =
                  bget g.board (pos + 16) := by
                rw [pieceAt_eq_bget (by omega) (by omega) (by omega) (by omega)]
                congr 1
                omega
              have h2 : (bget g.board (pos + 16)).type = NONE := by
                rw [← h1]
                exact hN2
              exact WF_none (hcells _ (by omega)) h2
            refine ⟨by omega, by omega, by rw [hms]; exact hocc,
              ?_, ?_, ?_, ?_, ?_, ?_, ?_, ?_, ?_, ?_⟩
            · intro ha
              rw [hmf] at ha
              exact absurd (by decide) ha
            · intro ha
              rw [hmf] at ha
              exact absurd (by decide) ha
            · intro _ _
              rw [hmd]
              exact hdempty
            · intro hp
              rw [hmf] at hp
              exact absurd (by decide) hp
            · intro _ _
              omega
            · intro h
              rw [hmf] at h
              exact absurd (by decide) h
            · intro _
              refine ⟨by rw [hms]; exact hty, hmf, ?_, ?_, ?_⟩
              · rw [hms, hw]
                simp only [h10, if_false]
                omega
              · rw [hms, hw]
                simp only [h10, if_false]
                omega
              · rw [hms, hw]
                simp only [h10, if_false]
                exact hmid
            · intro h
              rw [hmf] at h
              exact absurd (by decide) h
            · intro hk
              rw [hms] at hk
              exact absurd (hty.symm.trans hk) (by decide)
            · intro hk _
              rw [hms] at hk
              exact absurd (hty.symm.trans hk) (by decide)
          · exact absurd hm (List.not_mem_nil m)
      · exact absurd hm (List.not_mem_nil m)
    · -- capture towards column - 1
      split at hm
      · rename_i hcl
        split at hm
        · rename_i hcap
          obtain ⟨hlocc, hlteam⟩ := hcap
          have he := List.mem_singleton.mp hm
          have hms : m.source = pos := by rw [he]; rfl
          have hfl : m.flags =
              (if (pos : Int) / 8 + 1 = 0 ∨ (pos : Int) / 8 + 1 = 7
                then PROMOTION else 0) ||| ATTACK |||
              (pieceAt g ((pos : Int) % 8 - 1) ((pos : Int) / 8 + 1)).type := by
            rw [he]; rfl
          have hd : (m.destination : Int) =
              ((pos : Int) / 8 + 1) * 8 + ((pos : Int) % 8 - 1) := by
            rw [he]
            simp only [mkMove]
            omega
          have hteam' : (pieceAt g ((pos : Int) % 8 - 1) ((pos : Int) / 8 + 1)).team ≠
              (bget g.board pos).team := by
            rw [hw]
            exact hlteam
          refine pawn_move_facts hInv hpos hty hms (by omega) (by omega) (by omega)
            (by omega) hd (Or.inr ⟨hlocc, hteam', hfl⟩) ?_ ?_
          · by_cases hpr : ((pos : Int) / 8 + 1 = 0 ∨ (pos : Int) / 8 + 1 = 7)
            · rw [if_pos hpr]
              right
              rfl
            · rw [if_neg hpr]
              left
              rfl
          · intro h0
            by_cases hpr : ((pos : Int) / 8 + 1 = 0 ∨ (pos : Int) / 8 + 1 = 7)
            · rw [if_pos hpr] at h0
              exact absurd h0 (by decide)
            · omega
        · exact absurd hm (List.not_mem_nil m)
      · exact absurd hm (List.not_mem_nil m)
    · -- capture towards column + 1
      split at hm
      · rename_i hcr
        split at hm
        · rename_i hcap
          obtain ⟨hlocc, hlteam⟩ := hcap
          have he := List.mem_singleton.mp hm
          have hms : m.source = pos := by rw [he]; rfl
          have hfl : m.flags =
              (if (pos : Int) / 8 + 1 = 0 ∨ (pos : Int) / 8 + 1 = 7
                then PROMOTION else 0) ||| ATTACK |||
              (pieceAt g ((pos : Int) % 8 + 1) ((pos : Int) / 8 + 1)).type := by
            rw [he]; rfl
          have hd : (m.destination : Int) =
              ((pos : Int) / 8 + 1) * 8 + ((pos : Int) % 8 + 1) := by
            rw [he]
            simp only [mkMove]
            omega
          have hteam' : (pieceAt g ((pos : Int) % 8 + 1) ((pos : Int) / 8 + 1)).team ≠
              (bget g.board pos).team := by
            rw [hw]
            exact hlteam
          refine pawn_move_facts hInv hpos hty hms (by omega) (by omega) (by omega)
            (by omega) hd (Or.inr ⟨hlocc, hteam', hfl⟩) ?_ ?_
          · by_cases hpr : ((pos : Int) / 8 + 1 = 0 ∨ (pos : Int) / 8 + 1 = 7)
            · rw [if_pos hpr]
              right
              rfl
            · rw [if_neg hpr]
              left
              rfl
          · intro h0
            by_cases hpr : ((pos : Int) / 8 + 1 = 0 ∨ (pos : Int) / 8 + 1 = 7)
            · rw [if_pos hpr] at h0
              exact absurd h0 (by decide)
            · omega
        · exact absurd hm (List.not_mem_nil m)
      · exact absurd hm (List.not_mem_nil m)
    · -- en passant
      split at hm
      · exact absurd hm (List.not_mem_nil m)
      · rename_i last tail hhist
        split at hm
        · rename_i hcond
          obtain ⟨hdbl, hrow4, hrowl, hcoladj⟩ := hcond
          have he := List.mem_singleton.mp hm
          have hms : m.source = pos := by rw [he]; rfl
          have hmf : m.flags = EN_PASSANT := by rw [he]; rfl
          have hD : 32 ≤ last.destination ∧ last.destination ≤ 39 := by omega
          have hmd : m.destination = last.destination + 8 := by
            rw [he]
            simp only [mkMove]
            omega
          refine ⟨by omega, by omega, by rw [hms]; exact hocc,
            ?_, ?_, ?_, ?_, ?_, ?_, ?_, ?_, ?_, ?_⟩
          · intro ha
            rw [hmf] at ha
            exact absurd (by decide) ha
          · intro ha
            rw [hmf] at ha
            exact absurd (by decide) ha
          · intro _ h2
            rw [hmf] at h2
            exact absurd h2 (by decide)
          · intro hp
            rw [hmf] at hp
            exact absurd (by decide) hp
          · intro _ _
            omega
          · intro _
            refine ⟨last, tail, hhist, by rw [hms]; exact hty, hmf, hdbl,
              by omega, ?_, by omega, ?_, ?_⟩
            · rw [hms, hw]
              simp only [h10, if_false]
              omega
            · rw [hms, hw]
              simp only [h10, if_false]
              omega
            · rw [hms, hw]
              rw [show decide ((1 : Nat) = 0) = false from rfl, epOffset_black]
              by_cases h9 : ((m.source : Int) - (m.destination : Int)).natAbs = 9
              · rw [if_pos h9]
                omega
              · rw [if_neg h9]
                omega
          · intro h
            rw [hmf] at h
            exact absurd (by decide) h
          · intro h
            rw [hmf] at h
            exact absurd (by decide) h
          · intro hk
            rw [hms] at hk
            exact absurd (hty.symm.trans hk) (by decide)
          · intro hk _
            rw [hms] at hk
            exact absurd (hty.symm.trans hk) (by decide)
        · exact absurd hm (List.not_mem_nil m)

theorem castle_facts {g : ChessGame} {m : Move} {pos : Nat}
    (hInv : Inv g) (hpos : pos < 64)
    (hty : (bget g.board pos).type = KING)
    (hm : m ∈ castleCands g pos) : MoveFacts g m := by
  obtain ⟨len64, hflt, htle, hcells, hprow, hepI, hkingI⟩ := hInv
  have hpWF := hcells pos hpos
  have hocc : (bget g.board pos).type ≠ NONE := by rw [hty]; decide
  obtain ⟨hpinfo, _⟩ := WF_info_eq hpWF hocc
  have hteam01 := WF_team hpWF
  obtain ⟨hbF1, hbR, hbL⟩ := kfm_bits g (decide ((bget g.board pos).team = 0))
  have hbase := kfm_mem g (decide ((bget g.board pos).team = 0))
  obtain ⟨hb1, hbD, hbE, hbP, hbF⟩ := base_flag_bits _ hbase
  have hnP := kfm_ne_promo g (decide ((bget g.board pos).team = 0))
  simp only [castleCands, List.mem_append] at hm
  rcases hm with hm | hm
  · -- right-side castle
    split at hm
    · rename_i hcanR
      split at hm
      · rename_i hrookc
        obtain ⟨hRty, hRtm, hO5, hO6⟩ := hrookc
        split at hm
        · rename_i hsafe
          have he := List.mem_singleton.mp hm
          have hms : m.source = pos := by rw [he]; rfl
          have hmf : m.flags =
              kingFirstMoveFlags g (decide ((bget g.board pos).team = 0)) := by
            rw [he]; rfl
          have hmd : m.destination = pos / 8 * 8 + 6 := by
            rw [he]
            simp only [mkMove]
            omega
          have hcanor : can_castle_right g (decide ((bget g.board pos).team = 0)) = true ∨
              can_castle_left g (decide ((bget g.board pos).team = 0)) = true := Or.inl hcanR
          have hhome : pos = if (bget g.board pos).team = 0 then 60 else 4 := by
            refine hkingI pos hpos (bget g.board pos).team ?_ ?_ hcanor
            · rcases hteam01 with h | h <;> omega
            · rw [hpinfo, hty]
          have hsc : pos % 8 = 4 := by
            by_cases hw : (bget g.board pos).team = 0
            · rw [if_pos hw] at hhome
              omega
            · rw [if_neg hw] at hhome
              omega
          have hE5 : bget g.board (pos / 8 * 8 + 5) = pieceNone := by
            have h1 : pieceAt g 5 ((pos : Int) / 8) = bget g.board (pos / 8 * 8 + 5) := by
              rw [pieceAt_eq_bget (by omega) (by omega) (by omega) (by omega)]
              congr 1
            have h2 : (bget g.board (pos / 8 * 8 + 5)).type = NONE := by
              rw [← h1]
              simpa [Is_Occupied] using hO5
            exact WF_none (hcells _ (by omega)) h2
          have hE6 : bget g.board (pos / 8 * 8 + 6) = pieceNone := by
            have h1 : pieceAt g 6 ((pos : Int) / 8) = bget g.board (pos / 8 * 8 + 6) := by
              rw [pieceAt_eq_bget (by omega) (by omega) (by omega) (by omega)]
              congr 1
            have h2 : (bget g.board (pos / 8 * 8 + 6)).type = NONE := by
              rw [← h1]
              simpa [Is_Occupied] using hO6
            exact WF_none (hcells _ (by omega)) h2
          have hR : bget g.board (pos / 8 * 8 + 7) =
              ⟨ROOK ||| (bget g.board pos).team⟩ := by
            have h1 : pieceAt g 7 ((pos : Int) / 8) = bget g.board (pos / 8 * 8 + 7) := by
              rw [pieceAt_eq_bget (by omega) (by omega) (by omega) (by omega)]
              congr 1
            have hoccR : (bget g.board (pos / 8 * 8 + 7)).type ≠ NONE := by
              rw [← h1, hRty]
              decide
            obtain ⟨hinfoR, _⟩ := WF_info_eq (hcells _ (by omega)) hoccR
            refine piece_eq_of_info ?_
            rw [hinfoR, show (bget g.board (pos / 8 * 8 + 7)).type = ROOK from
                by rw [← h1]; exact hRty,
              show (bget g.board (pos / 8 * 8 + 7)).team = (bget g.board pos).team from
                by rw [← h1]; exact hRtm]
          refine ⟨by omega, by omega, by rw [hms]; exact hocc,
            ?_, ?_, ?_, ?_, ?_, ?_, ?_, ?_, ?_, ?_⟩
          · intro ha
            rw [hmf] at ha
            exact absurd hb1 ha
          · intro ha
            rw [hmf] at ha
            exact absurd hb1 ha
          · intro _ _
            rw [hmd]
            exact hE6
          · intro hp
            rw [hmf] at hp
            exact absurd (hbP.mp hp) hnP
          · intro hp _
            rw [hms] at hp
            exact absurd (hty.symm.trans hp) (by decide)
          · intro h
            rw [hmf] at h
            exact absurd hbE (fun h0 => h h0)
          · intro h
            rw [hmf] at h
            exact absurd hbD (fun h0 => h h0)
          · intro _
            refine ⟨Or.inl (by rw [hms]; exact hty), ?_, ?_⟩
            · rw [hmf, hms]
              exact hbR
            · rw [hmf, hms]
              exact hbL
          · intro _
            right
            refine ⟨by omega, by omega, by rw [hmf]; exact hb1, ?_,
              by rw [hmf]; exact hbE, by rw [hmf]; exact hbF1.mpr hcanor, ?_⟩
            · rw [hmf]
              by_contra h0
              exact hnP (hbP.mp h0)
            · left
              refine ⟨by omega, ?_, ?_⟩
              · rw [hms]
                exact hR
              · rw [hms]
                exact hE5
          · intro _ hcan
            rw [hms] at hcan
            rw [hmf]
            exact hbF1.mpr hcan
        · exact absurd hm (List.not_mem_nil m)
      · exact absurd hm (List.not_mem_nil m)
    · exact absurd hm (List.not_mem_nil m)
  · -- left-side castle
    split at hm
    · rename_i hcanL
      split at hm
      · rename_i hrookc
        obtain ⟨hRty, hRtm, hO3, hO2, hO1c⟩ := hrookc
        split at hm
        · rename_i hsafe
          have hcanor : can_castle_right g (decide ((bget g.board pos).team = 0)) = true ∨
              can_castle_left g (decide ((bget g.board pos).team = 0)) = true := Or.inr hcanL
          have hhome : pos = if (bget g.board pos).team = 0 then 60 else 4 := by
            refine hkingI pos hpos (bget g.board pos).team ?_ ?_ hcanor
            · rcases hteam01 with h | h <;> omega
            · rw [hpinfo, hty]
          have hsc : pos % 8 = 4 := by
            by_cases hw : (bget g.board pos).team = 0
            · rw [if_pos hw] at hhome
              omega
            · rw [if_neg hw] at hhome
              omega
          have hE3 : bget g.board (pos / 8 * 8 + 3) = pieceNone := by
            have h1 : pieceAt g 3 ((pos : Int) / 8) = bget g.board (pos / 8 * 8 + 3) := by
              rw [pieceAt_eq_bget (by omega) (by omega) (by omega) (by omega)]
              congr 1
            have h2 : (bget g.board (pos / 8 * 8 + 3)).type = NONE := by
              rw [← h1]
              simpa [Is_Occupied] using hO3
            exact WF_none (hcells _ (by omega)) h2
          have hE2 : bget g.board (pos / 8 * 8 + 2) = pieceNone := by
            have h1 : pieceAt g 2 ((pos : Int) / 8) = bget g.board (pos / 8 * 8 + 2) := by
              rw [pieceAt_eq_bget (by omega) (by omega) (by omega) (by omega)]
              congr 1
            have h2 : (bget g.board (pos / 8 * 8 + 2)).type = NONE := by
              rw [← h1]
              simpa [Is_Occupied] using hO2
            exact WF_none (hcells _ (by omega)) h2
          have hE1 : bget g.board (pos / 8 * 8 + 1) = pieceNone := by
            have h1 : pieceAt g 1 ((pos : Int) / 8) = bget g.board (pos / 8 * 8 + 1) := by
              rw [pieceAt_eq_bget (by omega) (by omega) (by omega) (by omega)]
              congr 1
            have h2 : (bget g.board (pos / 8 * 8 + 1)).type = NONE := by
              rw [← h1]
              simpa [Is_Occupied] using hO1c
            exact WF_none (hcells _ (by omega)) h2
          have hR : bget g.board (pos / 8 * 8) =
              ⟨ROOK ||| (bget g.board pos).team⟩ := by
            have h1 : pieceAt g 0 ((pos : Int) / 8) = bget g.board (pos / 8 * 8) := by
              rw [pieceAt_eq_bget (by omega) (by omega) (by omega) (by omega)]
              congr 1
            have hoccR : (bget g.board (pos / 8 * 8)).type ≠ NONE := by
              rw [← h1, hRty]
              decide
            obtain ⟨hinfoR, _⟩ := WF_info_eq (hcells _ (by omega)) hoccR
            refine piece_eq_of_info ?_
            rw [hinfoR, show (bget g.board (pos / 8 * 8)).type = ROOK from
                by rw [← h1]; exact hRty,
              show (bget g.board (pos / 8 * 8)).team = (bget g.board pos).team from
                by rw [← h1]; exact hRtm]
          rcases List.mem_cons.mp hm with he | hm
          · -- two-step destination
            have hms : m.source = pos := by rw [he]; rfl
            have hmf : m.flags =
                kingFirstMoveFlags g (decide ((bget g.board pos).team = 0)) := by
              rw [he]; rfl
            have hmd : m.destination = pos / 8 * 8 + 2 := by
              rw [he]
              simp only [mkMove]
              omega
            refine ⟨by omega, by omega, by rw [hms]; exact hocc,
              ?_, ?_, ?_, ?_, ?_, ?_, ?_, ?_, ?_, ?_⟩
            · intro ha
              rw [hmf] at ha
              exact absurd hb1 ha
            · intro ha
              rw [hmf] at ha
              exact absurd hb1 ha
            · intro _ _
              rw [hmd]
              exact hE2
            · intro hp
              rw [hmf] at hp
              exact absurd (hbP.mp hp) hnP
            · intro hp _
              rw [hms] at hp
              exact absurd (hty.symm.trans hp) (by decide)
            · intro h
              rw [hmf] at h
              exact absurd hbE (fun h0 => h h0)
            · intro h
              rw [hmf] at h
              exact absurd hbD (fun h0 => h h0)
            · intro _
              refine ⟨Or.inl (by rw [hms]; exact hty), ?_, ?_⟩
              · rw [hmf, hms]
                exact hbR
              · rw [hmf, hms]
                exact hbL
            · intro _
              right
              refine ⟨by omega, by omega, by rw [hmf]; exact hb1, ?_,
                by rw [hmf]; exact hbE, by rw [hmf]; exact hbF1.mpr hcanor, ?_⟩
              · rw [hmf]
                by_contra h0
                exact hnP (hbP.mp h0)
              · right
                have hd2 : m.destination % 8 = 2 := by omega
                refine ⟨Or.inl hd2, ?_, ?_⟩
                · rw [hms]
                  exact hR
                · rw [hms, hd2]
                  exact hE3
            · intro _ hcan
              rw [hms] at hcan
              rw [hmf]
              exact hbF1.mpr hcan
          · -- one-step destination
            have he := List.mem_singleton.mp hm
            have hms : m.source = pos := by rw [he]; rfl
            have hmf : m.flags =
                kingFirstMoveFlags g (decide ((bget g.board pos).team = 0)) := by
              rw [he]; rfl
            have hmd : m.destination = pos / 8 * 8 + 1 := by
              rw [he]
              simp only [mkMove]
              omega
            refine ⟨by omega, by omega, by rw [hms]; exact hocc,
              ?_, ?_, ?_, ?_, ?_, ?_, ?_, ?_, ?_, ?_⟩
            · intro ha
              rw [hmf] at ha
              exact absurd hb1 ha
            · intro ha
              rw [hmf] at ha
              exact absurd hb1 ha
            · intro _ _
              rw [hmd]
              exact hE1
            · intro hp
              rw [hmf] at hp
              exact absurd (hbP.mp hp) hnP
            · intro hp _
              rw [hms] at hp
              exact absurd (hty.symm.trans hp) (by decide)
            · intro h
              rw [hmf] at h
              exact absurd hbE (fun h0 => h h0)
            · intro h
              rw [hmf] at h
              exact absurd hbD (fun h0 => h h0)
            · intro _
              refine ⟨Or.inl (by rw [hms]; exact hty), ?_, ?_⟩
              · rw [hmf, hms]
                exact hbR
              · rw [hmf, hms]
                exact hbL
            · intro _
              right
              refine ⟨by omega, by omega, by rw [hmf]; exact hb1, ?_,
                by rw [hmf]; exact hbE, by rw [hmf]; exact hbF1.mpr hcanor, ?_⟩
              · rw [hmf]
                by_contra h0
                exact hnP (hbP.mp h0)
              · right
                have hd1 : m.destination % 8 = 1 := by omega
                refine ⟨Or.inr hd1, ?_, ?_⟩
                · rw [hms]
                  exact hR
                · rw [hms, hd1]
                  exact hE2
            · intro _ hcan
              rw [hms] at hcan
              rw [hmf]
              exact hbF1.mpr hcan
        · exact absurd hm (List.not_mem_nil m)
      · exact absurd hm (List.not_mem_nil m)
    · exact absurd hm (List.not_mem_nil m)

theorem mem_ite_elim {α : Type} {m : α} {c : Prop} [Decidable c] {l1 l2 : List α}
    (h : m ∈ if c then l1 else l2) : m ∈ l1 ∨ m ∈ l2 := by
  split at h
  · exact Or.inl h
  · exact Or.inr h

/-- Every pawn candidate keeps its source square. -/
theorem pawnCands_src {g : ChessGame} {pos : Nat} {m : Move}
    (hm : m ∈ pawnCands g pos) : m.source = pos := by
  simp only [pawnCands, List.mem_append] at hm
  rcases hm with ((hm | hm) | hm) | hm
  · rcases mem_ite_elim hm with hm | hm
    · rcases List.mem_cons.mp hm with he | hm
      · rw [he]
        rfl
      · rcases mem_ite_elim hm with hm | hm
        · rw [List.mem_singleton.mp hm]
          rfl
        · exact absurd hm (List.not_mem_nil m)
    · exact absurd hm (List.not_mem_nil m)
  · rcases mem_ite_elim hm with hm | hm
    · rcases mem_ite_elim hm with hm | hm
      · rw [List.mem_singleton.mp hm]
        rfl
      · exact absurd hm (List.not_mem_nil m)
    · exact absurd hm (List.not_mem_nil m)
  · rcases mem_ite_elim hm with hm | hm
    · rcases mem_ite_elim hm with hm | hm
      · rw [List.mem_singleton.mp hm]
        rfl
      · exact absurd hm (List.not_mem_nil m)
    · exact absurd hm (List.not_mem_nil m)
  · cases hh : g.history with
    | nil =>
      rw [hh] at hm
      exact absurd hm (List.not_mem_nil m)
    | cons last tail =>
      rw [hh] at hm
      rcases mem_ite_elim hm with hm | hm
      · rw [List.mem_singleton.mp hm]
        rfl
      · exact absurd hm (List.not_mem_nil m)

/-- Every castle candidate keeps its source square. -/
theorem castleCands_src {g : ChessGame} {pos : Nat} {m : Move}
    (hm : m ∈ castleCands g pos) : m.source = pos := by
  simp only [castleCands, List.mem_append] at hm
  rcases hm with hm | hm
  · rcases mem_ite_elim hm with hm | hm
    · rcases mem_ite_elim hm with hm | hm
      · rcases mem_ite_elim hm with hm | hm
        · rw [List.mem_singleton.mp hm]
          rfl
        · exact absurd hm (List.not_mem_nil m)
      · exact absurd hm (List.not_mem_nil m)
    · exact absurd hm (List.not_mem_nil m)
  · rcases mem_ite_elim hm with hm | hm
    · rcases mem_ite_elim hm with hm | hm
      · rcases mem_ite_elim hm with hm | hm
        · rcases List.mem_cons.mp hm with he | hm
          · rw [he]
            rfl
          · rw [List.mem_singleton.mp hm]
            rfl
        · exact absurd hm (List.not_mem_nil m)
      · exact absurd hm (List.not_mem_nil m)
    · exact absurd hm (List.not_mem_nil m)

/-- Every candidate move of the piece on `pos` keeps its source square. -/
theorem pieceCandsNC_src {g : ChessGame} {pos : Nat} {m : Move}
    (hm : m ∈ pieceCandsNC g pos) : m.source = pos := by
  simp only [pieceCandsNC] at hm
  split at hm
  · exact pawnCands_src hm
  · split at hm
    · simp only [kingNormalCands, List.mem_flatMap] at hm
      obtain ⟨ir, _, hmem⟩ := hm
      exact (stepCand_facts hmem).2.2.2.2.1
    · split at hm
      · simp only [List.mem_append] at hm
        rcases hm with (((((((hm | hm) | hm) | hm) | hm) | hm) | hm) | hm) <;>
          exact (slide_facts hm).choose_spec.choose_spec.2.2.2.2.1
      · split at hm
        · simp only [List.mem_append] at hm
          rcases hm with ((hm | hm) | hm) | hm <;>
            exact (slide_facts hm).choose_spec.choose_spec.2.2.2.2.1
        · split at hm
          · simp only [knightCands, List.mem_append] at hm
            rcases hm with ((((((hm | hm) | hm) | hm) | hm) | hm) | hm) | hm <;>
              exact (stepCand_facts hm).2.2.2.2.1
          · split at hm
            · simp only [List.mem_append] at hm
              rcases hm with ((hm | hm) | hm) | hm <;>
                exact (slide_facts hm).choose_spec.choose_spec.2.2.2.2.1
            · exact absurd hm (List.not_mem_nil m)

/-- Every candidate (castles included) keeps its source square. -/
theorem pieceCands_src {g : ChessGame} {pos : Nat} {fc : Bool} {m : Move}
    (hm : m ∈ pieceCands g pos fc) : m.source = pos := by
  simp only [pieceCands, List.mem_append] at hm
  rcases hm with hm | hm
  · exact pieceCandsNC_src hm
  · split at hm
    · exact castleCands_src hm
    · exact absurd hm (List.not_mem_nil m)

/-- Every candidate of the piece on `pos` satisfies the generator facts. -/
theorem pieceCandsNC_facts {g : ChessGame} {m : Move} {pos : Nat}
    (hInv : Inv g) (hpos : pos < 64)
    (hm : m ∈ pieceCandsNC g pos) : MoveFacts g m := by
  simp only [pieceCandsNC] at hm
  by_cases hP : (bget g.board pos).type = PAWN
  · rw [if_pos hP] at hm
    exact pawn_facts hInv hpos hP hm
  · rw [if_neg hP] at hm
    by_cases hK : (bget g.board pos).type = KING
    · rw [if_pos hK] at hm
      exact kingNormal_facts hInv hpos hK hm
    · rw [if_neg hK] at hm
      by_cases hQ : (bget g.board pos).type = QUEEN
      · rw [if_pos hQ] at hm
        have hocc : (bget g.board pos).type ≠ NONE := by rw [hQ]; decide
        have hnk : (bget g.board pos).type ≠ KING := by rw [hQ]; decide
        simp only [List.mem_append] at hm
        rcases hm with (((((((hm | hm) | hm) | hm) | hm) | hm) | hm) | hm) <;>
          exact slide_piece_facts hInv hpos rfl hocc hP hnk (by decide) (by decide)
            (fun h => absurd (by decide : (0 : Nat) &&& FIRST_MOVE = 0) h) hm
      · rw [if_neg hQ] at hm
        by_cases hB : (bget g.board pos).type = BISHOP
        · rw [if_pos hB] at hm
          have hocc : (bget g.board pos).type ≠ NONE := by rw [hB]; decide
          have hnk : (bget g.board pos).type ≠ KING := by rw [hB]; decide
          simp only [List.mem_append] at hm
          rcases hm with ((hm | hm) | hm) | hm <;>
            exact slide_piece_facts hInv hpos rfl hocc hP hnk (by decide) (by decide)
              (fun h => absurd (by decide : (0 : Nat) &&& FIRST_MOVE = 0) h) hm
        · rw [if_neg hB] at hm
          by_cases hN : (bget g.board pos).type = KNIGHT
          · rw [if_pos hN] at hm
            exact knight_facts hInv hpos hN hm
          · rw [if_neg hN] at hm
            by_cases hRk : (bget g.board pos).type = ROOK
            · rw [if_pos hRk] at hm
              have hocc : (bget g.board pos).type ≠ NONE := by rw [hRk]; decide
              have hnk : (bget g.board pos).type ≠ KING := by rw [hRk]; decide
              have hfm := rfm_eq g (decide ((bget g.board pos).team = 0)) ((pos : Int) % 8)
              have hbase : rookFirstMoveFlag g (decide ((bget g.board pos).team = 0))
                  ((pos : Int) % 8) ∈ baseFlagSet := by
                rw [hfm]
                split
                · exact kfm_mem g _
                · decide
              have hf1024 : rookFirstMoveFlag g (decide ((bget g.board pos).team = 0))
                  ((pos : Int) % 8) ≠ 1024 := by
                rw [hfm]
                split
                · exact kfm_ne_promo g _
                · decide
              have hsnap : rookFirstMoveFlag g (decide ((bget g.board pos).team = 0))
                    ((pos : Int) % 8) &&& FIRST_MOVE ≠ 0 →
                  ((bget g.board pos).type = KING ∨ ((bget g.board pos).type = ROOK ∧
                    ((pos % 8 = 7 ∧
                        can_castle_right g ((bget g.board pos).team = 0) = true) ∨
                     (pos % 8 = 0 ∧
                        can_castle_left g ((bget g.board pos).team = 0) = true)))) ∧
                  ((rookFirstMoveFlag g (decide ((bget g.board pos).team = 0))
                      ((pos : Int) % 8) &&& CASTLE_RIGHT_BEFORE_MOVE ≠ 0) ↔
                    can_castle_right g ((bget g.board pos).team = 0) = true) ∧
                  ((rookFirstMoveFlag g (decide ((bget g.board pos).team = 0))
                      ((pos : Int) % 8) &&& CASTLE_LEFT_BEFORE_MOVE ≠ 0) ↔
                    can_castle_left g ((bget g.board pos).team = 0) = true) := by
                intro hF
                rw [hfm] at hF ⊢
                by_cases hcnd : (can_castle_right g
                      (decide ((bget g.board pos).team = 0)) = true ∧ (pos : Int) % 8 = 7) ∨
                    (can_castle_left g
                      (decide ((bget g.board pos).team = 0)) = true ∧ (pos : Int) % 8 = 0)
                · rw [if_pos hcnd] at hF ⊢
                  obtain ⟨hKF, hKR, hKL⟩ := kfm_bits g (decide ((bget g.board pos).team = 0))
                  refine ⟨Or.inr ⟨hRk, ?_⟩, hKR, hKL⟩
                  rcases hcnd with ⟨hc, h7⟩ | ⟨hc, h0⟩
                  · exact Or.inl ⟨by omega, hc⟩
                  · exact Or.inr ⟨by omega, hc⟩
                · rw [if_neg hcnd] at hF
                  exact absurd (by decide : (0 : Nat) &&& FIRST_MOVE = 0) hF
              simp only [List.mem_append] at hm
              rcases hm with ((hm | hm) | hm) | hm <;>
                exact slide_piece_facts hInv hpos rfl hocc hP hnk hbase hf1024 hsnap hm
            · rw [if_neg hRk] at hm
              exact absurd hm (List.not_mem_nil m)

/-- Every candidate (castles included) satisfies the generator facts. -/
theorem pieceCands_facts {g : ChessGame} {m : Move} {pos : Nat} {fc : Bool}
    (hInv : Inv g) (hpos : pos < 64)
    (hm : m ∈ pieceCands g pos fc) : MoveFacts g m := by
  simp only [pieceCands, List.mem_append] at hm
  rcases hm with hm | hm
  · exact pieceCandsNC_facts hInv hpos hm
  · split at hm
    · rename_i hc
      exact castle_facts hInv hpos hc.2 hm
    · exact absurd hm (List.not_mem_nil m)

/-- Facts for the no-check team enumeration, together with the team of the
moved piece. -/
theorem teamCandsNC_facts {g : ChessGame} {m : Move} {t : Nat}
    (hInv : Inv g) (hm : m ∈ teamCandsNC g t) :
    MoveFacts g m ∧ (bget g.board m.source).team = t := by
  simp only [teamCandsNC, List.mem_flatMap, List.mem_range] at hm
  obtain ⟨i, hi, hmem⟩ := hm
  split at hmem
  · rename_i hcond
    have hsrc := pieceCandsNC_src hmem
    refine ⟨pieceCandsNC_facts hInv hi hmem, ?_⟩
    rw [hsrc]
    exact hcond.2
  · exact absurd hmem (List.not_mem_nil m)

/-- Facts for the team enumeration in either mode, together with the team of
the moved piece; in full-check mode the per-move legality check also holds. -/
theorem team_moves_facts {g : ChessGame} {m : Move} {t : Nat} {fc : Bool}
    (hInv : Inv g) (hm : m ∈ team_moves g t fc) :
    MoveFacts g m ∧ (bget g.board m.source).team = t ∧
      (fc = true → check_move_full_legality g m = true) := by
  simp only [team_moves, List.mem_flatMap, List.mem_range] at hm
  obtain ⟨i, hi, hmem⟩ := hm
  split at hmem
  · rename_i hcond
    unfold foreach_piece_legal_move at hmem
    rcases fc with _ | _
    · rw [if_neg (by simp)] at hmem
      have hsrc := pieceCands_src hmem
      refine ⟨pieceCands_facts hInv hi hmem, ?_, by intro h; cases h⟩
      rw [hsrc]
      exact hcond.2
    · rw [if_pos rfl] at hmem
      obtain ⟨hmem, hchk⟩ := List.mem_filter.mp hmem
      have hsrc := pieceCands_src hmem
      refine ⟨pieceCands_facts hInv hi hmem, ?_, fun _ => hchk⟩
      rw [hsrc]
      exact hcond.2
  · exact absurd hmem (List.not_mem_nil m)

/-! ### Preservation of the invariant by `performe_move` -/

/-- No generated move stays on its own square. -/
theorem src_ne_dst {g : ChessGame} {m : Move} (hInv : Inv g) (hmf : MoveFacts g m) :
    m.source ≠ m.destination := by
  obtain ⟨len64, hflt, htle, hcells, hprowI, hepI, hkingI⟩ := hInv
  have src_occ := hmf.src_occ
  have hpWF : WFcell (bget g.board m.source) := hcells _ hmf.src_lt
  have hteam01 := WF_team hpWF
  by_cases ha : m.flags &&& ATTACK ≠ 0
  · intro he
    have h2 := (hmf.attack_team ha).1
    rw [he] at h2
    exact h2 rfl
  · push_neg at ha
    by_cases hepz : m.flags &&& EN_PASSANT = 0
    · intro he
      have hq := hmf.quiet_dst ha hepz
      rw [← he] at hq
      rw [hq] at src_occ
      exact src_occ rfl
    · obtain ⟨last, rest, hh, epf⟩ := hmf.ep_facts hepz
      have h1 := epf.row_eq
      have h2 := epf.row_fifth
      have h3 := epf.dst_eq
      rcases hteam01 with h4 | h4 <;> rw [h4] at h2 h3 <;> simp at h2 h3 <;> omega

/-- The three possible values of a cell of the basic relocation board `b1`. -/
theorem b1_cases {g : ChessGame} {m : Move} (len64 : g.board.length = 64)
    (hs : m.source < 64) (hd : m.destination < 64) (j : Nat) :
    bget (bset (bset g.board m.destination (bget g.board m.source)) m.source pieceNone) j =
        pieceNone ∨
      (j = m.destination ∧
        bget (bset (bset g.board m.destination (bget g.board m.source)) m.source
          pieceNone) j = bget g.board m.source) ∨
      bget (bset (bset g.board m.destination (bget g.board m.source)) m.source
        pieceNone) j = bget g.board j := by
  rw [bget_bset, bget_bset]
  by_cases h1 : m.source = j
  · rw [if_pos ⟨h1, by rw [bset_length]; omega⟩]
    left
    rfl
  · rw [if_neg (fun hc => h1 hc.1)]
    by_cases h2 : m.destination = j
    · rw [if_pos ⟨h2, by omega⟩]
      right
      left
      exact ⟨h2.symm, rfl⟩
    · rw [if_neg (fun hc => h2 hc.1)]
      right
      right
      rfl

/-- Each cell of the board after `performe_move` carries one of five kinds of
values: an untouched cell, an emptied cell, the moved piece at its
destination (and then the move was no promotion), a freshly promoted queen at
the destination, or the relocated castle rook off the king's path. -/
theorem performe_cell {g : ChessGame} {m : Move} (hInv : Inv g) (hmf : MoveFacts g m) :
    ∀ j, j < 64 →
      bget (performe_move g m).board j = bget g.board j ∨
      bget (performe_move g m).board j = pieceNone ∨
      (j = m.destination ∧
        bget (performe_move g m).board j = bget g.board m.source ∧
        m.flags &&& PROMOTION = 0) ∨
      (j = m.destination ∧
        bget (performe_move g m).board j = ⟨QUEEN ||| (bget g.board m.source).team⟩) ∨
      (j ≠ m.source ∧ j ≠ m.destination ∧
        bget (performe_move g m).board j = ⟨ROOK ||| (bget g.board m.source).team⟩) := by
  have hInv' := hInv
  obtain ⟨len64, hflt, htle, hcells, hprowI, hepI, hkingI⟩ := hInv'
  have hs := hmf.src_lt
  have hd := hmf.dst_lt
  have hsd : m.source ≠ m.destination := src_ne_dst hInv hmf
  intro j hj
  rw [performe_board]
  by_cases hP : (bget g.board m.source).type = PAWN
  · rw [if_pos hP]
    by_cases hep : m.flags &&& EN_PASSANT ≠ 0
    · rw [if_pos hep]
      obtain ⟨last, rest, hh, epf⟩ := hmf.ep_facts hep
      have hpromo0 : m.flags &&& PROMOTION = 0 := by
        rw [epf.flags_eq]
        decide
      have hcapD : ((m.source : Int) +
          epOffset ((bget g.board m.source).team = 0) m).toNat = last.destination :=
        epf.cap_eq
      have hcap64 : last.destination < 64 := by
        have h1 := epf.row_eq
        omega
      rw [bget_bset]
      by_cases h1 : ((m.source : Int) +
          epOffset ((bget g.board m.source).team = 0) m).toNat = j
      · rw [if_pos ⟨h1, by rw [bset_length, bset_length]; omega⟩]
        right
        left
        rfl
      · rw [if_neg (fun hc => h1 hc.1)]
        rcases b1_cases len64 hs hd j with h | ⟨hjd, h⟩ | h
        · right
          left
          exact h
        · right
          right
          left
          exact ⟨hjd, h, hpromo0⟩
        · left
          exact h
    · rw [if_neg hep]
      by_cases hpr : m.flags &&& PROMOTION ≠ 0
      · rw [if_pos hpr]
        rw [bget_bset]
        by_cases h1 : m.destination = j
        · rw [if_pos ⟨h1, by rw [bset_length, bset_length]; omega⟩]
          right
          right
          right
          left
          exact ⟨h1.symm, rfl⟩
        · rw [if_neg (fun hc => h1 hc.1)]
          rcases b1_cases len64 hs hd j with h | ⟨hjd, h⟩ | h
          · right
            left
            exact h
          · exact absurd hjd.symm h1
          · left
            exact h
      · rw [if_neg hpr]
        push_neg at hpr
        rcases b1_cases len64 hs hd j with h | ⟨hjd, h⟩ | h
        · right
          left
          exact h
        · right
          right
          left
          exact ⟨hjd, h, hpr⟩
        · left
          exact h
  · rw [if_neg hP]
    have hpromo0 : m.flags &&& PROMOTION = 0 := by
      by_contra h0
      exact hP (hmf.promo h0)
    by_cases hK : (bget g.board m.source).type = KING
    · rw [if_pos hK]
      by_cases hfar : ((m.source % 8 : Int) - (m.destination % 8 : Int)).natAbs > 1
      · rw [if_pos hfar]
        have hcf : CastleFacts g (bget g.board m.source) m := by
          rcases hmf.king_shape hK with h | h
          · omega
          · exact h
        have hrow : m.destination / 8 = m.source / 8 := hcf.row_eq
        have hcol : m.source % 8 = 4 := hcf.src_col
        by_cases h6 : m.destination % 8 = 6
        · rw [if_pos h6]
          have hrook : bget g.board (m.source / 8 * 8 + 7) =
              ⟨ROOK ||| (bget g.board m.source).team⟩ := by
            rcases hcf.sides with ⟨_, h2, _⟩ | ⟨h1, _, _⟩
            · exact h2
            · omega
          rw [bget_bset]
          by_cases h1 : m.destination / 8 * 8 + 7 = j
          · rw [if_pos ⟨h1, by rw [bset_length, bset_length, bset_length]; omega⟩]
            right
            left
            rfl
          · rw [if_neg (fun hc => h1 hc.1)]
            rw [bget_bset]
            by_cases h2 : m.destination / 8 * 8 + 5 = j
            · rw [if_pos ⟨h2, by rw [bset_length, bset_length]; omega⟩]
              right
              right
              right
              right
              refine ⟨by omega, by omega, ?_⟩
              rw [bget_bset_ne _ _ _ _ (by omega), bget_bset_ne _ _ _ _ (by omega),
                hrow, hrook]
            · rw [if_neg (fun hc => h2 hc.1)]
              rcases b1_cases len64 hs hd j with h | ⟨hjd, h⟩ | h
              · right
                left
                exact h
              · right
                right
                left
                exact ⟨hjd, h, hpromo0⟩
              · left
                exact h
        · rw [if_neg h6]
          have hdc : m.destination % 8 = 2 ∨ m.destination % 8 = 1 := by
            rcases hcf.sides with ⟨h1, _, _⟩ | ⟨h1, _, _⟩
            · exact absurd h1 h6
            · exact h1
          have hrook : bget g.board (m.source / 8 * 8) =
              ⟨ROOK ||| (bget g.board m.source).team⟩ := by
            rcases hcf.sides with ⟨h1, _, _⟩ | ⟨_, h2, _⟩
            · exact absurd h1 h6
            · exact h2
          rw [bget_bset]
          by_cases h1 : m.destination / 8 * 8 = j
          · rw [if_pos ⟨h1, by rw [bset_length, bset_length, bset_length]; omega⟩]
            right
            left
            rfl
          · rw [if_neg (fun hc => h1 hc.1)]
            rw [bget_bset]
            by_cases h2 : m.destination / 8 * 8 + m.destination % 8 + 1 = j
            · rw [if_pos ⟨h2, by rw [bset_length, bset_length]; omega⟩]
              right
              right
              right
              right
              refine ⟨by omega, by omega, ?_⟩
              rw [bget_bset_ne _ _ _ _ (by omega), bget_bset_ne _ _ _ _ (by omega)]
              rw [show m.destination / 8 * 8 = m.source / 8 * 8 from by omega, hrook]
            · rw [if_neg (fun hc => h2 hc.1)]
              rcases b1_cases len64 hs hd j with h | ⟨hjd, h⟩ | h
              · right
                left
                exact h
              · right
                right
                left
                exact ⟨hjd, h, hpromo0⟩
              · left
                exact h
      · rw [if_neg hfar]
        rcases b1_cases len64 hs hd j with h | ⟨hjd, h⟩ | h
        · right
          left
          exact h
        · right
          right
          left
          exact ⟨hjd, h, hpromo0⟩
        · left
          exact h
    · rw [if_neg hK]
      rcases b1_cases len64 hs hd j with h | ⟨hjd, h⟩ | h
      · right
        left
        exact h
      · right
        right
        left
        exact ⟨hjd, h, hpromo0⟩
      · left
        exact h

theorem performe_board_length {g : ChessGame} {m : Move} (h : g.board.length = 64) :
    (performe_move g m).board.length = 64 := by
  rw [performe_board]
  repeat' split
  all_goals simp [bset_length, h]

/-- Clearing castling rights keeps the flag word below 16 and never sets a
rights bit. -/
theorem clears_mono : ∀ f < 16, ∀ w : Bool,
    (set_castle_right false w f < 16 ∧ set_castle_left false w f < 16 ∧
      set_castle_left false w (set_castle_right false w f) < 16) ∧
    (∀ b ∈ [1, 2, 4, 8],
      (set_castle_right false w f &&& b ≠ 0 → f &&& b ≠ 0) ∧
      (set_castle_left false w f &&& b ≠ 0 → f &&& b ≠ 0) ∧
      (set_castle_left false w (set_castle_right false w f) &&& b ≠ 0 →
        f &&& b ≠ 0)) := by
  intro f hf w
  rcases w <;> revert hf <;> revert f <;> decide

/-- The four possible flag words after a move. -/
theorem performe_flags_cases (g : ChessGame) (m : Move) :
    (performe_move g m).flags = g.flags ∨
      ∃ w : Bool, (performe_move g m).flags = set_castle_right false w g.flags ∨
        (performe_move g m).flags = set_castle_left false w g.flags ∨
        (performe_move g m).flags =
          set_castle_left false w (set_castle_right false w g.flags) := by
  rw [performe_flags]
  split
  · split
    · exact Or.inr ⟨_, Or.inr (Or.inr rfl)⟩
    · split
      · split
        · exact Or.inr ⟨_, Or.inl rfl⟩
        · exact Or.inr ⟨_, Or.inr (Or.inl rfl)⟩
      · exact Or.inl rfl
  · exact Or.inl rfl

/-- `performe_move` never sets a castling-rights bit. -/
theorem performe_bit_mono {g : ChessGame} {m : Move} (hf : g.flags < 16) :
    ∀ b ∈ [1, 2, 4, 8], (performe_move g m).flags &&& b ≠ 0 → g.flags &&& b ≠ 0 := by
  intro b hb
  rcases performe_flags_cases g m with h | ⟨w, h | h | h⟩ <;> rw [h]
  · exact id
  · exact ((clears_mono g.flags hf w).2 b hb).1
  · exact ((clears_mono g.flags hf w).2 b hb).2.1
  · exact ((clears_mono g.flags hf w).2 b hb).2.2

/-- `performe_move` never grants a castling right. -/
theorem performe_can_mono {g : ChessGame} {m : Move} (hf : g.flags < 16) :
    ∀ w : Bool,
      (can_castle_right (performe_move g m) w = true → can_castle_right g w = true) ∧
      (can_castle_left (performe_move g m) w = true → can_castle_left g w = true) := by
  intro w
  have hR := canR_iff (performe_move g m) w
  have hR' := canR_iff g w
  have hL := canL_iff (performe_move g m) w
  have hL' := canL_iff g w
  rcases w
  · rw [if_neg (by decide)] at hR hR' hL hL'
    exact ⟨fun h => hR'.mpr (performe_bit_mono hf 4 (by decide) (hR.mp h)),
           fun h => hL'.mpr (performe_bit_mono hf 8 (by decide) (hL.mp h))⟩
  · rw [if_pos rfl] at hR hR' hL hL'
    exact ⟨fun h => hR'.mpr (performe_bit_mono hf 1 (by decide) (hR.mp h)),
           fun h => hL'.mpr (performe_bit_mono hf 2 (by decide) (hL.mp h))⟩

/-- After a king's first move both of its side's castling rights are gone. -/
theorem double_clear_canR {h : ChessGame} {f : Nat} (hf : f < 16) {w : Bool}
    (he : h.flags = set_castle_left false w (set_castle_right false w f))
    (hc : can_castle_right h w = true) : False := by
  rw [canR_iff, he] at hc
  clear he
  revert hc
  rcases w
  · rw [if_neg (by decide)]
    revert hf
    revert f
    decide
  · rw [if_pos rfl]
    revert hf
    revert f
    decide

theorem double_clear_canL {h : ChessGame} {f : Nat} (hf : f < 16) {w : Bool}
    (he : h.flags = set_castle_left false w (set_castle_right false w f))
    (hc : can_castle_left h w = true) : False := by
  rw [canL_iff, he] at hc
  clear he
  revert hc
  rcases w
  · rw [if_neg (by decide)]
    revert hf
    revert f
    decide
  · rw [if_pos rfl]
    revert hf
    revert f
    decide

/-- The state invariant is preserved by performing any generated move of the
side to move. -/
theorem Inv_performe {g : ChessGame} {m : Move} (hInv : Inv g) (hmf : MoveFacts g m)
    (ht : (bget g.board m.source).team = g.current_turn) :
    Inv (performe_move g m) := by
  have hInv' := hInv
  obtain ⟨len64, hflt, htle, hcells, hprowI, hepI, hkingI⟩ := hInv'
  have hs := hmf.src_lt
  have hd := hmf.dst_lt
  have hsd := src_ne_dst hInv hmf
  have hcell := performe_cell hInv hmf
  have hpWF := hcells _ hs
  have hteam01 := WF_team hpWF
  obtain ⟨hpinfo, hptypes⟩ := WF_info_eq hpWF hmf.src_occ
  refine ⟨performe_board_length len64, ?_, ?_, ?_, ?_, ?_, ?_⟩
  · rcases performe_flags_cases g m with h | ⟨w, h | h | h⟩ <;> rw [h]
    · exact hflt
    · exact ((clears_mono g.flags hflt w).1).1
    · exact ((clears_mono g.flags hflt w).1).2.1
    · exact ((clears_mono g.flags hflt w).1).2.2
  · rw [performe_turn]
    have h01 : g.current_turn = 0 ∨ g.current_turn = 1 := by omega
    rcases h01 with h | h <;> rw [h] <;> decide
  · intro i hi
    rcases hcell i hi with h | h | ⟨_, h, _⟩ | ⟨_, h⟩ | ⟨_, _, h⟩ <;> rw [h]
    · exact hcells i hi
    · decide
    · exact hpWF
    · rcases hteam01 with h2 | h2 <;> rw [h2] <;> decide
    · rcases hteam01 with h2 | h2 <;> rw [h2] <;> decide
  · intro i hi hpawn
    rcases hcell i hi with h | h | ⟨hid, h, hpr0⟩ | ⟨_, h⟩ | ⟨_, _, h⟩
    · rw [h] at hpawn
      exact hprowI i hi hpawn
    · rw [h] at hpawn
      exact absurd hpawn (by decide)
    · rw [h] at hpawn
      have := hmf.pawn_dst_row hpawn hpr0
      omega
    · rw [h] at hpawn
      rcases hteam01 with h2 | h2 <;> rw [h2] at hpawn <;> exact absurd hpawn (by decide)
    · rw [h] at hpawn
      rcases hteam01 with h2 | h2 <;> rw [h2] at hpawn <;> exact absurd hpawn (by decide)
  · -- the en-passant window invariant
    intro last hlast hdbl2
    rw [performe_history] at hlast
    simp only [List.take_succ_cons, List.take_zero, List.mem_singleton] at hlast
    rw [hlast] at hdbl2 ⊢
    have dblf := hmf.dbl_facts hdbl2
    have htyP : (bget g.board m.source).type = PAWN := dblf.src_pawn
    have hep0 : m.flags &&& EN_PASSANT = 0 := by
      rw [dblf.flags_eq]
      decide
    have hpr0 : m.flags &&& PROMOTION = 0 := by
      rw [dblf.flags_eq]
      decide
    have hb2 : (performe_move g m).board =
        bset (bset g.board m.destination (bget g.board m.source)) m.source pieceNone := by
      rw [performe_board, if_pos htyP,
        if_neg (show ¬m.flags &&& EN_PASSANT ≠ 0 from fun hc => hc hep0),
        if_neg (show ¬m.flags &&& PROMOTION ≠ 0 from fun hc => hc hpr0)]
    have hdstv : bget (performe_move g m).board m.destination = bget g.board m.source := by
      rw [hb2, bget_bset_ne _ _ _ _ hsd, bget_bset_eq _ _ _ (by omega)]
    have hpieceeq : bget g.board m.source = ⟨PAWN ||| (bget g.board m.source).team⟩ := by
      refine piece_eq_of_info ?_
      rw [hpinfo, htyP]
    have hsrow := dblf.src_row
    have hdeq := dblf.dst_eq
    have hmid := dblf.mid_empty
    rw [performe_turn, xor_one_one, ← ht]
    rcases hteam01 with h2 | h2 <;> rw [h2] at hsrow hdeq hmid ⊢
    · simp only [show ((0 : Nat) = 0) = True from by simp, if_true] at hsrow hdeq hmid ⊢
      refine ⟨hd, by omega, ?_, ?_⟩
      · rw [hdstv, hpieceeq, h2]
      · rw [hb2, bget_bset_ne _ _ _ _ (by omega), bget_bset_ne _ _ _ _ (by omega),
          show m.destination + 8 = m.source - 8 from by omega]
        exact hmid
    · simp only [show ((1 : Nat) = 0) = False from by simp, if_false] at hsrow hdeq hmid ⊢
      refine ⟨hd, by omega, ?_, ?_⟩
      · rw [hdstv, hpieceeq, h2]
      · rw [hb2, bget_bset_ne _ _ _ _ (by omega), bget_bset_ne _ _ _ _ (by omega),
          show m.destination - 8 = m.source + 8 from by omega]
        exact hmid
  · -- the castling-home invariant
    intro i hi t htle2 hinfo hrights
    have hrightsG : can_castle_right g (t = 0) = true ∨
        can_castle_left g (t = 0) = true := by
      rcases hrights with h | h
      · exact Or.inl ((performe_can_mono hflt _).1 h)
      · exact Or.inr ((performe_can_mono hflt _).2 h)
    have ht01 : t = 0 ∨ t = 1 := by omega
    rcases hcell i hi with h | h | ⟨hid, h, _⟩ | ⟨_, h⟩ | ⟨_, _, h⟩
    · rw [h] at hinfo
      exact hkingI i hi t htle2 hinfo hrightsG
    · rw [h] at hinfo
      rcases ht01 with h2 | h2 <;> rw [h2] at hinfo <;> exact absurd hinfo (by decide)
    · rw [h] at hinfo
      have htK : (bget g.board m.source).type = KING := by
        show (bget g.board m.source).info &&& 254 = KING
        rw [hinfo]
        rcases ht01 with h2 | h2 <;> rw [h2] <;> decide
      have htm : (bget g.board m.source).team = t := by
        show (bget g.board m.source).info &&& 1 = t
        rw [hinfo]
        rcases ht01 with h2 | h2 <;> rw [h2] <;> decide
      have hF : m.flags &&& FIRST_MOVE ≠ 0 :=
        hmf.king_first htK (by rw [htm]; exact hrightsG)
      have hflags' : (performe_move g m).flags =
          set_castle_left false ((bget g.board m.source).team = 0)
            (set_castle_right false ((bget g.board m.source).team = 0) g.flags) := by
        rw [performe_flags, if_pos hF, if_pos htK]
      rw [htm] at hflags'
      exfalso
      rcases hrights with hcr | hcl
      · exact double_clear_canR hflt hflags' hcr
      · exact double_clear_canL hflt hflags' hcl
    · rw [h] at hinfo
      rcases ht01 with h2 | h2 <;> rcases hteam01 with h3 | h3 <;>
        rw [h2, h3] at hinfo <;> exact absurd hinfo (by decide)
    · rw [h] at hinfo
      rcases ht01 with h2 | h2 <;> rcases hteam01 with h3 | h3 <;>
        rw [h2, h3] at hinfo <;> exact absurd hinfo (by decide)

/-! ### Reachability -/

/-- Game states reachable from `init_game` by fully-legal moves of the side
to move. -/
inductive Reachable : ChessGame → Prop where
  | init : Reachable init_game
  | step {g : ChessGame} {m : Move} : Reachable g →
      m ∈ team_moves g g.current_turn true → Reachable (performe_move g m)

set_option maxRecDepth 100000 in
/-- The initial position satisfies the state invariant. -/
theorem Inv_init : Inv init_game := by decide

/-- Every reachable state satisfies the state invariant. -/
theorem Reachable_Inv {g : ChessGame} (h : Reachable g) : Inv g := by
  induction h with
  | init => exact Inv_init
  | step _ hmem ih =>
    exact Inv_performe ih (team_moves_facts ih hmem).1 (team_moves_facts ih hmem).2.1

/-! ### Auxiliary castling-rights lemmas at the `can_castle` level -/

theorem bool_eq_false {b : Bool} (h : b = true → False) : b = false := by
  rcases b
  · rfl
  · exact absurd rfl h

theorem can_eq_of_flags {h g0 : ChessGame} (he : h.flags = g0.flags) (w : Bool) :
    can_castle_right h w = can_castle_right g0 w ∧
    can_castle_left h w = can_castle_left g0 w := by
  unfold can_castle_right can_castle_left
  rw [he]
  exact ⟨rfl, rfl⟩

theorem scr_self_canR {h : ChessGame} {f : Nat} (hf : f < 16) {w : Bool}
    (he : h.flags = set_castle_right false w f) :
    can_castle_right h w = false := by
  refine bool_eq_false (fun hc => ?_)
  rw [canR_iff, he] at hc
  clear he
  revert hc
  rcases w
  · rw [if_neg (by decide)]
    revert hf
    revert f
    decide
  · rw [if_pos rfl]
    revert hf
    revert f
    decide

theorem scl_self_canL {h : ChessGame} {f : Nat} (hf : f < 16) {w : Bool}
    (he : h.flags = set_castle_left false w f) :
    can_castle_left h w = false := by
  refine bool_eq_false (fun hc => ?_)
  rw [canL_iff, he] at hc
  clear he
  revert hc
  rcases w
  · rw [if_neg (by decide)]
    revert hf
    revert f
    decide
  · rw [if_pos rfl]
    revert hf
    revert f
    decide

theorem scr_pres_canL {h g0 : ChessGame} {f : Nat} (hf : f < 16) {w : Bool}
    (he : h.flags = set_castle_right false w f) (he0 : g0.flags = f) :
    can_castle_left h w = can_castle_left g0 w := by
  rw [Bool.eq_iff_iff, canL_iff, canL_iff, he, he0]
  clear he he0
  rcases w
  · rw [if_neg (by decide), if_neg (by decide)]
    revert hf
    revert f
    decide
  · rw [if_pos rfl, if_pos rfl]
    revert hf
    revert f
    decide

theorem scl_pres_canR {h g0 : ChessGame} {f : Nat} (hf : f < 16) {w : Bool}
    (he : h.flags = set_castle_left false w f) (he0 : g0.flags = f) :
    can_castle_right h w = can_castle_right g0 w := by
  rw [Bool.eq_iff_iff, canR_iff, canR_iff, he, he0]
  clear he he0
  rcases w
  · rw [if_neg (by decide), if_neg (by decide)]
    revert hf
    revert f
    decide
  · rw [if_pos rfl, if_pos rfl]
    revert hf
    revert f
    decide

theorem clears_pres_other_canR {h g0 : ChessGame} {f : Nat} (hf : f < 16) {w w2 : Bool}
    (hne : w2 ≠ w)
    (he : h.flags = set_castle_right false w f ∨ h.flags = set_castle_left false w f ∨
      h.flags = set_castle_left false w (set_castle_right false w f))
    (he0 : g0.flags = f) :
    can_castle_right h w2 = can_castle_right g0 w2 := by
  rw [Bool.eq_iff_iff, canR_iff, canR_iff, he0]
  rcases he with he | he | he <;> rw [he] <;> clear he he0 <;>
    rcases w <;> rcases w2 <;>
    first
      | exact absurd rfl hne
      | (rw [if_pos rfl, if_pos rfl]
         revert hf
         revert f
         decide)
      | (rw [if_neg (by decide), if_neg (by decide)]
         revert hf
         revert f
         decide)

theorem clears_pres_other_canL {h g0 : ChessGame} {f : Nat} (hf : f < 16) {w w2 : Bool}
    (hne : w2 ≠ w)
    (he : h.flags = set_castle_right false w f ∨ h.flags = set_castle_left false w f ∨
      h.flags = set_castle_left false w (set_castle_right false w f))
    (he0 : g0.flags = f) :
    can_castle_left h w2 = can_castle_left g0 w2 := by
  rw [Bool.eq_iff_iff, canL_iff, canL_iff, he0]
  rcases he with he | he | he <;> rw [he] <;> clear he he0 <;>
    rcases w <;> rcases w2 <;>
    first
      | exact absurd rfl hne
      | (rw [if_pos rfl, if_pos rfl]
         revert hf
         revert f
         decide)
      | (rw [if_neg (by decide), if_neg (by decide)]
         revert hf
         revert f
         decide)

/-! ### Definitions used by the claim checks -/

/-- The tie-break rule as the specification words it: the counter includes the
incumbent, so the k-th candidate carrying the best score (counting the
incumbent as the first) replaces the selection iff `rand() % k == 0`
(probability 1/k).  This definition follows the specification text, for
comparison with the code's `bestStep`. -/
def bestStepUniform (is_better_predicate : Int → Int → Bool) (st : BestState)
    (move : Move) (move_score : Int) : BestState :=
  if is_better_predicate move_score st.best_move_score then
    { st with
      best_move := move
      best_move_score := move_score
      equal_moves_considerd := 1 }
  else if move_score = st.best_move_score then
    let k := st.equal_moves_considerd + 1
    let r := st.rng.headD 0
    if r % k = 0 then
      { best_move := move, best_move_score := move_score,
        equal_moves_considerd := k, rng := st.rng.tail }
    else { st with equal_moves_considerd := k, rng := st.rng.tail }
  else st

/-- `get_best_next_move` with the specification's tie-break rule substituted
(spec-derived, for comparison with the code). -/
def get_best_next_move_uniform_spec (g : ChessGame) (depth : Int) (rng : List Nat) :
    BestState :=
  let is_better_predicate := if g.current_turn = 0 then greater_than else less_than
  let init_score := if g.current_turn = 0 then intMin else intMax
  (team_moves g g.current_turn true).foldl
    (fun st move =>
      bestStepUniform is_better_predicate st move
        (minimax g move (g.current_turn ≠ 0) depth intMin intMax))
    ⟨⟨0, 0, 0⟩, init_score, 1, rng⟩

/-- A legal two-kings position (white king d5, black king h1), white to move:
all eight white king moves are legal and score equally at depth 0. -/
def gC3 : ChessGame :=
  ⟨0, 0, ((List.replicate 64 pieceNone).set 27 ⟨KING⟩).set 63 ⟨KING ||| 1⟩, []⟩

/-- White king e1 and rook a1 with the white-left castling right, black pawn
a2 and black king h8, white to move: the pawn guards b1 only diagonally, so
the castle pre-scan (which generates no pawn captures onto empty squares)
considers the left side safe. -/
def g8 : ChessGame :=
  ⟨CAN_WHITE_CASTLE_LEFT, 0,
    ((((List.replicate 64 pieceNone).set 60 ⟨KING⟩).set 56 ⟨ROOK⟩).set 48
      ⟨PAWN ||| 1⟩).set 7 ⟨KING ||| 1⟩, []⟩

/-- The position after 1. e4 Ngh6 2. e5 d5: black's double step just opened
the en-passant window for the white e5 pawn. -/
def C7g : ChessGame :=
  performe_move (performe_move (performe_move (performe_move init_game
    ⟨52, 36, DOUBLE_MOVE⟩) ⟨6, 23, 0⟩) ⟨36, 28, 0⟩) ⟨11, 27, DOUBLE_MOVE⟩

/-- White queen b5, white king h1, black king a8, white to move: Qb6 leaves
black stalemated. -/
def gM : ChessGame :=
  ⟨0, 0, (((List.replicate 64 pieceNone).set 25 ⟨QUEEN⟩).set 63 ⟨KING⟩).set 0
    ⟨KING ||| 1⟩, []⟩

/-! ### The claims -/

/-- C1: at every reachable position, applying any fully-legal generated move
of the side to move and immediately undoing it restores the position
bit-for-bit: board contents, castling-rights flags, side to move, and history
are all equal to their values before the apply; since `Reachable` closes over
such applies, this holds under arbitrarily deep nesting. -/
theorem C1_roundtrip {g : ChessGame} {m : Move} (hR : Reachable g)
    (hm : m ∈ team_moves g g.current_turn true) :
    undo_last_move (performe_move g m) = g := by
  have hInv := Reachable_Inv hR
  obtain ⟨hmf, ht, _⟩ := team_moves_facts hInv hm
  exact apply_undo hInv hmf ht

set_option maxRecDepth 1000000 in
theorem C1_roundtrip_witness :
    Reachable init_game ∧
      (⟨57, 40, 0⟩ : Move) ∈ team_moves init_game init_game.current_turn true ∧
      undo_last_move (performe_move init_game ⟨57, 40, 0⟩) = init_game :=
  ⟨Reachable.init, by decide, C1_roundtrip Reachable.init (by decide)⟩

/-- C2: the depth adjustment in `minimax` tests `!move.flags & ATTACK`, in
which `!` binds before `&`, so the extra decrement is applied exactly to
moves whose whole flag word is zero — not to all non-captures.  A non-capture
double pawn step (flags `DOUBLE_MOVE`, no `ATTACK` bit) keeps its depth,
refuting the claimed rule. -/
theorem C2_depth_adjust_bug :
    (∀ flags : Nat, ∀ depth : Int,
      minimax_depth_adjust flags depth = if flags = 0 then depth - 1 else depth) ∧
    minimax_depth_adjust DOUBLE_MOVE 5 = 5 ∧
    DOUBLE_MOVE &&& ATTACK = 0 ∧
    minimax_depth_adjust 0 5 = 4 := by
  refine ⟨?_, by decide, by decide, by decide⟩
  intro flags depth
  unfold minimax_depth_adjust
  by_cases h : flags = 0
  · rw [if_pos h, if_pos (show (1 : Nat) &&& ATTACK ≠ 0 from by decide), if_pos h]
  · rw [if_neg h, if_neg (show ¬ (0 : Nat) &&& ATTACK ≠ 0 from by decide), if_neg h]

/-- C3 (amended): when a candidate's score ties the incumbent's, `bestStep`
pre-increments the tie counter — which was reset to zero at the last strict
improvement, so it does not count the incumbent — and replaces the incumbent
iff `rand() % counter == 0`.  In particular the first tied candidate after an
improvement always replaces the incumbent, so the selection is not a uniform
draw among all moves seen with the best score. -/
theorem C3_tie_break {p : Int → Int → Bool} {st : BestState} {m : Move} {s : Int}
    (hnb : p s st.best_move_score = false) (heq : s = st.best_move_score) :
    bestStep p st m s =
      (if st.rng.headD 0 % (st.equal_moves_considerd + 1) = 0 then
        (⟨m, s, st.equal_moves_considerd + 1, st.rng.tail⟩ : BestState)
      else
        { st with
          equal_moves_considerd := st.equal_moves_considerd + 1
          rng := st.rng.tail }) ∧
    (st.equal_moves_considerd = 0 → bestStep p st m s = ⟨m, s, 1, st.rng.tail⟩) := by
  have h1 : bestStep p st m s =
      if st.rng.headD 0 % (st.equal_moves_considerd + 1) = 0 then
        (⟨m, s, st.equal_moves_considerd + 1, st.rng.tail⟩ : BestState)
      else
        { st with
          equal_moves_considerd := st.equal_moves_considerd + 1
          rng := st.rng.tail } := by
    unfold bestStep
    rw [if_neg (show ¬ p s st.best_move_score = true from by rw [hnb]; decide),
      if_pos heq]
  refine ⟨h1, fun h0 => ?_⟩
  rw [h1, h0]
  rw [if_pos (Nat.mod_one _)]

theorem C3_tie_break_witness :
    greater_than 5 (5 : Int) = false ∧ (5 : Int) = 5 ∧
      (bestStep greater_than ⟨⟨0, 0, 0⟩, 5, 0, [3]⟩ ⟨1, 2, 3⟩ 5 =
        (if (3 : Nat) % (0 + 1) = 0 then ((⟨⟨1, 2, 3⟩, 5, 0 + 1, []⟩ : BestState))
        else ⟨⟨0, 0, 0⟩, 5, 0 + 1, []⟩) ∧
      ((0 : Nat) = 0 → bestStep greater_than ⟨⟨0, 0, 0⟩, 5, 0, [3]⟩ ⟨1, 2, 3⟩ 5 =
        ⟨⟨1, 2, 3⟩, 5, 1, []⟩)) :=
  ⟨by decide, rfl, C3_tie_break (by decide) rfl⟩

theorem minimax_zero (g : ChessGame) (m : Move) (im : Bool) (a b : Int) :
    minimax g m im 0 a b = evaluate_board (performe_move g m) := by
  unfold minimax
  simp only [minimaxAux]
  rw [if_pos (le_refl (0 : Int))]

theorem gbnm_zero (g : ChessGame) (rng : List Nat) :
    get_best_next_move g 0 rng =
      (team_moves g g.current_turn true).foldl
        (fun st move =>
          bestStep (if g.current_turn = 0 then greater_than else less_than) st move
            (evaluate_board (performe_move g move)))
        ⟨⟨0, 0, 0⟩, if g.current_turn = 0 then intMin else intMax, 0, rng⟩ := by
  simp only [get_best_next_move]
  have hf : (fun (st : BestState) (move : Move) =>
      bestStep (if g.current_turn = 0 then greater_than else less_than) st move
        (minimax g move (g.current_turn ≠ 0) 0 intMin intMax)) =
      fun st move =>
        bestStep (if g.current_turn = 0 then greater_than else less_than) st move
          (evaluate_board (performe_move g move)) := by
    funext st move
    rw [minimax_zero]
  rw [hf]

theorem gbnm_uniform_zero (g : ChessGame) (rng : List Nat) :
    get_best_next_move_uniform_spec g 0 rng =
      (team_moves g g.current_turn true).foldl
        (fun st move =>
          bestStepUniform (if g.current_turn = 0 then greater_than else less_than)
            st move (evaluate_board (performe_move g move)))
        ⟨⟨0, 0, 0⟩, if g.current_turn = 0 then intMin else intMax, 1, rng⟩ := by
  simp only [get_best_next_move_uniform_spec]
  have hf : (fun (st : BestState) (move : Move) =>
      bestStepUniform (if g.current_turn = 0 then greater_than else less_than) st move
        (minimax g move (g.current_turn ≠ 0) 0 intMin intMax)) =
      fun st move =>
        bestStepUniform (if g.current_turn = 0 then greater_than else less_than)
          st move (evaluate_board (performe_move g move)) := by
    funext st move
    rw [minimax_zero]
  rw [hf]

set_option maxRecDepth 1000000 in
/-- C3 counterexample: in the two-kings position `gC3` at depth 0 all king
moves tie; with the embedded random stream `[1, 1, 1]` the code returns the
last tied move considered, while the claimed uniform reservoir (counting the
incumbent, probability 1/k) would keep an earlier one. -/
theorem C3_counterexample :
    (get_best_next_move gC3 0 [1, 1, 1]).best_move = ⟨27, 26, 0⟩ ∧
    (get_best_next_move_uniform_spec gC3 0 [1, 1, 1]).best_move = ⟨27, 19, 0⟩ ∧
    (get_best_next_move gC3 0 [1, 1, 1]).best_move ≠
      (get_best_next_move_uniform_spec gC3 0 [1, 1, 1]).best_move := by
  rw [gbnm_zero, gbnm_uniform_zero]
  decide

/-- C4: a first king move clears both castling rights of its side, a first
rook move clears exactly the wing matching its file, any move without the
`FIRST_MOVE` flag leaves the flag word untouched, the opposing side's rights
are never affected, and `undo_last_move` restores the flag word exactly. -/
theorem C4_castling_rights {g : ChessGame} {m : Move} (hInv : Inv g)
    (hmf : MoveFacts g m) (ht : (bget g.board m.source).team = g.current_turn) :
    (m.flags &&& FIRST_MOVE = 0 → (performe_move g m).flags = g.flags) ∧
    (m.flags &&& FIRST_MOVE ≠ 0 → (bget g.board m.source).type = KING →
      can_castle_right (performe_move g m) ((bget g.board m.source).team = 0) = false ∧
      can_castle_left (performe_move g m) ((bget g.board m.source).team = 0) = false) ∧
    (m.flags &&& FIRST_MOVE ≠ 0 → (bget g.board m.source).type = ROOK →
      m.source % 8 = 7 →
      can_castle_right (performe_move g m) ((bget g.board m.source).team = 0) = false ∧
      can_castle_left (performe_move g m) ((bget g.board m.source).team = 0) =
        can_castle_left g ((bget g.board m.source).team = 0)) ∧
    (m.flags &&& FIRST_MOVE ≠ 0 → (bget g.board m.source).type = ROOK →
      m.source % 8 ≠ 7 →
      can_castle_left (performe_move g m) ((bget g.board m.source).team = 0) = false ∧
      can_castle_right (performe_move g m) ((bget g.board m.source).team = 0) =
        can_castle_right g ((bget g.board m.source).team = 0)) ∧
    (∀ w : Bool, w ≠ ((bget g.board m.source).team = 0) →
      can_castle_right (performe_move g m) w = can_castle_right g w ∧
      can_castle_left (performe_move g m) w = can_castle_left g w) ∧
    (undo_last_move (performe_move g m)).flags = g.flags := by
  have hflt : g.flags < 16 := hInv.2.1
  refine ⟨?_, ?_, ?_, ?_, ?_, ?_⟩
  · intro hF0
    rw [performe_flags, if_neg (fun hc => hc hF0)]
  · intro hF hK
    have hflags2 : (performe_move g m).flags =
        set_castle_left false ((bget g.board m.source).team = 0)
          (set_castle_right false ((bget g.board m.source).team = 0) g.flags) := by
      rw [performe_flags, if_pos hF, if_pos hK]
    exact ⟨bool_eq_false (fun hc => double_clear_canR hflt hflags2 hc),
           bool_eq_false (fun hc => double_clear_canL hflt hflags2 hc)⟩
  · intro hF hRk h7
    have hKne : ¬ (bget g.board m.source).type = KING := by rw [hRk]; decide
    have hflags2 : (performe_move g m).flags =
        set_castle_right false ((bget g.board m.source).team = 0) g.flags := by
      rw [performe_flags, if_pos hF, if_neg hKne, if_pos hRk, if_pos h7]
    exact ⟨scr_self_canR hflt hflags2, scr_pres_canL hflt hflags2 rfl⟩
  · intro hF hRk h7
    have hKne : ¬ (bget g.board m.source).type = KING := by rw [hRk]; decide
    have hflags2 : (performe_move g m).flags =
        set_castle_left false ((bget g.board m.source).team = 0) g.flags := by
      rw [performe_flags, if_pos hF, if_neg hKne, if_pos hRk, if_neg h7]
    exact ⟨scl_self_canL hflt hflags2, scl_pres_canR hflt hflags2 rfl⟩
  · intro w2 hw2
    by_cases hF : m.flags &&& FIRST_MOVE ≠ 0
    · by_cases hK : (bget g.board m.source).type = KING
      · have hflags2 : (performe_move g m).flags =
            set_castle_left false ((bget g.board m.source).team = 0)
              (set_castle_right false ((bget g.board m.source).team = 0) g.flags) := by
          rw [performe_flags, if_pos hF, if_pos hK]
        exact ⟨clears_pres_other_canR hflt hw2 (Or.inr (Or.inr hflags2)) rfl,
               clears_pres_other_canL hflt hw2 (Or.inr (Or.inr hflags2)) rfl⟩
      · by_cases hRk : (bget g.board m.source).type = ROOK
        · by_cases h7 : m.source % 8 = 7
          · have hflags2 : (performe_move g m).flags =
                set_castle_right false ((bget g.board m.source).team = 0) g.flags := by
              rw [performe_flags, if_pos hF, if_neg hK, if_pos hRk, if_pos h7]
            exact ⟨clears_pres_other_canR hflt hw2 (Or.inl hflags2) rfl,
                   clears_pres_other_canL hflt hw2 (Or.inl hflags2) rfl⟩
          · have hflags2 : (performe_move g m).flags =
                set_castle_left false ((bget g.board m.source).team = 0) g.flags := by
              rw [performe_flags, if_pos hF, if_neg hK, if_pos hRk, if_neg h7]
            exact ⟨clears_pres_other_canR hflt hw2 (Or.inr (Or.inl hflags2)) rfl,
                   clears_pres_other_canL hflt hw2 (Or.inr (Or.inl hflags2)) rfl⟩
        · have hflags2 : (performe_move g m).flags = g.flags := by
            rw [performe_flags, if_pos hF, if_neg hK, if_neg hRk]
          exact can_eq_of_flags hflags2 w2
    · have hflags2 : (performe_move g m).flags = g.flags := by
        rw [performe_flags, if_neg hF]
      exact can_eq_of_flags hflags2 w2
  · exact congrArg ChessGame.flags (apply_undo hInv hmf ht)

set_option maxRecDepth 1000000 in
theorem C4_castling_rights_witness :
    Inv init_game ∧ MoveFacts init_game ⟨57, 40, 0⟩ ∧
      (bget init_game.board (⟨57, 40, 0⟩ : Move).source).team = init_game.current_turn ∧
      (((⟨57, 40, 0⟩ : Move).flags &&& FIRST_MOVE = 0 →
        (performe_move init_game ⟨57, 40, 0⟩).flags = init_game.flags) ∧
      ((⟨57, 40, 0⟩ : Move).flags &&& FIRST_MOVE ≠ 0 →
        (bget init_game.board (⟨57, 40, 0⟩ : Move).source).type = KING →
        can_castle_right (performe_move init_game ⟨57, 40, 0⟩)
          ((bget init_game.board (⟨57, 40, 0⟩ : Move).source).team = 0) = false ∧
        can_castle_left (performe_move init_game ⟨57, 40, 0⟩)
          ((bget init_game.board (⟨57, 40, 0⟩ : Move).source).team = 0) = false) ∧
      ((⟨57, 40, 0⟩ : Move).flags &&& FIRST_MOVE ≠ 0 →
        (bget init_game.board (⟨57, 40, 0⟩ : Move).source).type = ROOK →
        (⟨57, 40, 0⟩ : Move).source % 8 = 7 →
        can_castle_right (performe_move init_game ⟨57, 40, 0⟩)
          ((bget init_game.board (⟨57, 40, 0⟩ : Move).source).team = 0) = false ∧
        can_castle_left (performe_move init_game ⟨57, 40, 0⟩)
          ((bget init_game.board (⟨57, 40, 0⟩ : Move).source).team = 0) =
          can_castle_left init_game
            ((bget init_game.board (⟨57, 40, 0⟩ : Move).source).team = 0)) ∧
      ((⟨57, 40, 0⟩ : Move).flags &&& FIRST_MOVE ≠ 0 →
        (bget init_game.board (⟨57, 40, 0⟩ : Move).source).type = ROOK →
        (⟨57, 40, 0⟩ : Move).source % 8 ≠ 7 →
        can_castle_left (performe_move init_game ⟨57, 40, 0⟩)
          ((bget init_game.board (⟨57, 40, 0⟩ : Move).source).team = 0) = false ∧
        can_castle_right (performe_move init_game ⟨57, 40, 0⟩)
          ((bget init_game.board (⟨57, 40, 0⟩ : Move).source).team = 0) =
          can_castle_right init_game
            ((bget init_game.board (⟨57, 40, 0⟩ : Move).source).team = 0)) ∧
      (∀ w : Bool, w ≠ ((bget init_game.board (⟨57, 40, 0⟩ : Move).source).team = 0) →
        can_castle_right (performe_move init_game ⟨57, 40, 0⟩) w =
          can_castle_right init_game w ∧
        can_castle_left (performe_move init_game ⟨57, 40, 0⟩) w =
          can_castle_left init_game w) ∧
      (undo_last_move (performe_move init_game ⟨57, 40, 0⟩)).flags =
        init_game.flags) := by
  have hInv : Inv init_game := by decide
  have hfacts := team_moves_facts hInv
    (show (⟨57, 40, 0⟩ : Move) ∈ team_moves init_game 0 true by decide)
  exact ⟨hInv, hfacts.1, hfacts.2.1,
    C4_castling_rights hInv hfacts.1 hfacts.2.1⟩

theorem ne_nil_iff_exists_mem {α : Type} (l : List α) : l ≠ [] ↔ ∃ x, x ∈ l := by
  cases l with
  | nil => simp
  | cons a t =>
    constructor
    · intro _
      exact ⟨a, List.mem_cons_self a t⟩
    · intro _
      exact List.cons_ne_nil a t

/-- C5: `get_game_status` answers CONTINUE exactly when the side to move has
a fully-legal move; with no legal move it answers WIN exactly when some
opponent pseudo-legal move captures a king, and DRAW exactly otherwise. -/
theorem C5_game_status (g : ChessGame) :
    (get_game_status g = GameStatus.CONTINUE ↔
      ∃ m, m ∈ team_moves g g.current_turn true) ∧
    (get_game_status g = GameStatus.WIN ↔
      (¬ ∃ m, m ∈ team_moves g g.current_turn true) ∧
      ∃ mv ∈ teamCandsNC g (if g.current_turn = 0 then 1 else 0),
        mv.flags &&& ATTACK ≠ 0 ∧ mv.get_attacked_piece_type = KING) ∧
    (get_game_status g = GameStatus.DRAW ↔
      (¬ ∃ m, m ∈ team_moves g g.current_turn true) ∧
      ¬ ∃ mv ∈ teamCandsNC g (if g.current_turn = 0 then 1 else 0),
        mv.flags &&& ATTACK ≠ 0 ∧ mv.get_attacked_piece_type = KING) := by
  have hne := ne_nil_iff_exists_mem (team_moves g g.current_turn true)
  have hchk : side_to_move_in_check g = true ↔
      ∃ mv ∈ teamCandsNC g (if g.current_turn = 0 then 1 else 0),
        mv.flags &&& ATTACK ≠ 0 ∧ mv.get_attacked_piece_type = KING := by
    unfold side_to_move_in_check
    rw [List.any_eq_true]
    constructor
    · rintro ⟨mv, hmem, hp⟩
      exact ⟨mv, hmem, of_decide_eq_true hp⟩
    · rintro ⟨mv, hmem, hp⟩
      exact ⟨mv, hmem, decide_eq_true hp⟩
  unfold get_game_status
  by_cases hmoves : team_moves g g.current_turn true ≠ []
  · rw [if_pos hmoves]
    refine ⟨⟨fun _ => hne.mp hmoves, fun _ => rfl⟩, ?_, ?_⟩
    · constructor
      · intro h
        exact absurd h (by decide)
      · rintro ⟨hno, _⟩
        exact absurd (hne.mp hmoves) hno
    · constructor
      · intro h
        exact absurd h (by decide)
      · rintro ⟨hno, _⟩
        exact absurd (hne.mp hmoves) hno
  · rw [if_neg hmoves]
    have hnoex : ¬ ∃ x, x ∈ team_moves g g.current_turn true :=
      fun he => hmoves (hne.mpr he)
    by_cases hc : side_to_move_in_check g = true
    · rw [if_pos hc]
      refine ⟨⟨fun h => absurd h (by decide), fun he => absurd he hnoex⟩,
        ⟨fun _ => ⟨hnoex, hchk.mp hc⟩, fun _ => rfl⟩, ?_⟩
      constructor
      · intro h
        exact absurd h (by decide)
      · rintro ⟨_, hno⟩
        exact absurd (hchk.mp hc) hno
    · rw [if_neg hc]
      refine ⟨⟨fun h => absurd h (by decide), fun he => absurd he hnoex⟩, ?_,
        ⟨fun _ => ⟨hnoex, fun hex => hc (hchk.mpr hex)⟩, fun _ => rfl⟩⟩
      constructor
      · intro h
        exact absurd h (by decide)
      · rintro ⟨_, hex⟩
        exact absurd (hchk.mpr hex) hc

/-- C6: the full-legality query applies the move, scans, and undoes it, and
the state it leaves behind is exactly the state it started from (board,
castling flags, side to move, and history), whatever boolean it returns. -/
theorem C6_legality_no_mutation {g : ChessGame} {pos : Nat} {m : Move}
    (hR : Reachable g) (hpos : pos < 64)
    (hteam : (bget g.board pos).team = g.current_turn)
    (hm : m ∈ pieceCands g pos true) :
    (check_move_full_legality_run g m).2 = g := by
  have hInv := Reachable_Inv hR
  have hmf := pieceCands_facts hInv hpos hm
  have hsrc := pieceCands_src hm
  show undo_last_move (performe_move g m) = g
  exact apply_undo hInv hmf (by rw [hsrc]; exact hteam)

theorem C6_legality_no_mutation_witness :
    Reachable init_game ∧ (57 : Nat) < 64 ∧
      (bget init_game.board 57).team = init_game.current_turn ∧
      (⟨57, 40, 0⟩ : Move) ∈ pieceCands init_game 57 true ∧
      (check_move_full_legality_run init_game ⟨57, 40, 0⟩).2 = init_game :=
  ⟨Reachable.init, by decide, by decide, by decide,
    @C6_legality_no_mutation init_game 57 ⟨57, 40, 0⟩ Reachable.init (by decide)
      (by decide) (by decide)⟩

/-- C7: an en-passant capture is only generated while the move on top of the
history is an opponent pawn's double step that landed adjacent to the
capturing pawn on its rank, and after any further legal move is applied the
en-passant move is absent from every generated move set of the new state. -/
theorem C7_ep_window {g : ChessGame} {epm : Move} {fc : Bool}
    (hInv : Inv g)
    (hepm : epm ∈ team_moves g g.current_turn fc)
    (hef : epm.flags &&& EN_PASSANT ≠ 0) :
    (∃ last rest, g.history = last :: rest ∧
      last.flags &&& DOUBLE_MOVE ≠ 0 ∧
      bget g.board last.destination = ⟨PAWN ||| (g.current_turn ^^^ 1)⟩ ∧
      epm.source / 8 = last.destination / 8 ∧
      ((epm.source % 8 : Int) - (last.destination % 8 : Int)).natAbs = 1 ∧
      (bget g.board epm.source).type = PAWN ∧
      (bget g.board epm.source).team = g.current_turn) ∧
    (∀ m', m' ∈ team_moves g g.current_turn true →
      ∀ t fc2, epm ∉ team_moves (performe_move g m') t fc2) := by
  obtain ⟨hmfE, htE, _⟩ := team_moves_facts hInv hepm
  obtain ⟨last, rest, hh, epfG⟩ := hmfE.ep_facts hef
  have hInv2 := hInv
  obtain ⟨len64, hflt, htle, hcells, hprowI, hepI, hkingI⟩ := hInv2
  have hpl := hepI last (by rw [hh]; simp) epfG.dbl
  constructor
  · exact ⟨last, rest, hh, epfG.dbl, hpl.2.2.1, epfG.row_eq, epfG.col_adj,
      epfG.src_pawn, htE⟩
  · intro m' hm' t fc2 hmem
    obtain ⟨hmf', ht', _⟩ := team_moves_facts hInv hm'
    have hInv' := Inv_performe hInv hmf' ht'
    obtain ⟨hmfE', _, _⟩ := team_moves_facts hInv' hmem
    obtain ⟨last2, rest2, hh2, epfG'⟩ := hmfE'.ep_facts hef
    have hcons : m' :: g.history = last2 :: rest2 := by
      rw [← performe_history g m']
      exact hh2
    obtain ⟨hle, hre⟩ := List.cons_eq_cons.mp hcons
    subst hle
    have hdblm' : m'.flags &&& DOUBLE_MOVE ≠ 0 := epfG'.dbl
    have dblf' := hmf'.dbl_facts hdblm'
    have hqd : bget g.board m'.destination = pieceNone :=
      hmf'.quiet_dst (by rw [dblf'.flags_eq]; decide)
        (by rw [dblf'.flags_eq]; decide)
    have hocc_last : bget g.board last.destination ≠ pieceNone := by
      rw [hpl.2.2.1]
      have h01 : g.current_turn = 0 ∨ g.current_turn = 1 := by omega
      rcases h01 with h | h <;> rw [h] <;> decide
    have hsm : epm.source ≠ m'.source := by
      have h1 := epfG.row_fifth
      have h2 := dblf'.src_row
      rcases WF_team (hcells _ hmfE.src_lt) with ha | ha <;>
        rcases WF_team (hcells _ hmf'.src_lt) with hb | hb <;>
          rw [ha] at h1 <;> rw [hb] at h2 <;> simp at h1 h2 <;> omega
    have hsd2 : epm.source ≠ m'.destination := by
      intro he2
      have h3 := epfG.src_pawn
      rw [he2, hqd] at h3
      exact absurd h3 (by decide)
    have hb2m : (performe_move g m').board =
        bset (bset g.board m'.destination (bget g.board m'.source)) m'.source
          pieceNone := by
      rw [performe_board, if_pos dblf'.src_pawn,
        if_neg (show ¬ m'.flags &&& EN_PASSANT ≠ 0 from
          fun hc => hc (by rw [dblf'.flags_eq]; decide)),
        if_neg (show ¬ m'.flags &&& PROMOTION ≠ 0 from
          fun hc => hc (by rw [dblf'.flags_eq]; decide))]
    have hsrc_same : bget (performe_move g m').board epm.source =
        bget g.board epm.source := by
      rw [hb2m, bget_bset_ne _ _ _ _ (Ne.symm hsm), bget_bset_ne _ _ _ _ (Ne.symm hsd2)]
    have e1 := epfG.dst_eq
    have e2 := epfG'.dst_eq
    rw [hsrc_same] at e2
    have heqd : last.destination = m'.destination := by omega
    rw [← heqd] at hqd
    exact hocc_last hqd

set_option maxRecDepth 1000000 in
theorem C7_ep_window_witness :
    Inv C7g ∧ (⟨28, 19, 4096⟩ : Move) ∈ team_moves C7g C7g.current_turn false ∧
      (⟨28, 19, 4096⟩ : Move).flags &&& EN_PASSANT ≠ 0 ∧
      ((∃ last rest, C7g.history = last :: rest ∧
        last.flags &&& DOUBLE_MOVE ≠ 0 ∧
        bget C7g.board last.destination = ⟨PAWN ||| (C7g.current_turn ^^^ 1)⟩ ∧
        (⟨28, 19, 4096⟩ : Move).source / 8 = last.destination / 8 ∧
        (((⟨28, 19, 4096⟩ : Move).source % 8 : Int) -
          (last.destination % 8 : Int)).natAbs = 1 ∧
        (bget C7g.board (⟨28, 19, 4096⟩ : Move).source).type = PAWN ∧
        (bget C7g.board (⟨28, 19, 4096⟩ : Move).source).team = C7g.current_turn) ∧
      (∀ m', m' ∈ team_moves C7g C7g.current_turn true →
        ∀ t fc2, (⟨28, 19, 4096⟩ : Move) ∉ team_moves (performe_move C7g m') t fc2)) :=
  ⟨by decide, by decide, by decide,
    @C7_ep_window C7g ⟨28, 19, 4096⟩ false (by decide) (by decide) (by decide)⟩

/-- C8 (amended): when the right-side right is absent and the left-side
castling preconditions hold (rights flag, rook on the corner, empty b/c/d
files, and the opponent pseudo-legal scan reaching none of the b1..e1
squares), the castle block produces exactly the two left-side king
destinations (files c and b); the full-check enumeration, however, emits the
king's candidates only after filtering each through
`check_move_full_legality`, so either castle move can still be dropped. -/
theorem C8_castle_filter {g : ChessGame} {pos : Nat}
    (hK : (bget g.board pos).type = KING)
    (hnR : ¬ can_castle_right g ((bget g.board pos).team = 0) = true)
    (hL : can_castle_left g ((bget g.board pos).team = 0) = true)
    (hrty : (pieceAt g 0 ((pos : Int) / 8)).type = ROOK)
    (hrtm : (pieceAt g 0 ((pos : Int) / 8)).team = (bget g.board pos).team)
    (he3 : ¬ Is_Occupied g 3 ((pos : Int) / 8) = true)
    (he2 : ¬ Is_Occupied g 2 ((pos : Int) / 8) = true)
    (he1 : ¬ Is_Occupied g 1 ((pos : Int) / 8) = true)
    (hsafe : ¬ any_legal_destinations_for_team g (bget g.board pos).other_team
      [((pos : Int) / 8 * 8 + 1).toNat, ((pos : Int) / 8 * 8 + 2).toNat,
       ((pos : Int) / 8 * 8 + 3).toNat, ((pos : Int) / 8 * 8 + 4).toNat] = true) :
    castleCands g pos =
      [mkMove pos 2 ((pos : Int) / 8)
        (kingFirstMoveFlags g ((bget g.board pos).team = 0)),
       mkMove pos 1 ((pos : Int) / 8)
        (kingFirstMoveFlags g ((bget g.board pos).team = 0))] ∧
    foreach_piece_legal_move g pos true =
      (kingNormalCands g pos ++ castleCands g pos).filter
        (check_move_full_legality g) := by
  have hNC : pieceCandsNC g pos = kingNormalCands g pos := by
    simp only [pieceCandsNC]
    rw [if_neg (show ¬ (bget g.board pos).type = PAWN from by rw [hK]; decide),
      if_pos hK]
  constructor
  · simp only [castleCands]
    rw [if_neg hnR, if_pos hL, if_pos (⟨hrty, hrtm, he3, he2, he1⟩ :
        (pieceAt g 0 ((pos : Int) / 8)).type = ROOK ∧ _), if_pos hsafe,
      List.nil_append]
  · unfold foreach_piece_legal_move
    rw [if_pos rfl]
    unfold pieceCands
    rw [if_pos (⟨rfl, hK⟩ : true = true ∧ _), hNC]

set_option maxRecDepth 1000000 in
theorem C8_castle_filter_witness :
    (bget g8.board 60).type = KING ∧
    (¬ can_castle_right g8 ((bget g8.board 60).team = 0) = true) ∧
    can_castle_left g8 ((bget g8.board 60).team = 0) = true ∧
    (pieceAt g8 0 (((60 : Nat) : Int) / 8)).type = ROOK ∧
    (pieceAt g8 0 (((60 : Nat) : Int) / 8)).team = (bget g8.board 60).team ∧
    (¬ Is_Occupied g8 3 (((60 : Nat) : Int) / 8) = true) ∧
    (¬ Is_Occupied g8 2 (((60 : Nat) : Int) / 8) = true) ∧
    (¬ Is_Occupied g8 1 (((60 : Nat) : Int) / 8) = true) ∧
    (¬ any_legal_destinations_for_team g8 (bget g8.board 60).other_team
      [(((60 : Nat) : Int) / 8 * 8 + 1).toNat, (((60 : Nat) : Int) / 8 * 8 + 2).toNat,
       (((60 : Nat) : Int) / 8 * 8 + 3).toNat,
       (((60 : Nat) : Int) / 8 * 8 + 4).toNat] = true) ∧
    (castleCands g8 60 =
      [mkMove 60 2 (((60 : Nat) : Int) / 8)
        (kingFirstMoveFlags g8 ((bget g8.board 60).team = 0)),
       mkMove 60 1 (((60 : Nat) : Int) / 8)
        (kingFirstMoveFlags g8 ((bget g8.board 60).team = 0))] ∧
    foreach_piece_legal_move g8 60 true =
      (kingNormalCands g8 60 ++ castleCands g8 60).filter
        (check_move_full_legality g8)) :=
  ⟨by decide, by decide, by decide, by decide, by decide, by decide, by decide,
    by decide, by decide,
    C8_castle_filter (by decide) (by decide) (by decide) (by decide) (by decide)
      (by decide) (by decide) (by decide) (by decide)⟩

set_option maxRecDepth 1000000 in
/-- C8 counterexample: at `g8` the left-side preconditions all hold and the
castle block produces both left destinations (c1 and b1), yet the full-check
enumeration of the king omits the b1 castle: the a2 pawn's capture of b1 is
invisible to the pre-scan (pawn captures onto empty squares are never
generated) but the post-filter `check_move_full_legality` rejects the move,
so the generator does not emit two castle moves. -/
theorem C8_counterexample :
    can_castle_left g8 ((bget g8.board 60).team = 0) = true ∧
    (pieceAt g8 0 (((60 : Nat) : Int) / 8)).type = ROOK ∧
    (¬ Is_Occupied g8 3 (((60 : Nat) : Int) / 8) = true) ∧
    (¬ Is_Occupied g8 2 (((60 : Nat) : Int) / 8) = true) ∧
    (¬ Is_Occupied g8 1 (((60 : Nat) : Int) / 8) = true) ∧
    (¬ any_legal_destinations_for_team g8 (bget g8.board 60).other_team
      [(((60 : Nat) : Int) / 8 * 8 + 1).toNat, (((60 : Nat) : Int) / 8 * 8 + 2).toNat,
       (((60 : Nat) : Int) / 8 * 8 + 3).toNat,
       (((60 : Nat) : Int) / 8 * 8 + 4).toNat] = true) ∧
    castleCands g8 60 = [⟨60, 58, 384⟩, ⟨60, 57, 384⟩] ∧
    (⟨60, 57, 384⟩ : Move) ∉ foreach_piece_legal_move g8 60 true := by
  decide

set_option maxRecDepth 1000000 in
/-- C9: from the initial position the full-check enumeration for the side to
move (white) yields exactly 20 fully-legal moves. -/
theorem C9_initial_move_count :
    (team_moves init_game init_game.current_turn true).length = 20 := by
  decide

/-- C10: when `minimax` is called with positive depth and the position after
the given move leaves the side then to move without a single fully-legal
reply, it returns `INT_MIN` for the maximizing player and `INT_MAX` for the
minimizing player, regardless of whether the stuck side is in check. -/
theorem C10_minimax_stuck {g : ChessGame} {m : Move} {is_max : Bool}
    {depth alpha beta : Int} (hd : 0 < depth)
    (hstuck : team_moves (performe_move g m)
      (performe_move g m).current_turn true = []) :
    minimax g m is_max depth alpha beta =
      if is_max = true then intMin else intMax := by
  unfold minimax
  rw [show depth.toNat + 1 = depth.toNat - 1 + 1 + 1 from by omega]
  simp only [minimaxAux]
  rw [if_neg (show ¬ depth ≤ 0 from by omega)]
  rcases is_max
  · rw [if_neg (show ¬ false = true from by decide), hstuck]
    simp only [minimaxFoldMin]
    rfl
  · rw [if_pos rfl, hstuck]
    simp only [minimaxFoldMax]
    rfl

set_option maxRecDepth 1000000 in
theorem C10_minimax_stuck_witness :
    (0 : Int) < 3 ∧
      team_moves (performe_move gM ⟨25, 17, 0⟩)
        (performe_move gM ⟨25, 17, 0⟩).current_turn true = [] ∧
      minimax gM ⟨25, 17, 0⟩ true 3 intMin intMax =
        (if (true : Bool) = true then intMin else intMax) :=
  ⟨by decide, by decide, C10_minimax_stuck (by decide) (by decide)⟩

end Chess
